import Mathlib

/-!
# Split-attention combine kernel (`hopper/flash_fwd_combine_kernel.h`)

A shallow embedding of `flash::FlashAttnFwdCombine::operator()` and a verification of its
merge, index-resolution and write-back behaviour.

Conventions of the embedding.

* Floating-point values are `Val`: a real number, `+inf`, `-inf` or NaN, with IEEE-754
  behaviour on the special values and exact real arithmetic on the finite ones (no rounding,
  no overflow, one zero).
* `int` variables of the source are `Int`; loop counters and scratch (shared-memory)
  coordinates are `Nat`.
* Tensors are functions of their logical coordinates.  A global tensor built at
  `ptr + offset * stride<0>` is the underlying buffer read at row `offset + row`.
* The source is written per thread.  Every scratch element, accumulator element and tile row
  is owned by exactly one thread and the per-thread loops are pointwise in those elements, so
  the tile-level functions below are the union over the threads of a compute unit; the
  cross-lane reductions of Step 4 are kept explicit.
* A `cp.async` transfer is modelled by its effect at the point of issue: global memory is
  read-only for the kernel and a stage is only refilled after it has been drained.
-/

namespace flash

/-! ## Floating-point values -/

/-- A `float`: a finite real, `+inf`, `-inf` or NaN. -/
inductive Val where
  | fin (r : ℝ)
  | posInf
  | negInf
  | nan

namespace Val

noncomputable section

/-- The constant `0.f`. -/
def zero : Val := fin 0

/-- The constant `1.f`. -/
def one : Val := fin 1

/-- IEEE addition `a + b`. -/
def add : Val → Val → Val
  | fin a, fin b => fin (a + b)
  | fin _, posInf => posInf
  | fin _, negInf => negInf
  | posInf, fin _ => posInf
  | posInf, posInf => posInf
  | negInf, fin _ => negInf
  | negInf, negInf => negInf
  | _, _ => nan

/-- IEEE negation. -/
def neg : Val → Val
  | fin a => fin (-a)
  | posInf => negInf
  | negInf => posInf
  | nan => nan

/-- IEEE subtraction `a - b`. -/
def sub (a b : Val) : Val := add a (neg b)

/-- Product of an infinity of the given sign (`true` for `+inf`) with the finite `r`. -/
def infMul (pos : Bool) (r : ℝ) : Val :=
  if r = 0 then nan
  else if 0 < r then (if pos then posInf else negInf)
  else (if pos then negInf else posInf)

/-- IEEE multiplication `a * b`. -/
def mul : Val → Val → Val
  | fin a, fin b => fin (a * b)
  | fin a, posInf => infMul true a
  | fin a, negInf => infMul false a
  | posInf, fin b => infMul true b
  | negInf, fin b => infMul false b
  | posInf, posInf => posInf
  | negInf, negInf => posInf
  | posInf, negInf => negInf
  | negInf, posInf => negInf
  | _, _ => nan

/-- The quotient `1.f / a` (the only division of the kernel). -/
def recip : Val → Val
  | fin a => if a = 0 then posInf else fin (1 / a)
  | posInf => fin 0
  | negInf => fin 0
  | nan => nan

/-- The function `expf`. -/
def exp : Val → Val
  | fin a => fin (Real.exp a)
  | posInf => posInf
  | negInf => fin 0
  | nan => nan

/-- The function `logf`. -/
def log : Val → Val
  | fin a => if 0 < a then fin (Real.log a) else if a = 0 then negInf else nan
  | posInf => posInf
  | negInf => nan
  | nan => nan

/-- IEEE comparison `a > b` (false as soon as one side is NaN). -/
def gt : Val → Val → Bool
  | fin a, fin b => decide (b < a)
  | fin _, negInf => true
  | posInf, fin _ => true
  | posInf, negInf => true
  | _, _ => false

/-- IEEE comparison `a == b` (false as soon as one side is NaN). -/
def beq : Val → Val → Bool
  | fin a, fin b => decide (a = b)
  | posInf, posInf => true
  | negInf, negInf => true
  | _, _ => false

/-- IEEE comparison `a != b`, the negation of `==`. -/
def bne (a b : Val) : Bool := !(beq a b)

/-- The device function `max(float, float)` (`fmaxf`): the larger operand, and the other
operand when one is NaN. -/
def fmax : Val → Val → Val
  | nan, b => b
  | a, nan => a
  | a, b => if gt b a then b else a

end

end Val

/-! ## Loops -/

/-- The loop `for (int i = lo; i < hi; ++i) st = body(i, st)`. -/
def forLoop {σ : Type} (lo hi : Nat) (body : Nat → σ → σ) (init : σ) : σ :=
  (List.range' lo (hi - lo)).foldl (fun st i => body i st) init

/-! ## Compile-time configuration -/

/-- The pipeline depth `kStages`. -/
def kStages : Nat := 4

/-- The template parameters of `FlashAttnFwdCombine` that the embedding depends on. -/
structure Config where
  /-- Template parameter `kLogMaxSplits_`. -/
  kLogMaxSplits : Nat
  /-- Template parameter `kNThreads` (`MaxThreadsPerBlock`). -/
  kNThreads : Nat
  /-- Tile height `get<0>(TileShape_MK{})`. -/
  kBlockM : Nat
  /-- Tile width `get<1>(TileShape_MK{})`. -/
  kHeadDim : Nat
  /-- Template parameter `AlignmentLSE_`. -/
  AlignmentLSE_ : Nat
  /-- Elements per 128-bit transfer of partial outputs, `sizeof(uint128_t) / sizeof(ElementAccum)`. -/
  kGmemElemsPerLoad : Nat
  /-- Template parameter `Is_even_K`. -/
  Is_even_K : Bool
  /-- Template parameter `Varlen`. -/
  Varlen : Bool

namespace Config

/-- The constant `kMaxSplits = 1 << kLogMaxSplits_`. -/
def kMaxSplits (cfg : Config) : Nat := 2 ^ cfg.kLogMaxSplits

/-- The constant `AlignmentLSE = min(AlignmentLSE_, 128 / 8 / sizeof(float))`. -/
def AlignmentLSE (cfg : Config) : Nat := min cfg.AlignmentLSE_ (128 / 8 / 4)

/-- The constant `kGmemElemsPerLoadLSE = sizeof(AlignmentTypeLSE) / sizeof(float)`, where
`AlignmentTypeLSE` has `sizeof(float) * AlignmentLSE` bytes. -/
def kGmemElemsPerLoadLSE (cfg : Config) : Nat := 4 * cfg.AlignmentLSE / 4

/-- The constant `kBlockMSmem`. -/
def kBlockMSmem (cfg : Config) : Nat :=
  if cfg.kBlockM % 128 = 0 then 128
  else if cfg.kBlockM % 64 = 0 then 64
  else if cfg.kBlockM % 32 = 0 then 32
  else if cfg.kBlockM % 16 = 0 then 16
  else 8

/-- The constant `kSmemThreadsPerColLSEt = MaxThreadsPerBlock / kBlockMSmem`: the number of
lanes that share one tile row in Step 4. -/
def kSmemThreadsPerColLSEt (cfg : Config) : Nat := cfg.kNThreads / cfg.kBlockMSmem

/-- The extent `size<1>(ts2rrLSE)`: the number of split slots of one row that a single lane
holds in registers (`S2RTiledCopyLSE` spreads the `kMaxSplits` slots of a row over
`kSmemThreadsPerColLSEt` lanes). -/
def slotsPerLane (cfg : Config) : Nat := cfg.kMaxSplits / cfg.kSmemThreadsPerColLSEt

/-- The `static_assert`s of lines 32, 67, 68, 105 and 85, in this order, together with the
requirement of the register partition of Step 3 that there is at least one lane per row and
that the lanes of a row divide its `kMaxSplits` slots evenly. -/
def WellFormed (cfg : Config) : Prop :=
  1 ≤ cfg.AlignmentLSE ∧
  cfg.kBlockM % cfg.kGmemElemsPerLoadLSE = 0 ∧
  cfg.kBlockM % 8 = 0 ∧
  cfg.kNThreads % cfg.kBlockMSmem = 0 ∧
  (cfg.kBlockM * cfg.kMaxSplits * cfg.AlignmentLSE) % cfg.kNThreads = 0 ∧
  0 < cfg.kSmemThreadsPerColLSEt ∧
  cfg.kMaxSplits % cfg.kSmemThreadsPerColLSEt = 0

instance (cfg : Config) : Decidable cfg.WellFormed := by
  unfold WellFormed; infer_instance

end Config

/-! ## Step 4: the statistic merge -/

/-- The split slot that lane `l` of a row holds in its register slot `j`
(`S2RLayoutAtomLSE` is column-major over `(kSmemThreadsPerColLSEt, ...)`). -/
def laneSlot (cfg : Config) (l j : Nat) : Nat := l + cfg.kSmemThreadsPerColLSEt * j

/-- Modelled from the spec: `Allreduce<THREADS>::run` of `utils.h`, which is not part of the
sources: the cross-lane reduction among the `THREADS` lanes sharing a row, after which every
lane holds `op` folded over the values of all of them. -/
def Allreduce (THREADS : Nat) (op : Val → Val → Val) (x : Nat → Val) : Val :=
  forLoop 1 THREADS (fun l acc => op acc (x l)) (x 0)

/-- What Step 4 leaves for one tile row: the final statistic `lse_sum(m)` and the
renormalisation weights that replace the statistics in the row's slots. -/
structure MergedRow where
  /-- The value `lse_sum(m)`. -/
  lse_sum : Val
  /-- The content of `ts2rrLSE(_, s, m)` after the loop, by split slot. -/
  scale : Nat → Val

section

/-- The within-lane maximum of lane `l` (lines 317-319). -/
noncomputable def laneMax (cfg : Config) (row : Nat → Val) (l : Nat) : Val :=
  forLoop 1 cfg.slotsPerLane (fun s lse_max => Val.fmax lse_max (row (laneSlot cfg l s)))
    (row (laneSlot cfg l 0))

/-- The row maximum `lse_max` after the cross-lane reduction (line 321). -/
noncomputable def rowMax (cfg : Config) (row : Nat → Val) : Val :=
  Allreduce cfg.kSmemThreadsPerColLSEt Val.fmax (laneMax cfg row)

/-- The value `lse_max_cur` (line 322). -/
noncomputable def lseMaxCur (cfg : Config) (row : Nat → Val) : Val :=
  if Val.beq (rowMax cfg row) Val.negInf then Val.zero else rowMax cfg row

/-- The value `scale = expf(lse - lse_max_cur)` of a slot (line 326). -/
noncomputable def rawScale (cfg : Config) (row : Nat → Val) (s : Nat) : Val :=
  Val.exp (Val.sub (row s) (lseMaxCur cfg row))

/-- The within-lane sum of lane `l` (lines 323-331). -/
noncomputable def laneSum (cfg : Config) (row : Nat → Val) (l : Nat) : Val :=
  forLoop 0 cfg.slotsPerLane
    (fun s lse_sum_cur => Val.add lse_sum_cur (rawScale cfg row (laneSlot cfg l s))) Val.zero

/-- The row sum `lse_sum_cur` after the cross-lane reduction (line 333). -/
noncomputable def rowSum (cfg : Config) (row : Nat → Val) : Val :=
  Allreduce cfg.kSmemThreadsPerColLSEt Val.add (laneSum cfg row)

/-- The factor `inv_sum` (line 335). -/
noncomputable def invSum (cfg : Config) (row : Nat → Val) : Val :=
  if Val.beq (rowSum cfg row) Val.zero || Val.bne (rowSum cfg row) (rowSum cfg row)
  then Val.zero else Val.recip (rowSum cfg row)

/-- Step 4 for one tile row whose slots hold `row` (lines 316-338). -/
noncomputable def mergeRow (cfg : Config) (row : Nat → Val) : MergedRow where
  lse_sum := Val.add (Val.log (rowSum cfg row)) (rowMax cfg row)
  scale := fun s => Val.mul (rawScale cfg row s) (invSum cfg row)

end

/-! ## Kernel parameters -/

/-- The fast-divide operator `cutlass::FastDivmod`, by its divisor. -/
structure FastDivmod where
  /-- The divisor the operator was built from. -/
  divisor : Int

/-- Modelled from the spec: `cutlass::FastDivmod::divmod(remainder, dividend)`, which is not
part of the sources: the integer divide/modulo by the divisor.  The pair is
`(quotient, remainder)`; the source receives the quotient as return value and the remainder
through its first argument. -/
def FastDivmod.divmod (d : FastDivmod) (dividend : Int) : Int × Int :=
  (dividend / d.divisor, dividend % d.divisor)

/-- The shape `ShapeLSEPartial`: `(seqlen, num_splits, head, batch)`. -/
structure ShapeLSEPartial where
  /-- Mode 0. -/
  seqlen : Int
  /-- Mode 1. -/
  num_splits : Int
  /-- Mode 2. -/
  head : Int
  /-- Mode 3. -/
  batch : Int

/-- The shape `ShapeOPartial`: `(seqlen, d, num_splits, head, batch)`. -/
structure ShapeOPartial where
  /-- Mode 0. -/
  seqlen : Int
  /-- Mode 1. -/
  d : Int
  /-- Mode 2. -/
  num_splits : Int
  /-- Mode 3. -/
  head : Int
  /-- Mode 4. -/
  batch : Int

/-- The read-only part of `Arguments`.  The partial buffers are functions of their logical
coordinates, `(row, column, split, head, batch)` and `(row, split, head, batch)`; a null
table pointer is `none`. -/
structure Arguments where
  /-- The partial outputs. -/
  ptr_O_partial : Int → Int → Int → Int → Int → Val
  /-- Their shape. -/
  shape_O_partial : ShapeOPartial
  /-- The partial statistics. -/
  ptr_LSE_partial : Int → Int → Int → Int → Val
  /-- Their shape. -/
  shape_LSE_partial : ShapeLSEPartial
  /-- The offset table. -/
  cu_seqlens : Option (Int → Int)
  /-- The used-length table. -/
  seqused : Option (Int → Int)

/-- The read-only part of `Params`. -/
structure Params where
  /-- The partial outputs. -/
  ptr_O_partial : Int → Int → Int → Int → Int → Val
  /-- Their shape. -/
  shape_O_partial : ShapeOPartial
  /-- The partial statistics. -/
  ptr_LSE_partial : Int → Int → Int → Int → Val
  /-- Their shape. -/
  shape_LSE_partial : ShapeLSEPartial
  /-- Fast divide by the sequence length. -/
  seqlen_divmod : FastDivmod
  /-- Fast divide by the head count. -/
  head_divmod : FastDivmod
  /-- The offset table. -/
  cu_seqlens : Option (Int → Int)
  /-- The used-length table. -/
  seqused : Option (Int → Int)

/-- The function `to_underlying_arguments` (lines 161-180). -/
def to_underlying_arguments (args : Arguments) : Params where
  ptr_O_partial := args.ptr_O_partial
  shape_O_partial := args.shape_O_partial
  ptr_LSE_partial := args.ptr_LSE_partial
  shape_LSE_partial := args.shape_LSE_partial
  seqlen_divmod := ⟨args.shape_LSE_partial.seqlen⟩
  head_divmod := ⟨args.shape_LSE_partial.head⟩
  cu_seqlens := args.cu_seqlens
  seqused := args.seqused

/-- The two writable buffers, by logical coordinates: the final statistic
`(row, head, batch)` and the final output `(row, column, head, batch)`. -/
structure Output (Element : Type) where
  /-- The final statistics. -/
  ptr_LSE : Int → Int → Int → Val
  /-- The final outputs. -/
  ptr_O : Int → Int → Int → Int → Element

/-- The scratch memory of a compute unit: `sLSE` by `(split slot, tile row)` and `sO` by
`(stage, tile row, column)`. -/
structure SharedStorage where
  /-- The tensor `sLSE`. -/
  smem_lse_partial : Nat → Nat → Val
  /-- The tensor `sO`. -/
  smem_o_partial : Nat → Nat → Nat → Val

/-- The block index of a compute unit. -/
structure BlockIdx where
  /-- The component `blockIdx.x`. -/
  x : Nat
  /-- The component `blockIdx.y`. -/
  y : Nat

/-! ## The unit's view of the problem (lines 192-200) -/

/-- The variable `m_block`. -/
def m_block (blockIdx : BlockIdx) : Int := blockIdx.x

/-- The variable `batch`. -/
def batch (cfg : Config) (blockIdx : BlockIdx) : Int :=
  if !cfg.Varlen then 0 else blockIdx.y

/-- The variable `num_splits`. -/
def num_splits (params : Params) : Int := params.shape_LSE_partial.num_splits

/-- The variable `offset`. -/
def offset (cfg : Config) (params : Params) (blockIdx : BlockIdx) : Int :=
  if !cfg.Varlen then 0
  else match params.cu_seqlens with
    | none => 0
    | some cu_seqlens => cu_seqlens (batch cfg blockIdx)

/-- The variable `seqlen`. -/
def seqlen (cfg : Config) (params : Params) (blockIdx : BlockIdx) : Int :=
  if !cfg.Varlen then params.shape_LSE_partial.seqlen
  else match params.seqused with
    | some seqused => seqused (batch cfg blockIdx)
    | none =>
      match params.cu_seqlens with
      | none => params.shape_LSE_partial.seqlen
      | some cu_seqlens => cu_seqlens (batch cfg blockIdx + 1) - offset cfg params blockIdx

/-- The variable `max_idx`. -/
def max_idx (cfg : Config) (params : Params) (blockIdx : BlockIdx) : Int :=
  seqlen cfg params blockIdx * params.shape_LSE_partial.head * params.shape_LSE_partial.batch

/-- The operator `seqlen_divmod_dynamic`. -/
def seqlen_divmod_dynamic (cfg : Config) (params : Params) (blockIdx : BlockIdx) : FastDivmod :=
  ⟨seqlen cfg params blockIdx⟩

/-! ## Index resolution -/

/-- The coordinates `(m_idx, bidh, bidb)` of a linear index. -/
structure Coord where
  /-- Position in the sequence. -/
  m_idx : Int
  /-- Head. -/
  bidh : Int
  /-- Batch. -/
  bidb : Int
  deriving DecidableEq

/-- The resolution of `idx`, written three times in the source (lines 220-226, 261-266 and
354-360). -/
def resolve (cfg : Config) (params : Params) (blockIdx : BlockIdx) (idx : Int) : Coord :=
  if !cfg.Varlen then
    let qr := params.seqlen_divmod.divmod idx
    let qr2 := params.head_divmod.divmod qr.1
    { m_idx := qr.2, bidh := qr2.2, bidb := qr2.1 }
  else
    let qr := (seqlen_divmod_dynamic cfg params blockIdx).divmod idx
    { m_idx := qr.2, bidh := qr.1, bidb := 0 }

/-- The linear index `idx = m_block * kBlockM + mi` of tile row `mi`. -/
def tileIdx (cfg : Config) (blockIdx : BlockIdx) (mi : Nat) : Int :=
  m_block blockIdx * cfg.kBlockM + mi

/-- The row of the statistic buffers that position `row` of the unit's tensors `mLSEpartial`
and `mLSE` stands for: both are built at `ptr + offset * stride<0>` (lines 203 and 345). -/
def lseRow (cfg : Config) (params : Params) (blockIdx : BlockIdx) (row : Int) : Int :=
  offset cfg params blockIdx + row

/-- The row of the output buffers that position `row` of the unit's tensors `mOpartial` and
`mO` stands for: both are built at `ptr + offset * stride<0>` (lines 276 and 434). -/
def oRow (cfg : Config) (params : Params) (blockIdx : BlockIdx) (row : Int) : Int :=
  offset cfg params blockIdx + row

/-! ## Step 1: the statistic loader -/

/-- Element `j` of the vector `mLSEpartial_copy(_, si, t, bidh, bidb)`.  The tensor is
`tiled_divide(mLSEpartial, Shape<_1, Int<kGmemElemsPerLoadLSE>>)`: its sequence mode is cut
into tiles of `kGmemElemsPerLoadLSE` positions and `t` selects a tile, so the element stands
at position `t * kGmemElemsPerLoadLSE + j` (the same operator is applied at line 277, with
tile index `k_idx = column / kGmemElemsPerLoad`). -/
def mLSEpartial_copy (cfg : Config) (params : Params) (blockIdx : BlockIdx) (j : Nat)
    (si t bidh bidb : Int) : Val :=
  params.ptr_LSE_partial (lseRow cfg params blockIdx (t * cfg.kGmemElemsPerLoadLSE + j))
    si bidh bidb

/-- The copy and the fill of lines 231-235 for split slot `si` and the vector of tile rows
that starts at `mi`. -/
def loadLSESlot (cfg : Config) (params : Params) (blockIdx : BlockIdx) (mi : Nat) (c : Coord)
    (si : Nat) (sLSE : Nat → Nat → Val) : Nat → Nat → Val :=
  if (si : Int) < num_splits params then
    fun s r =>
      if s = si ∧ mi ≤ r ∧ r < mi + cfg.kGmemElemsPerLoadLSE then
        mLSEpartial_copy cfg params blockIdx (r - mi) si c.m_idx c.bidh c.bidb
      else sLSE s r
  else
    fun s r =>
      if s = si ∧ mi ≤ r ∧ r < mi + cfg.kGmemElemsPerLoadLSE then Val.negInf else sLSE s r

/-- The body of the loop over `m` of Step 1 (lines 217-240) for the vector of
`kGmemElemsPerLoadLSE` tile rows whose first row is `mi`. -/
def loadLSERow (cfg : Config) (params : Params) (blockIdx : BlockIdx) (mi : Nat)
    (sLSE : Nat → Nat → Val) : Nat → Nat → Val :=
  let idx := tileIdx cfg blockIdx mi
  if idx < max_idx cfg params blockIdx then
    forLoop 0 cfg.kMaxSplits
      (loadLSESlot cfg params blockIdx mi (resolve cfg params blockIdx idx)) sLSE
  else sLSE

/-- Step 1 (lines 215-241), over the vectors of `kGmemElemsPerLoadLSE` tile rows and the
`kMaxSplits` split slots of the tile. -/
def loadLSE (cfg : Config) (params : Params) (blockIdx : BlockIdx)
    (sLSE : Nat → Nat → Val) : Nat → Nat → Val :=
  forLoop 0 (cfg.kBlockM / cfg.kGmemElemsPerLoadLSE)
    (fun m sLSE => loadLSERow cfg params blockIdx (m * cfg.kGmemElemsPerLoadLSE) sLSE) sLSE

/-! ## Step 2: validity marking and the first transfers -/

/-- The register `tOmidx(m)` of tile row `mi`. -/
def tOmidx (cfg : Config) (params : Params) (blockIdx : BlockIdx) (mi : Nat) : Int :=
  (resolve cfg params blockIdx (tileIdx cfg blockIdx mi)).m_idx

/-- The register `tObidh(m)` of tile row `mi`. -/
def tObidh (cfg : Config) (params : Params) (blockIdx : BlockIdx) (mi : Nat) : Int :=
  (resolve cfg params blockIdx (tileIdx cfg blockIdx mi)).bidh

/-- The register `tObidb(m)` of tile row `mi`, with the marker `-1` of line 267. -/
def tObidb (cfg : Config) (params : Params) (blockIdx : BlockIdx) (mi : Nat) : Int :=
  if tileIdx cfg blockIdx mi ≥ max_idx cfg params blockIdx then -1
  else (resolve cfg params blockIdx (tileIdx cfg blockIdx mi)).bidb

/-- The predicate `tOpO(k)` of the transfer vector that holds column `col`: its first
column lies within the output width (line 273). -/
def tOpO (cfg : Config) (params : Params) (col : Nat) : Bool :=
  decide (((col / cfg.kGmemElemsPerLoad * cfg.kGmemElemsPerLoad : Nat) : Int)
    < params.shape_O_partial.d)

/-- The guard `Is_even_K || tOpO(k)` of a column. -/
def colActive (cfg : Config) (params : Params) (col : Nat) : Bool :=
  cfg.Is_even_K || tOpO cfg params col

/-- Element `i` of the vector `mOpartial_copy(_, m_idx, k_idx, split, bidh, bidb)`: column
`k_idx * kGmemElemsPerLoad + i` of row `m_idx` of `mOpartial`. -/
def mOpartial_copy (cfg : Config) (params : Params) (blockIdx : BlockIdx) (i : Nat)
    (m_idx : Int) (k_idx : Nat) (split bidh bidb : Int) : Val :=
  params.ptr_O_partial (oRow cfg params blockIdx m_idx)
    ((k_idx * cfg.kGmemElemsPerLoad + i : Nat) : Int) split bidh bidb

/-- The value that a transfer of split `split` brings to tile row `mi`, column `col`:
element `col % kGmemElemsPerLoad` of the vector with `k_idx = col / kGmemElemsPerLoad`. -/
def fetched (cfg : Config) (params : Params) (blockIdx : BlockIdx) (split : Int)
    (mi col : Nat) : Val :=
  mOpartial_copy cfg params blockIdx (col % cfg.kGmemElemsPerLoad)
    (tOmidx cfg params blockIdx mi) (col / cfg.kGmemElemsPerLoad) split
    (tObidh cfg params blockIdx mi) (tObidb cfg params blockIdx mi)

/-- The lambda `load_O_partial(split, stage)` (lines 281-294). -/
def load_O_partial (cfg : Config) (params : Params) (blockIdx : BlockIdx) (split : Int)
    (stage : Nat) (sO : Nat → Nat → Nat → Val) : Nat → Nat → Nat → Val :=
  fun st mi col =>
    if st = stage ∧ tObidb cfg params blockIdx mi ≥ 0 ∧ colActive cfg params col = true then
      fetched cfg params blockIdx split mi col
    else sO st mi col

/-- The first transfers of Step 2 (lines 296-299). -/
def prologue (cfg : Config) (params : Params) (blockIdx : BlockIdx)
    (sO : Nat → Nat → Nat → Val) : Nat → Nat → Nat → Val :=
  forLoop 0 (kStages - 1) (fun s sO =>
    if (s : Int) < num_splits params then load_O_partial cfg params blockIdx s s sO else sO) sO

/-! ## Steps 3 to 5: merge of the tile and write-back of the statistic -/

/-- The register `lse_sum(m)` of tile row `mi` after Step 4. -/
noncomputable def lse_sum (cfg : Config) (sLSE : Nat → Nat → Val) (mi : Nat) : Val :=
  (mergeRow cfg (fun s => sLSE s mi)).lse_sum

/-- The scratch statistics after the weights were stored back (line 340). -/
noncomputable def storeScales (cfg : Config) (sLSE : Nat → Nat → Val) : Nat → Nat → Val :=
  fun s mi => (mergeRow cfg (fun t => sLSE t mi)).scale s

/-- The body of the loop of Step 5 (lines 350-364) for tile row `mi`, on the lane that holds
split slot 0 of the row. -/
def storeLSERow (cfg : Config) (params : Params) (blockIdx : BlockIdx) (lse_sum : Nat → Val)
    (mi : Nat) (mLSE : Int → Int → Int → Val) : Int → Int → Int → Val :=
  let idx := tileIdx cfg blockIdx mi
  if idx < max_idx cfg params blockIdx then
    let c := resolve cfg params blockIdx idx
    fun row h b =>
      if row = lseRow cfg params blockIdx c.m_idx ∧ h = c.bidh ∧ b = c.bidb then lse_sum mi
      else mLSE row h b
  else mLSE

/-- Step 5 (lines 348-365): for every tile row, the lane that holds split slot 0 writes the
final statistic. -/
def storeLSE (cfg : Config) (params : Params) (blockIdx : BlockIdx) (lse_sum : Nat → Val)
    (ptr_LSE : Int → Int → Int → Val) : Int → Int → Int → Val :=
  forLoop 0 cfg.kBlockM (storeLSERow cfg params blockIdx lse_sum) ptr_LSE

/-! ## Step 6: accumulation -/

/-- The state of the accumulation loop. -/
structure AccState where
  /-- The scratch ring `sO`. -/
  sO : Nat → Nat → Nat → Val
  /-- The accumulator `tOrO`, by tile row and column. -/
  tOrO : Nat → Nat → Val
  /-- The counter `stage_load`. -/
  stage_load : Nat
  /-- The counter `stage_compute`. -/
  stage_compute : Nat

/-- One iteration of the loop of Step 6 (lines 376-429) for split `s`. -/
noncomputable def accumulateStep (cfg : Config) (params : Params) (blockIdx : BlockIdx)
    (sLSE : Nat → Nat → Val) (s : Nat) (st : AccState) : AccState :=
  let scale_load : Nat → Val := fun mi => sLSE (s + kStages - 1) mi
  let scale : Nat → Val := fun mi => sLSE s mi
  let sO : Nat → Nat → Nat → Val :=
    if ((s + kStages - 1 : Nat) : Int) < num_splits params then
      fun stage mi col =>
        if stage = st.stage_load ∧ tObidb cfg params blockIdx mi ≥ 0 ∧
            Val.gt (scale_load mi) Val.zero = true ∧ colActive cfg params col = true then
          fetched cfg params blockIdx ((s + kStages - 1 : Nat) : Int) mi col
        else st.sO stage mi col
    else st.sO
  let stage_load := if st.stage_load < kStages - 1 then st.stage_load + 1 else 0
  let tOrOpartial : Nat → Nat → Val := sO st.stage_compute
  let stage_compute := if st.stage_compute < kStages - 1 then st.stage_compute + 1 else 0
  let tOrO : Nat → Nat → Val := fun mi col =>
    if tObidb cfg params blockIdx mi ≥ 0 ∧ Val.gt (scale mi) Val.zero = true ∧
        colActive cfg params col = true then
      Val.add (st.tOrO mi col) (Val.mul (scale mi) <| tOrOpartial mi col)
    else st.tOrO mi col
  { sO := sO, tOrO := tOrO, stage_load := stage_load, stage_compute := stage_compute }

/-- Step 6 (lines 373-429). -/
noncomputable def accumulate (cfg : Config) (params : Params) (blockIdx : BlockIdx)
    (sLSE : Nat → Nat → Val) (sO : Nat → Nat → Nat → Val) : AccState :=
  forLoop 0 (num_splits params).toNat (accumulateStep cfg params blockIdx sLSE)
    { sO := sO, tOrO := fun _ _ => Val.zero, stage_load := kStages - 1, stage_compute := 0 }

/-- The state of the loop of Step 6 when iteration `s` begins: the first `s` iterations
from the initial state of lines 373-374. -/
noncomputable def accumulateUpTo (cfg : Config) (params : Params) (blockIdx : BlockIdx)
    (sLSE : Nat → Nat → Val) (sO : Nat → Nat → Nat → Val) (s : Nat) : AccState :=
  forLoop 0 s (accumulateStep cfg params blockIdx sLSE)
    { sO := sO, tOrO := fun _ _ => Val.zero, stage_load := kStages - 1, stage_compute := 0 }

/-- The stage that iteration `s` drains: `stage_compute` at the copy of lines 410-411. -/
noncomputable def stageDrained (cfg : Config) (params : Params) (blockIdx : BlockIdx)
    (sLSE : Nat → Nat → Val) (sO : Nat → Nat → Nat → Val) (s : Nat) : Nat :=
  (accumulateUpTo cfg params blockIdx sLSE sO s).stage_compute

/-- The stage that iteration `s` fills with split `s + kStages - 1`: `stage_load` at the
transfer of line 398. -/
noncomputable def stageFilled (cfg : Config) (params : Params) (blockIdx : BlockIdx)
    (sLSE : Nat → Nat → Val) (sO : Nat → Nat → Nat → Val) (s : Nat) : Nat :=
  (accumulateUpTo cfg params blockIdx sLSE sO s).stage_load

/-- The stage into which the transfer of split `j` is issued: stage `j` by the call
`load_O_partial(s, s)` of line 297 for the first `kStages - 1` splits, and the stage filled
by iteration `j - (kStages - 1)` for the others. -/
noncomputable def stageIssued (cfg : Config) (params : Params) (blockIdx : BlockIdx)
    (sLSE : Nat → Nat → Val) (sO : Nat → Nat → Nat → Val) (j : Nat) : Nat :=
  if j < kStages - 1 then j
  else stageFilled cfg params blockIdx sLSE sO (j - (kStages - 1))

/-- One iteration of the loop of Step 6 with the weight test of the prefetch removed: the
guard of the transfer is the `if (tObidb(m) >= 0)` that line 393 keeps as a comment, so that
the transfer is issued for every valid row.  Everything else is `accumulateStep`. -/
noncomputable def accumulateStepNoSkip (cfg : Config) (params : Params) (blockIdx : BlockIdx)
    (sLSE : Nat → Nat → Val) (s : Nat) (st : AccState) : AccState :=
  let scale : Nat → Val := fun mi => sLSE s mi
  let sO : Nat → Nat → Nat → Val :=
    if ((s + kStages - 1 : Nat) : Int) < num_splits params then
      fun stage mi col =>
        if stage = st.stage_load ∧ tObidb cfg params blockIdx mi ≥ 0 ∧
            colActive cfg params col = true then
          fetched cfg params blockIdx ((s + kStages - 1 : Nat) : Int) mi col
        else st.sO stage mi col
    else st.sO
  let stage_load := if st.stage_load < kStages - 1 then st.stage_load + 1 else 0
  let tOrOpartial : Nat → Nat → Val := sO st.stage_compute
  let stage_compute := if st.stage_compute < kStages - 1 then st.stage_compute + 1 else 0
  let tOrO : Nat → Nat → Val := fun mi col =>
    if tObidb cfg params blockIdx mi ≥ 0 ∧ Val.gt (scale mi) Val.zero = true ∧
        colActive cfg params col = true then
      Val.add (st.tOrO mi col) (Val.mul (scale mi) <| tOrOpartial mi col)
    else st.tOrO mi col
  { sO := sO, tOrO := tOrO, stage_load := stage_load, stage_compute := stage_compute }

/-- Step 6 with the weight test of the prefetch removed. -/
noncomputable def accumulateNoSkip (cfg : Config) (params : Params) (blockIdx : BlockIdx)
    (sLSE : Nat → Nat → Val) (sO : Nat → Nat → Nat → Val) : AccState :=
  forLoop 0 (num_splits params).toNat (accumulateStepNoSkip cfg params blockIdx sLSE)
    { sO := sO, tOrO := fun _ _ => Val.zero, stage_load := kStages - 1, stage_compute := 0 }

/-! ## Step 7: write-back of the output -/

/-- The write of line 446 for tile row `mi` and column `col`. -/
def storeOElem {Element : Type} (cfg : Config) (params : Params) (blockIdx : BlockIdx)
    (rO : Nat → Nat → Element) (mi col : Nat) (mO : Int → Int → Int → Int → Element) :
    Int → Int → Int → Int → Element :=
  if colActive cfg params col = true then
    fun row c h b =>
      if row = oRow cfg params blockIdx (tOmidx cfg params blockIdx mi) ∧
          c = ((col / cfg.kGmemElemsPerLoad * cfg.kGmemElemsPerLoad
            + col % cfg.kGmemElemsPerLoad : Nat) : Int) ∧
          h = tObidh cfg params blockIdx mi ∧ b = tObidb cfg params blockIdx mi then
        rO mi col
      else mO row c h b
  else mO

/-- The body of the loop of Step 7 (lines 441-449) for tile row `mi`. -/
def storeORow {Element : Type} (cfg : Config) (params : Params) (blockIdx : BlockIdx)
    (rO : Nat → Nat → Element) (mi : Nat) (mO : Int → Int → Int → Int → Element) :
    Int → Int → Int → Int → Element :=
  if tObidb cfg params blockIdx mi ≥ 0 then
    forLoop 0 cfg.kHeadDim (storeOElem cfg params blockIdx rO mi) mO
  else mO

/-- Step 7 (lines 439-450); `rO` is the converted accumulator. -/
def storeO {Element : Type} (cfg : Config) (params : Params) (blockIdx : BlockIdx)
    (rO : Nat → Nat → Element) (ptr_O : Int → Int → Int → Int → Element) :
    Int → Int → Int → Int → Element :=
  forLoop 0 cfg.kBlockM (storeORow cfg params blockIdx rO) ptr_O

/-! ## The kernel -/

/-- The kernel body `operator()` of one compute unit: from the scratch memory as found and the
output buffers as found to the output buffers as left.  `convert_type` is the narrowing
`flash::convert_type<Element>` of `utils.h`, taken as a parameter. -/
noncomputable def combine {Element : Type} (convert_type : Val → Element) (cfg : Config)
    (params : Params) (blockIdx : BlockIdx) (smem : SharedStorage) (out : Output Element) :
    Output Element :=
  let sLSE := loadLSE cfg params blockIdx smem.smem_lse_partial
  let sO := prologue cfg params blockIdx smem.smem_o_partial
  let lse := lse_sum cfg sLSE
  let sLSE := storeScales cfg sLSE
  let mLSE := storeLSE cfg params blockIdx lse out.ptr_LSE
  let acc := accumulate cfg params blockIdx sLSE sO
  let mO := storeO cfg params blockIdx (fun mi col => convert_type (acc.tOrO mi col)) out.ptr_O
  { ptr_LSE := mLSE, ptr_O := mO }

/-- The accumulation of Step 6 without the scratch ring: every split's tile is taken from
the partial-output buffer at the moment it is consumed.  Used to state what the pipelined
loop computes. -/
noncomputable def accumulateDirect (cfg : Config) (params : Params) (blockIdx : BlockIdx)
    (sLSE : Nat → Nat → Val) (n : Nat) (mi col : Nat) : Val :=
  forLoop 0 n (fun s acc =>
    if tObidb cfg params blockIdx mi ≥ 0 ∧ Val.gt (sLSE s mi) Val.zero = true ∧
        colActive cfg params col = true then
      Val.add acc (Val.mul (sLSE s mi) (fetched cfg params blockIdx s mi col))
    else acc) Val.zero

/-! ## Vocabulary of the statements -/

/-- The invariant of the accumulation loop before iteration `s`: the counters are `s` and
`s + kStages - 1` modulo `kStages`, the accumulator is the direct accumulation of the first `s`
splits, and each of the next `kStages - 1` splits stands in its stage wherever it will be used. -/
def AccInv (cfg : Config) (params : Params) (blockIdx : BlockIdx) (sLSE : Nat → Nat → Val)
    (s : Nat) (st : AccState) : Prop :=
  st.stage_compute = s % kStages ∧ st.stage_load = (s + (kStages - 1)) % kStages ∧
  (∀ mi col, st.tOrO mi col = accumulateDirect cfg params blockIdx sLSE s mi col) ∧
  (∀ j mi col, s ≤ j → j < s + (kStages - 1) → (j : Int) < num_splits params →
    tObidb cfg params blockIdx mi ≥ 0 → Val.gt (sLSE j mi) Val.zero = true →
    colActive cfg params col = true →
    st.sO (j % kStages) mi col = fetched cfg params blockIdx j mi col)


/-- The relation between the loop of Step 6 and the loop without the weight test of the
prefetch before iteration `s`: the same counters, the same accumulator, and the same content
of the scratch ring wherever one of the next `kStages - 1` splits will be used. -/
def AccRel (cfg : Config) (params : Params) (blockIdx : BlockIdx) (sLSE : Nat → Nat → Val)
    (s : Nat) (st st2 : AccState) : Prop :=
  st.stage_compute = s % kStages ∧ st.stage_load = (s + (kStages - 1)) % kStages ∧
  st2.stage_compute = s % kStages ∧ st2.stage_load = (s + (kStages - 1)) % kStages ∧
  (∀ mi col, st.tOrO mi col = st2.tOrO mi col) ∧
  (∀ j mi col, s ≤ j → j < s + (kStages - 1) → (j : Int) < num_splits params →
    tObidb cfg params blockIdx mi ≥ 0 → Val.gt (sLSE j mi) Val.zero = true →
    colActive cfg params col = true →
    st.sO (j % kStages) mi col = st2.sO (j % kStages) mi col)

/-- A statistic as the specification describes it, a real number or the `-inf` sentinel (`none`),
as a `float`. -/
def Val.ofStat : Option ℝ → Val
  | some r => Val.fin r
  | none => Val.negInf

/-- The probability mass `exp s` of a statistic; the sentinel carries none. -/
noncomputable def statMass : Option ℝ → ℝ
  | some r => Real.exp r
  | none => 0

/-- The buffer coordinate `(row, h, b)` is the one that stands for tile row `mi`: the linear
index of `mi` passes the validity test and resolves to position `row - offset`, head `h` and
batch `b`. -/
def IsTarget (cfg : Config) (params : Params) (blockIdx : BlockIdx) (mi : Nat)
    (row h b : Int) : Prop :=
  tileIdx cfg blockIdx mi < max_idx cfg params blockIdx ∧
    row = offset cfg params blockIdx +
      (resolve cfg params blockIdx (tileIdx cfg blockIdx mi)).m_idx ∧
    h = (resolve cfg params blockIdx (tileIdx cfg blockIdx mi)).bidh ∧
    b = (resolve cfg params blockIdx (tileIdx cfg blockIdx mi)).bidb

instance (cfg : Config) (params : Params) (blockIdx : BlockIdx) (mi : Nat) (row h b : Int) :
    Decidable (IsTarget cfg params blockIdx mi row h b) := by
  unfold IsTarget; infer_instance

/-- What Step 1 brings to scratch slot `(s, r)` when the vector that holds tile row `r` is
loaded: with `mi` the first row of that vector and `c` the coordinates resolved from the linear
index of `mi`, element `r - mi` of the vector of split `s`, or the sentinel for a slot at or
beyond `num_splits`. -/
def loadedValue (cfg : Config) (params : Params) (blockIdx : BlockIdx) (s r : Nat) : Val :=
  let mi := r / cfg.kGmemElemsPerLoadLSE * cfg.kGmemElemsPerLoadLSE
  let c := resolve cfg params blockIdx (tileIdx cfg blockIdx mi)
  if (s : Int) < num_splits params then
    mLSEpartial_copy cfg params blockIdx (r - mi) s c.m_idx c.bidh c.bidb
  else Val.negInf

/-! ## Concrete inputs -/

/-- A configuration with 8 split slots, tiles of 8 rows and 32 threads: four lanes share a
row and each holds two of its slots. -/
def cfgEx : Config where
  kLogMaxSplits := 3
  kNThreads := 32
  kBlockM := 8
  kHeadDim := 32
  AlignmentLSE_ := 1
  kGmemElemsPerLoad := 4
  Is_even_K := true
  Varlen := false

/-- The statistics `[1, 2, -inf]` of the end-to-end scenario. -/
def statsEx : Nat → Option ℝ := fun i => if i = 0 then some 1 else if i = 1 then some 2 else none

/-- Scratch statistics whose every tile row holds `statsEx` in the first three slots and the
sentinel in the others. -/
def sLSEEx : Nat → Nat → Val := fun s _ => if s < 3 then Val.ofStat (statsEx s) else Val.negInf

/-- Parameters of the end-to-end scenario: one query position, three splits, one head, one
batch, partial outputs `[1, 1]`, `[3, 3]` and not-a-number for the third split. -/
noncomputable def paramsEx : Params where
  ptr_O_partial := fun _ _ split _ _ =>
    if split = 0 then Val.fin 1 else if split = 1 then Val.fin 3 else Val.nan
  shape_O_partial := { seqlen := 1, d := 2, num_splits := 3, head := 1, batch := 1 }
  ptr_LSE_partial := fun _ split _ _ =>
    if split = 0 then Val.fin 1 else if split = 1 then Val.fin 2 else Val.negInf
  shape_LSE_partial := { seqlen := 1, num_splits := 3, head := 1, batch := 1 }
  seqlen_divmod := ⟨1⟩
  head_divmod := ⟨1⟩
  cu_seqlens := none
  seqused := none

/-- Parameters with a single split whose partial outputs are all `1`. -/
noncomputable def paramsOne : Params where
  ptr_O_partial := fun _ _ _ _ _ => Val.fin 1
  shape_O_partial := { seqlen := 1, d := 2, num_splits := 1, head := 1, batch := 1 }
  ptr_LSE_partial := fun _ _ _ _ => Val.negInf
  shape_LSE_partial := { seqlen := 1, num_splits := 1, head := 1, batch := 1 }
  seqlen_divmod := ⟨1⟩
  head_divmod := ⟨1⟩
  cu_seqlens := none
  seqused := none

/-- Arguments of a fixed-length problem with sequence length 3, two heads and two batches. -/
def argsEx : Arguments where
  ptr_O_partial := fun _ _ _ _ _ => Val.nan
  shape_O_partial := { seqlen := 3, d := 2, num_splits := 1, head := 2, batch := 2 }
  ptr_LSE_partial := fun _ _ _ _ => Val.negInf
  shape_LSE_partial := { seqlen := 3, num_splits := 1, head := 2, batch := 2 }
  cu_seqlens := none
  seqused := none

/-- The configuration `cfgEx` in variable-length mode. -/
def cfgVarlen : Config := { cfgEx with Varlen := true }

/-- Variable-length parameters with a used-length table only: every batch uses 2 positions,
one head, and the shape has batch extent 2. -/
def paramsUsed : Params where
  ptr_O_partial := fun _ _ _ _ _ => Val.nan
  shape_O_partial := { seqlen := 2, d := 2, num_splits := 1, head := 1, batch := 2 }
  ptr_LSE_partial := fun _ _ _ _ => Val.negInf
  shape_LSE_partial := { seqlen := 2, num_splits := 1, head := 1, batch := 2 }
  seqlen_divmod := ⟨2⟩
  head_divmod := ⟨1⟩
  cu_seqlens := none
  seqused := some (fun _ => 2)

/-- The offset table 0, 3, 5 of two packed sequences of lengths 3 and 2. -/
def cuPacked : Int → Int := fun b => if b ≤ 0 then 0 else if b = 1 then 3 else 5

/-- Variable-length parameters over a flattened buffer of two sequences of lengths 3 and 2
(offsets 0, 3, 5), one head. -/
def paramsPacked : Params where
  ptr_O_partial := fun _ _ _ _ _ => Val.nan
  shape_O_partial := { seqlen := 5, d := 2, num_splits := 1, head := 1, batch := 1 }
  ptr_LSE_partial := fun _ _ _ _ => Val.negInf
  shape_LSE_partial := { seqlen := 5, num_splits := 1, head := 1, batch := 1 }
  seqlen_divmod := ⟨5⟩
  head_divmod := ⟨1⟩
  cu_seqlens := some cuPacked
  seqused := none

/-- Scratch memory holding the sentinel and not-a-number everywhere. -/
def smemEx : SharedStorage where
  smem_lse_partial := fun _ _ => Val.negInf
  smem_o_partial := fun _ _ _ => Val.nan

/-- Output buffers pre-filled with not-a-number. -/
def outEx : Output Val where
  ptr_LSE := fun _ _ _ => Val.nan
  ptr_O := fun _ _ _ _ => Val.nan

/-- The configuration `cfgEx` with statistic transfers of two elements
(`AlignmentLSE_ = 2`). -/
def cfgVec : Config := { cfgEx with AlignmentLSE_ := 2 }

/-- Fixed-length parameters with 8 positions, one split, one head and one batch, whose
partial statistic at position `row` is the number `row`. -/
noncomputable def paramsVec : Params where
  ptr_O_partial := fun _ _ _ _ _ => Val.nan
  shape_O_partial := { seqlen := 8, d := 2, num_splits := 1, head := 1, batch := 1 }
  ptr_LSE_partial := fun row _ _ _ => Val.fin (row : ℝ)
  shape_LSE_partial := { seqlen := 8, num_splits := 1, head := 1, batch := 1 }
  seqlen_divmod := ⟨8⟩
  head_divmod := ⟨1⟩
  cu_seqlens := none
  seqused := none

/-- The parameters `paramsEx` with eight splits instead of three. -/
noncomputable def paramsEight : Params :=
  { paramsEx with
    shape_O_partial := { seqlen := 1, d := 2, num_splits := 8, head := 1, batch := 1 }
    shape_LSE_partial := { seqlen := 1, num_splits := 8, head := 1, batch := 1 } }

/-- Scratch statistics whose every tile row holds not-a-number in slot 0 and the sentinel
in the other slots. -/
def sLSENaN : Nat → Nat → Val := fun s _ => if s = 0 then Val.nan else Val.negInf

/-- The configuration `cfgVec` (two statistics per transfer) in variable-length mode. -/
def cfgVecVarlen : Config := { cfgVec with Varlen := true }

/-- Variable-length parameters with a used-length table only: 3 positions used of 8, one
head, batch extent 1, and the partial statistic at position `row` is the number `row`. -/
noncomputable def paramsVecUsed : Params where
  ptr_O_partial := fun _ _ _ _ _ => Val.nan
  shape_O_partial := { seqlen := 8, d := 2, num_splits := 1, head := 1, batch := 1 }
  ptr_LSE_partial := fun row _ _ _ => Val.fin (row : ℝ)
  shape_LSE_partial := { seqlen := 8, num_splits := 1, head := 1, batch := 1 }
  seqlen_divmod := ⟨8⟩
  head_divmod := ⟨1⟩
  cu_seqlens := none
  seqused := some (fun _ => 3)

/-! # Verification -/

/-! ## Loops -/

theorem forLoop_of_le {σ : Type} (lo hi : Nat) (body : Nat → σ → σ) (init : σ) (h : hi ≤ lo) :
    forLoop lo hi body init = init := by
  have h0 : hi - lo = 0 := by omega
  simp [forLoop, h0]

theorem forLoop_succ {σ : Type} (lo hi : Nat) (body : Nat → σ → σ) (init : σ) (h : lo ≤ hi) :
    forLoop lo (hi + 1) body init = body hi (forLoop lo hi body init) := by
  have h1 : hi + 1 - lo = (hi - lo) + 1 := by omega
  have h2 : lo + (hi - lo) = hi := by omega
  simp [forLoop, h1, List.range'_1_concat, List.foldl_append, h2]

/-- Invariant rule for `forLoop`. -/
theorem forLoop_invariant {σ : Type} (P : Nat → σ → Prop) (lo hi : Nat) (body : Nat → σ → σ)
    (init : σ) (h : lo ≤ hi) (h0 : P lo init)
    (hstep : ∀ i st, lo ≤ i → i < hi → P i st → P (i + 1) (body i st)) :
    P hi (forLoop lo hi body init) := by
  induction hi with
  | zero =>
    have : lo = 0 := by omega
    subst this
    simpa [forLoop_of_le] using h0
  | succ n ih =>
    rcases Nat.lt_or_ge n lo with hlt | hge
    · have : lo = n + 1 := by omega
      subst this
      simpa [forLoop_of_le] using h0
    · rw [forLoop_succ _ _ _ _ hge]
      exact hstep n _ hge (Nat.lt_succ_self n)
        (ih hge (fun i st h1 h2 hp => hstep i st h1 (Nat.lt_succ_of_lt h2) hp))

/-! ## Arithmetic on statistics -/

theorem fmax_ofStat (a b : Option ℝ) :
    ∃ c, Val.fmax (Val.ofStat a) (Val.ofStat b) = Val.ofStat c ∧
      (c = none ↔ a = none ∧ b = none) := by
  cases a with
  | none =>
    cases b with
    | none => exact ⟨none, by simp [Val.ofStat, Val.fmax, Val.gt], by simp⟩
    | some y => exact ⟨some y, by simp [Val.ofStat, Val.fmax, Val.gt], by simp⟩
  | some x =>
    cases b with
    | none => exact ⟨some x, by simp [Val.ofStat, Val.fmax, Val.gt], by simp⟩
    | some y =>
      by_cases hxy : x < y
      · exact ⟨some y, by simp [Val.ofStat, Val.fmax, Val.gt, hxy], by simp⟩
      · exact ⟨some x, by simp [Val.ofStat, Val.fmax, Val.gt, hxy], by simp⟩

theorem ofStat_eq_negInf (c : Option ℝ) : Val.ofStat c = Val.negInf ↔ c = none := by
  cases c <;> simp [Val.ofStat]

/-- A running `fmax` over statistics is a statistic, and it is the sentinel only when the
initial value and every visited value are. -/
theorem forLoop_fmax_stat (g : Nat → Val) (lo hi : Nat) (h : lo ≤ hi) (init : Option ℝ)
    (hg : ∀ i, lo ≤ i → i < hi → ∃ a, g i = Val.ofStat a) :
    ∃ c, forLoop lo hi (fun i acc => Val.fmax acc (g i)) (Val.ofStat init) = Val.ofStat c ∧
      (c = none ↔ init = none ∧ ∀ i, lo ≤ i → i < hi → g i = Val.negInf) := by
  refine forLoop_invariant
    (fun i st => ∃ c, st = Val.ofStat c ∧
      (c = none ↔ init = none ∧ ∀ j, lo ≤ j → j < i → g j = Val.negInf))
    lo hi _ _ h ⟨init, rfl, ?_⟩ ?_
  · constructor
    · intro hc
      exact ⟨hc, fun j h1 h2 => absurd h2 (by omega)⟩
    · intro hc
      exact hc.1
  · rintro i st h1 h2 ⟨c, rfl, hc⟩
    obtain ⟨a, ha⟩ := hg i h1 h2
    obtain ⟨d, hd, hd2⟩ := fmax_ofStat c a
    refine ⟨d, by simp only [ha, hd], ?_⟩
    rw [hd2, hc]
    constructor
    · rintro ⟨⟨h3, h4⟩, h5⟩
      refine ⟨h3, fun j hj1 hj2 => ?_⟩
      rcases Nat.lt_or_ge j i with hlt | hge
      · exact h4 j hj1 hlt
      · have : j = i := by omega
        subst this
        rw [ha, h5]
        rfl
    · rintro ⟨h3, h4⟩
      refine ⟨⟨h3, fun j hj1 hj2 => h4 j hj1 (by omega)⟩, ?_⟩
      have := h4 i h1 (by omega)
      rw [ha] at this
      exact (ofStat_eq_negInf a).1 this

/-- A running sum of finite values is the finite sum. -/
theorem forLoop_add_fin (f : Nat → ℝ) (g : Nat → Val) (lo hi : Nat) (h : lo ≤ hi) (a : ℝ)
    (hg : ∀ i, lo ≤ i → i < hi → g i = Val.fin (f i)) :
    forLoop lo hi (fun i acc => Val.add acc (g i)) (Val.fin a) =
      Val.fin (a + ∑ i in Finset.Ico lo hi, f i) := by
  refine forLoop_invariant
    (fun i st => st = Val.fin (a + ∑ j in Finset.Ico lo i, f j)) lo hi _ _ h (by simp) ?_
  rintro i st h1 h2 rfl
  rw [hg i h1 h2, Finset.sum_Ico_succ_top h1]
  simp [Val.add, add_assoc]

/-- Summing lane by lane over the strided slots of each lane visits every slot once. -/
theorem sum_lanes (f : Nat → ℝ) (T n : Nat) :
    ∑ l in Finset.range T, ∑ j in Finset.range n, f (l + T * j) =
      ∑ s in Finset.range (T * n), f s := by
  induction n with
  | zero => simp
  | succ n ih =>
    have h1 : T * (n + 1) = T * n + T := by ring
    rw [h1, Finset.sum_range_add, ← ih, ← Finset.sum_add_distrib]
    refine Finset.sum_congr rfl (fun l _ => ?_)
    rw [Finset.sum_range_succ, Nat.add_comm l (T * n)]

/-! ## Step 4 -/

theorem Config.lanes_mul_slots (cfg : Config) (hwf : cfg.WellFormed) :
    cfg.kSmemThreadsPerColLSEt * cfg.slotsPerLane = cfg.kMaxSplits := by
  obtain ⟨_, _, _, _, _, _, hdiv⟩ := hwf
  exact Nat.mul_div_cancel' (Nat.dvd_of_mod_eq_zero hdiv)

theorem Config.kMaxSplits_pos (cfg : Config) : 0 < cfg.kMaxSplits := by
  unfold Config.kMaxSplits
  positivity

theorem Config.slotsPerLane_pos (cfg : Config) (hwf : cfg.WellFormed) :
    0 < cfg.slotsPerLane := by
  have h1 := cfg.lanes_mul_slots hwf
  have h2 := cfg.kMaxSplits_pos
  rcases Nat.eq_zero_or_pos cfg.slotsPerLane with h | h
  · rw [h, Nat.mul_zero] at h1
    omega
  · exact h

theorem laneSlot_lt (cfg : Config) (hwf : cfg.WellFormed) (l j : Nat)
    (hl : l < cfg.kSmemThreadsPerColLSEt) (hj : j < cfg.slotsPerLane) :
    laneSlot cfg l j < cfg.kMaxSplits := by
  rw [← cfg.lanes_mul_slots hwf]
  unfold laneSlot
  have h1 : cfg.kSmemThreadsPerColLSEt * (j + 1) ≤ cfg.kSmemThreadsPerColLSEt * cfg.slotsPerLane :=
    Nat.mul_le_mul_left _ hj
  rw [Nat.mul_add, Nat.mul_one] at h1
  omega

/-- Every slot of a row belongs to some lane. -/
theorem exists_laneSlot (cfg : Config) (hwf : cfg.WellFormed) (s : Nat)
    (hs : s < cfg.kMaxSplits) :
    ∃ l j, l < cfg.kSmemThreadsPerColLSEt ∧ j < cfg.slotsPerLane ∧ laneSlot cfg l j = s := by
  have hT : 0 < cfg.kSmemThreadsPerColLSEt := hwf.2.2.2.2.2.1
  refine ⟨s % cfg.kSmemThreadsPerColLSEt, s / cfg.kSmemThreadsPerColLSEt,
    Nat.mod_lt _ hT, ?_, Nat.mod_add_div _ _⟩
  rw [Nat.div_lt_iff_lt_mul hT, Nat.mul_comm, cfg.lanes_mul_slots hwf]
  exact hs

theorem laneMax_stat (cfg : Config) (hwf : cfg.WellFormed) (row : Nat → Val)
    (st : Nat → Option ℝ) (hrow : ∀ s, s < cfg.kMaxSplits → row s = Val.ofStat (st s))
    (l : Nat) (hl : l < cfg.kSmemThreadsPerColLSEt) :
    ∃ c, laneMax cfg row l = Val.ofStat c ∧
      (c = none ↔ ∀ j, j < cfg.slotsPerLane → st (laneSlot cfg l j) = none) := by
  have hn := cfg.slotsPerLane_pos hwf
  obtain ⟨c, hc, hc2⟩ := forLoop_fmax_stat (fun s => row (laneSlot cfg l s)) 1 cfg.slotsPerLane
    hn (st (laneSlot cfg l 0))
    (fun i _ h2 => ⟨st (laneSlot cfg l i), hrow _ (laneSlot_lt cfg hwf l i hl h2)⟩)
  refine ⟨c, ?_, ?_⟩
  · unfold laneMax
    rw [hrow _ (laneSlot_lt cfg hwf l 0 hl hn)]
    exact hc
  · rw [hc2]
    constructor
    · rintro ⟨h0, h1⟩ j hj
      rcases Nat.eq_zero_or_pos j with h | h
      · rw [h]; exact h0
      · have := h1 j h hj
        rw [hrow _ (laneSlot_lt cfg hwf l j hl hj)] at this
        exact (ofStat_eq_negInf _).1 this
    · intro h
      refine ⟨h 0 hn, fun j _ hj => ?_⟩
      rw [hrow _ (laneSlot_lt cfg hwf l j hl hj), h j hj]
      rfl

/-- The row maximum of a row of statistics is a statistic, and it is the sentinel exactly
when every slot holds the sentinel. -/
theorem rowMax_stat (cfg : Config) (hwf : cfg.WellFormed) (row : Nat → Val)
    (st : Nat → Option ℝ) (hrow : ∀ s, s < cfg.kMaxSplits → row s = Val.ofStat (st s)) :
    ∃ c, rowMax cfg row = Val.ofStat c ∧
      (c = none ↔ ∀ s, s < cfg.kMaxSplits → st s = none) := by
  have hT : 0 < cfg.kSmemThreadsPerColLSEt := hwf.2.2.2.2.2.1
  have hlane := laneMax_stat cfg hwf row st hrow
  choose c hc hc2 using hlane
  obtain ⟨d, hd, hd2⟩ := forLoop_fmax_stat (laneMax cfg row) 1 cfg.kSmemThreadsPerColLSEt hT
    (c 0 hT) (fun i _ h2 => ⟨c i h2, hc i h2⟩)
  refine ⟨d, ?_, ?_⟩
  · unfold rowMax Allreduce
    rw [hc 0 hT]
    exact hd
  · rw [hd2]
    constructor
    · rintro ⟨h0, h1⟩ s hs
      obtain ⟨l, j, hl, hj, rfl⟩ := exists_laneSlot cfg hwf s hs
      rcases Nat.eq_zero_or_pos l with h | h
      · subst h
        exact (hc2 0 hT).1 h0 j hj
      · have := h1 l h hl
        rw [hc l hl] at this
        exact (hc2 l hl).1 ((ofStat_eq_negInf _).1 this) j hj
    · intro h
      refine ⟨(hc2 0 hT).2 (fun j hj => h _ (laneSlot_lt cfg hwf 0 j hT hj)), fun l _ hl => ?_⟩
      rw [hc l hl]
      exact (ofStat_eq_negInf _).2
        ((hc2 l hl).2 (fun j hj => h _ (laneSlot_lt cfg hwf l j hl hj)))

/-- When every slot's `scale` is finite, the row sum is the finite sum over all slots. -/
theorem rowSum_fin (cfg : Config) (hwf : cfg.WellFormed) (row : Nat → Val) (f : Nat → ℝ)
    (hf : ∀ s, s < cfg.kMaxSplits → rawScale cfg row s = Val.fin (f s)) :
    rowSum cfg row = Val.fin (∑ s in Finset.range cfg.kMaxSplits, f s) := by
  have hT : 0 < cfg.kSmemThreadsPerColLSEt := hwf.2.2.2.2.2.1
  have hlane : ∀ l, l < cfg.kSmemThreadsPerColLSEt →
      laneSum cfg row l = Val.fin (∑ j in Finset.range cfg.slotsPerLane, f (laneSlot cfg l j)) := by
    intro l hl
    unfold laneSum Val.zero
    rw [forLoop_add_fin (fun j => f (laneSlot cfg l j)) _ 0 cfg.slotsPerLane (Nat.zero_le _) 0
      (fun i _ h2 => hf _ (laneSlot_lt cfg hwf l i hl h2))]
    simp
  unfold rowSum Allreduce
  rw [hlane 0 hT, forLoop_add_fin
    (fun l => ∑ j in Finset.range cfg.slotsPerLane, f (laneSlot cfg l j)) _ 1
    cfg.kSmemThreadsPerColLSEt hT _ (fun i _ h2 => hlane i h2)]
  rw [← Finset.sum_eq_sum_Ico_succ_bot hT
    (fun l => ∑ j in Finset.range cfg.slotsPerLane, f (laneSlot cfg l j)),
    ← Finset.range_eq_Ico, ← cfg.lanes_mul_slots hwf]
  exact congrArg Val.fin (sum_lanes f _ _)

theorem statMass_nonneg (a : Option ℝ) : 0 ≤ statMass a := by
  cases a with
  | none => simp [statMass]
  | some r => exact (Real.exp_pos r).le

theorem sum_statMass_pos (st : Nat → Option ℝ) (n : Nat)
    (hex : ∃ s, s < n ∧ (st s).isSome = true) :
    0 < ∑ s in Finset.range n, statMass (st s) := by
  obtain ⟨s, hs, hsome⟩ := hex
  refine Finset.sum_pos' (fun i _ => statMass_nonneg _) ⟨s, Finset.mem_range.2 hs, ?_⟩
  cases h : st s with
  | none => simp [h] at hsome
  | some r => exact Real.exp_pos r

/-- Closed form of Step 4 on a row of statistics of which at least one is finite. -/
theorem mergeRow_of_finite (cfg : Config) (hwf : cfg.WellFormed) (row : Nat → Val)
    (st : Nat → Option ℝ) (hrow : ∀ s, s < cfg.kMaxSplits → row s = Val.ofStat (st s))
    (hex : ∃ s, s < cfg.kMaxSplits ∧ (st s).isSome = true) :
    (mergeRow cfg row).lse_sum =
        Val.fin (Real.log (∑ s in Finset.range cfg.kMaxSplits, statMass (st s))) ∧
      ∀ s, s < cfg.kMaxSplits → (mergeRow cfg row).scale s =
        Val.fin (statMass (st s) / ∑ t in Finset.range cfg.kMaxSplits, statMass (st t)) := by
  have hS := sum_statMass_pos st cfg.kMaxSplits hex
  obtain ⟨c, hc, hc2⟩ := rowMax_stat cfg hwf row st hrow
  have hcne : c ≠ none := by
    intro h
    obtain ⟨s, hs, hsome⟩ := hex
    have := hc2.1 h s hs
    simp [this] at hsome
  obtain ⟨M, rfl⟩ := Option.ne_none_iff_exists'.1 hcne
  have hmax : rowMax cfg row = Val.fin M := hc
  have hcur : lseMaxCur cfg row = Val.fin M := by
    simp [lseMaxCur, hmax, Val.beq]
  have hscale : ∀ s, s < cfg.kMaxSplits →
      rawScale cfg row s = Val.fin (statMass (st s) * Real.exp (-M)) := by
    intro s hs
    unfold rawScale
    rw [hrow s hs, hcur]
    cases st s with
    | none => simp [Val.ofStat, Val.sub, Val.neg, Val.add, Val.exp, statMass]
    | some r => simp [Val.ofStat, Val.sub, Val.neg, Val.add, Val.exp, statMass, Real.exp_add]
  have hsum : rowSum cfg row =
      Val.fin ((∑ s in Finset.range cfg.kMaxSplits, statMass (st s)) * Real.exp (-M)) := by
    rw [rowSum_fin cfg hwf row _ hscale, Finset.sum_mul]
  have hpos : 0 < (∑ s in Finset.range cfg.kMaxSplits, statMass (st s)) * Real.exp (-M) :=
    mul_pos hS (Real.exp_pos _)
  have hinv : invSum cfg row =
      Val.fin (1 / ((∑ s in Finset.range cfg.kMaxSplits, statMass (st s)) * Real.exp (-M))) := by
    simp [invSum, hsum, Val.beq, Val.bne, Val.zero, Val.recip, hpos.ne']
  constructor
  · simp only [mergeRow, hsum, hmax, Val.log, if_pos hpos, Val.add]
    rw [Real.log_mul hS.ne' (Real.exp_pos _).ne', Real.log_exp]
    simp
  · intro s hs
    simp only [mergeRow, hscale s hs, hinv, Val.mul]
    congr 1
    field_simp
    ring

/-- Closed form of Step 4 on a row whose slots all hold the sentinel. -/
theorem mergeRow_of_sentinel (cfg : Config) (hwf : cfg.WellFormed) (row : Nat → Val)
    (hrow : ∀ s, s < cfg.kMaxSplits → row s = Val.negInf) :
    (mergeRow cfg row).lse_sum = Val.negInf ∧
      ∀ s, s < cfg.kMaxSplits → (mergeRow cfg row).scale s = Val.fin 0 := by
  obtain ⟨c, hc, hc2⟩ := rowMax_stat cfg hwf row (fun _ => none) hrow
  have hcn : c = none := hc2.2 (fun _ _ => rfl)
  subst hcn
  have hmax : rowMax cfg row = Val.negInf := hc
  have hcur : lseMaxCur cfg row = Val.fin 0 := by
    simp [lseMaxCur, hmax, Val.beq, Val.zero]
  have hscale : ∀ s, s < cfg.kMaxSplits → rawScale cfg row s = Val.fin ((fun _ => (0 : ℝ)) s) := by
    intro s hs
    unfold rawScale
    rw [hrow s hs, hcur]
    simp [Val.sub, Val.neg, Val.add, Val.exp]
  have hsum : rowSum cfg row = Val.fin 0 := by
    rw [rowSum_fin cfg hwf row _ hscale]
    simp
  have hinv : invSum cfg row = Val.fin 0 := by
    simp [invSum, hsum, Val.beq, Val.zero]
  constructor
  · simp [mergeRow, hsum, hmax, Val.log, Val.add]
  · intro s hs
    simp [mergeRow, hscale s hs, hinv, Val.mul]

theorem sum_pad (st : Nat → Option ℝ) (k n : Nat) (hk : k ≤ n) :
    ∑ s in Finset.range n, statMass (if s < k then st s else none) =
      ∑ i in Finset.range k, statMass (st i) := by
  have hsub : Finset.range k ⊆ Finset.range n := Finset.range_subset.2 hk
  rw [← Finset.sum_subset hsub (f := fun s => statMass (if s < k then st s else none))]
  · refine Finset.sum_congr rfl (fun i hi => ?_)
    rw [if_pos (Finset.mem_range.1 hi)]
  · intro x _ hx
    rw [if_neg (by simpa using hx)]
    rfl

theorem ofStat_pad (st : Nat → Option ℝ) (k s : Nat) :
    (if s < k then Val.ofStat (st s) else Val.negInf) =
      Val.ofStat (if s < k then st s else none) := by
  split_ifs <;> rfl

/-- C1 (merge correctness).  For every tile row `mi` whose `kMaxSplits` scratch slots hold
per-split statistics `st 0 .. st (k-1)` with `k ≤ kMaxSplits`, each a real number or the
`-inf` sentinel, and `-inf` in the remaining slots, the final statistic `lse_sum(mi)` that
Step 4 computes is `log (∑ i < k, exp (st i))`, the sentinel contributing no mass, whenever
some `st i` is finite, and is `-inf` when every `st i` is the sentinel. -/
theorem merge_correctness (cfg : Config) (hwf : cfg.WellFormed) (k : Nat)
    (hk : k ≤ cfg.kMaxSplits) (st : Nat → Option ℝ) (sLSE : Nat → Nat → Val) (mi : Nat)
    (hrow : ∀ s, s < cfg.kMaxSplits →
      sLSE s mi = if s < k then Val.ofStat (st s) else Val.negInf) :
    ((∃ i, i < k ∧ (st i).isSome = true) →
      lse_sum cfg sLSE mi = Val.fin (Real.log (∑ i in Finset.range k, statMass (st i)))) ∧
    ((∀ i, i < k → st i = none) → lse_sum cfg sLSE mi = Val.negInf) := by
  have hrow2 : ∀ s, s < cfg.kMaxSplits →
      (fun t => sLSE t mi) s = Val.ofStat (if s < k then st s else none) := by
    intro s hs
    rw [← ofStat_pad]
    exact hrow s hs
  constructor
  · rintro ⟨i, hi, hsome⟩
    have hex : ∃ s, s < cfg.kMaxSplits ∧ (if s < k then st s else none).isSome = true :=
      ⟨i, Nat.lt_of_lt_of_le hi hk, by rw [if_pos hi]; exact hsome⟩
    have := (mergeRow_of_finite cfg hwf _ _ hrow2 hex).1
    rw [sum_pad st k _ hk] at this
    exact this
  · intro hall
    refine (mergeRow_of_sentinel cfg hwf _ (fun s hs => ?_)).1
    rw [hrow s hs]
    split_ifs with h
    · rw [hall s h]; rfl
    · rfl

theorem cfgEx_wellFormed : cfgEx.WellFormed := by decide

theorem merge_correctness_witness :
    cfgEx.WellFormed ∧ 3 ≤ cfgEx.kMaxSplits ∧
      lse_sum cfgEx sLSEEx 0 =
        Val.fin (Real.log (∑ i in Finset.range 3, statMass (statsEx i))) :=
  ⟨cfgEx_wellFormed, by decide,
    (merge_correctness cfgEx cfgEx_wellFormed 3 (by decide) statsEx sLSEEx 0
      (fun _ _ => rfl)).1 ⟨0, by decide, rfl⟩⟩

/-- C2 (weight normalization).  For every tile row `mi` whose scratch slots hold statistics
as in C1, the weights `exp(st - max) * inv_sum` that Step 4 stores back over the `kMaxSplits`
slots are finite reals summing to exactly 1 when some statistic is finite, and every one of
them is exactly 0 when all statistics are the sentinel. -/
theorem weight_normalization (cfg : Config) (hwf : cfg.WellFormed) (k : Nat)
    (hk : k ≤ cfg.kMaxSplits) (st : Nat → Option ℝ) (sLSE : Nat → Nat → Val) (mi : Nat)
    (hrow : ∀ s, s < cfg.kMaxSplits →
      sLSE s mi = if s < k then Val.ofStat (st s) else Val.negInf) :
    ((∃ i, i < k ∧ (st i).isSome = true) →
      ∃ w : Nat → ℝ, (∀ s, s < cfg.kMaxSplits → storeScales cfg sLSE s mi = Val.fin (w s)) ∧
        ∑ s in Finset.range cfg.kMaxSplits, w s = 1) ∧
    ((∀ i, i < k → st i = none) →
      ∀ s, s < cfg.kMaxSplits → storeScales cfg sLSE s mi = Val.fin 0) := by
  have hrow2 : ∀ s, s < cfg.kMaxSplits →
      (fun t => sLSE t mi) s = Val.ofStat (if s < k then st s else none) := by
    intro s hs
    rw [← ofStat_pad]
    exact hrow s hs
  constructor
  · rintro ⟨i, hi, hsome⟩
    have hex : ∃ s, s < cfg.kMaxSplits ∧ (if s < k then st s else none).isSome = true :=
      ⟨i, Nat.lt_of_lt_of_le hi hk, by rw [if_pos hi]; exact hsome⟩
    have hpos := sum_statMass_pos _ _ hex
    refine ⟨_, (mergeRow_of_finite cfg hwf _ _ hrow2 hex).2, ?_⟩
    rw [← Finset.sum_div]
    exact div_self hpos.ne'
  · intro hall
    refine (mergeRow_of_sentinel cfg hwf _ (fun s hs => ?_)).2
    rw [hrow s hs]
    split_ifs with h
    · rw [hall s h]; rfl
    · rfl

theorem weight_normalization_witness :
    cfgEx.WellFormed ∧ 3 ≤ cfgEx.kMaxSplits ∧
      ∃ w : Nat → ℝ, (∀ s, s < cfgEx.kMaxSplits → storeScales cfgEx sLSEEx s 0 = Val.fin (w s)) ∧
        ∑ s in Finset.range cfgEx.kMaxSplits, w s = 1 :=
  ⟨cfgEx_wellFormed, by decide,
    (weight_normalization cfgEx cfgEx_wellFormed 3 (by decide) statsEx sLSEEx 0
      (fun _ _ => rfl)).1 ⟨0, by decide, rfl⟩⟩

/-! ## Steps 2 and 6: the scratch ring -/

/-- After the first transfers, stage `j` holds split `j` on every valid row, for each of the
first `kStages - 1` splits. -/
theorem prologue_stage (cfg : Config) (params : Params) (blockIdx : BlockIdx)
    (sO : Nat → Nat → Nat → Val) (j mi col : Nat) (hj : j < kStages - 1)
    (hsplit : (j : Int) < num_splits params) (hrow : tObidb cfg params blockIdx mi ≥ 0)
    (hcol : colActive cfg params col = true) :
    prologue cfg params blockIdx sO j mi col = fetched cfg params blockIdx j mi col := by
  have h3 : kStages - 1 = 3 := rfl
  rw [h3] at hj
  have hunfold : ∀ (body : Nat → (Nat → Nat → Nat → Val) → (Nat → Nat → Nat → Val)),
      forLoop 0 3 body sO = body 2 (body 1 (body 0 sO)) := by
    intro body
    simp [forLoop, List.range']
  unfold prologue
  rw [h3, hunfold]
  clear hunfold
  interval_cases j <;> split_ifs <;> simp_all [ load_O_partial]

theorem accInv_step (cfg : Config) (params : Params) (blockIdx : BlockIdx)
    (sLSE : Nat → Nat → Val) (s : Nat) (st : AccState)
    (hs : (s : Int) < num_splits params) (h : AccInv cfg params blockIdx sLSE s st) :
    AccInv cfg params blockIdx sLSE (s + 1) (accumulateStep cfg params blockIdx sLSE s st) := by
  obtain ⟨hc, hl, hacc, hring⟩ := h
  have h4 : kStages = 4 := rfl
  rw [h4] at hc hl
  simp only [h4] at hring
  have hne : s % 4 ≠ (s + 3) % 4 := by omega
  refine ⟨?_, ?_, ?_, ?_⟩
  · simp only [accumulateStep, h4, hc]
    split_ifs <;> omega
  · simp only [accumulateStep, h4, hl]
    split_ifs <;> omega
  · intro mi col
    have hstage : (accumulateStep cfg params blockIdx sLSE s st).tOrO mi col =
        if tObidb cfg params blockIdx mi ≥ 0 ∧ Val.gt (sLSE s mi) Val.zero = true ∧
            colActive cfg params col = true then
          Val.add (st.tOrO mi col) (Val.mul (sLSE s mi) (st.sO (s % 4) mi col))
        else st.tOrO mi col := by
      simp only [accumulateStep, h4, hc, hl]
      split_ifs <;> simp_all
    rw [hstage]
    unfold accumulateDirect
    rw [forLoop_succ _ _ _ _ (Nat.zero_le s)]
    by_cases hcond : tObidb cfg params blockIdx mi ≥ 0 ∧ Val.gt (sLSE s mi) Val.zero = true ∧
        colActive cfg params col = true
    · rw [if_pos hcond, if_pos hcond,
        hring s mi col (Nat.le_refl s) (by omega) hs hcond.1 hcond.2.1 hcond.2.2, hacc mi col]
      rfl
    · rw [if_neg hcond, if_neg hcond, hacc mi col]
      rfl
  · intro j mi col h1 h2 h3 hrow hgt hcol
    simp only [h4] at h2 ⊢
    rcases Nat.lt_or_ge j (s + 3) with hlt | hge
    · have hj : j % 4 ≠ (s + 3) % 4 := by omega
      have hkeep : (accumulateStep cfg params blockIdx sLSE s st).sO (j % 4) mi col =
          st.sO (j % 4) mi col := by
        simp only [accumulateStep, h4, hl]
        split_ifs <;> simp_all
      rw [hkeep]
      exact hring j mi col (by omega) (by omega) h3 hrow hgt hcol
    · have hj : j = s + 3 := by omega
      subst hj
      simp only [accumulateStep, h4, hl]
      have e1 : s + 4 - 1 = s + 3 := by omega
      simp only [e1]
      rw [if_pos h3, if_pos ⟨rfl, hrow, hgt, hcol⟩]

/-- The pipelined loop of Step 6, started from the scratch ring that Step 2 leaves, computes
the direct accumulation over all splits. -/
theorem accumulate_tOrO (cfg : Config) (params : Params) (blockIdx : BlockIdx)
    (sLSE : Nat → Nat → Val) (sO : Nat → Nat → Nat → Val) (mi col : Nat) :
    (accumulate cfg params blockIdx sLSE (prologue cfg params blockIdx sO)).tOrO mi col =
      accumulateDirect cfg params blockIdx sLSE (num_splits params).toNat mi col := by
  have hinv : AccInv cfg params blockIdx sLSE (num_splits params).toNat
      (accumulate cfg params blockIdx sLSE (prologue cfg params blockIdx sO)) := by
    unfold accumulate
    refine forLoop_invariant (AccInv cfg params blockIdx sLSE) 0 _ _ _ (Nat.zero_le _) ?_ ?_
    · refine ⟨rfl, rfl, fun mi col => ?_, ?_⟩
      · simp [accumulateDirect, forLoop_of_le]
      · intro j mi col _ h2 h3 hrow _ hcol
        have h4 : kStages = 4 := rfl
        have hj : j % kStages = j := by
          rw [h4] at h2 ⊢
          omega
        rw [hj]
        exact prologue_stage cfg params blockIdx sO j mi col (by omega) h3 hrow hcol
    · intro i st _ h2 hst
      exact accInv_step cfg params blockIdx sLSE i st (Int.lt_toNat.1 h2) hst
  exact hinv.2.2.1 mi col

/-! ## Step 6 on the weights of Step 4 -/

/-- The value a transfer brings is the partial output at the row's resolved coordinates and
the column itself. -/
theorem fetched_eq (cfg : Config) (params : Params) (blockIdx : BlockIdx) (split : Int)
    (mi col : Nat) :
    fetched cfg params blockIdx split mi col =
      params.ptr_O_partial (oRow cfg params blockIdx (tOmidx cfg params blockIdx mi)) col split
        (tObidh cfg params blockIdx mi) (tObidb cfg params blockIdx mi) := by
  unfold fetched mOpartial_copy
  rw [Nat.div_add_mod']

/-- With finite non-negative weights, and finite partial outputs wherever the weight is
positive, the direct accumulation is the weighted sum. -/
theorem accumulateDirect_fin (cfg : Config) (params : Params) (blockIdx : BlockIdx)
    (sLSE : Nat → Nat → Val) (n mi col : Nat) (w o : Nat → ℝ)
    (hrow : tObidb cfg params blockIdx mi ≥ 0) (hcol : colActive cfg params col = true)
    (hw : ∀ s, s < n → sLSE s mi = Val.fin (w s)) (hw0 : ∀ s, s < n → 0 ≤ w s)
    (ho : ∀ s, s < n → 0 < w s → fetched cfg params blockIdx s mi col = Val.fin (o s)) :
    accumulateDirect cfg params blockIdx sLSE n mi col =
      Val.fin (∑ s in Finset.range n, w s * o s) := by
  unfold accumulateDirect
  refine forLoop_invariant
    (fun i acc => acc = Val.fin (∑ s in Finset.range i, w s * o s)) 0 n _ _ (Nat.zero_le _)
    (by simp [Val.zero]) ?_
  rintro i acc _ hi rfl
  rw [Finset.sum_range_succ, hw i hi]
  by_cases hpos : 0 < w i
  · rw [if_pos ⟨hrow, by simp [Val.gt, Val.zero, hpos], hcol⟩, ho i hi hpos]
    rfl
  · have hz : w i = 0 := le_antisymm (not_lt.1 hpos) (hw0 i hi)
    rw [if_neg (by simp [Val.gt, Val.zero, hpos]), hz]
    simp

/-- Steps 4 and 6 on a valid row of statistics of which at least one is finite: the weights
are the normalised masses and the accumulator is the weighted sum of the partial outputs. -/
theorem reconstruction_finite (cfg : Config) (hwf : cfg.WellFormed) (params : Params)
    (blockIdx : BlockIdx) (k : Nat) (hns : num_splits params = k) (hk : k ≤ cfg.kMaxSplits)
    (st : Nat → Option ℝ) (o : Nat → ℝ) (sLSE : Nat → Nat → Val) (sO : Nat → Nat → Nat → Val)
    (mi col : Nat) (hrow : tObidb cfg params blockIdx mi ≥ 0)
    (hcol : colActive cfg params col = true)
    (hstat : ∀ s, s < cfg.kMaxSplits →
      sLSE s mi = if s < k then Val.ofStat (st s) else Val.negInf)
    (hout : ∀ i, i < k → (st i).isSome = true →
      params.ptr_O_partial (oRow cfg params blockIdx (tOmidx cfg params blockIdx mi)) col i
        (tObidh cfg params blockIdx mi) (tObidb cfg params blockIdx mi) = Val.fin (o i))
    (hex : ∃ i, i < k ∧ (st i).isSome = true) :
    (∀ s, s < cfg.kMaxSplits → storeScales cfg sLSE s mi =
      Val.fin (statMass (if s < k then st s else none) / ∑ i in Finset.range k, statMass (st i))) ∧
    (accumulate cfg params blockIdx (storeScales cfg sLSE)
        (prologue cfg params blockIdx sO)).tOrO mi col =
      Val.fin (∑ i in Finset.range k,
        statMass (st i) / (∑ j in Finset.range k, statMass (st j)) * o i) := by
  have hrow2 : ∀ s, s < cfg.kMaxSplits →
      (fun t => sLSE t mi) s = Val.ofStat (if s < k then st s else none) := by
    intro s hs
    rw [← ofStat_pad]
    exact hstat s hs
  obtain ⟨i0, hi0, hsome0⟩ := hex
  have hex2 : ∃ s, s < cfg.kMaxSplits ∧ (if s < k then st s else none).isSome = true :=
    ⟨i0, Nat.lt_of_lt_of_le hi0 hk, by rw [if_pos hi0]; exact hsome0⟩
  have hS : 0 < ∑ i in Finset.range k, statMass (st i) := sum_statMass_pos st k ⟨i0, hi0, hsome0⟩
  have hscales : ∀ s, s < cfg.kMaxSplits → storeScales cfg sLSE s mi =
      Val.fin (statMass (if s < k then st s else none) /
        ∑ i in Finset.range k, statMass (st i)) := by
    intro s hs
    have := (mergeRow_of_finite cfg hwf _ _ hrow2 hex2).2 s hs
    rw [sum_pad st k _ hk] at this
    exact this
  refine ⟨hscales, ?_⟩
  have hkn : (num_splits params).toNat = k := by rw [hns]; exact Int.toNat_ofNat k
  rw [accumulate_tOrO, hkn, accumulateDirect_fin cfg params blockIdx _ k mi col
    (fun s => statMass (if s < k then st s else none) / ∑ i in Finset.range k, statMass (st i)) o
    hrow hcol (fun s hs => hscales s (Nat.lt_of_lt_of_le hs hk))
    (fun s _ => div_nonneg (statMass_nonneg _) hS.le) ?_]
  · refine congrArg Val.fin (Finset.sum_congr rfl (fun i hi => ?_))
    rw [if_pos (Finset.mem_range.1 hi)]
  · intro s hs hpos
    rw [fetched_eq]
    refine hout s hs ?_
    simp only [if_pos hs] at hpos
    cases h : st s with
    | none => rw [h] at hpos; simp [statMass] at hpos
    | some r => rfl

/-- Steps 4 and 6 on a valid row whose statistics are all the sentinel: every weight is zero
and nothing is accumulated. -/
theorem reconstruction_sentinel (cfg : Config) (hwf : cfg.WellFormed) (params : Params)
    (blockIdx : BlockIdx) (k : Nat) (hns : num_splits params = k) (hk : k ≤ cfg.kMaxSplits)
    (sLSE : Nat → Nat → Val) (sO : Nat → Nat → Nat → Val)
    (mi col : Nat) (hrow : tObidb cfg params blockIdx mi ≥ 0)
    (hcol : colActive cfg params col = true)
    (hstat : ∀ s, s < cfg.kMaxSplits → sLSE s mi = Val.negInf) :
    (∀ s, s < cfg.kMaxSplits → storeScales cfg sLSE s mi = Val.fin 0) ∧
    (accumulate cfg params blockIdx (storeScales cfg sLSE)
        (prologue cfg params blockIdx sO)).tOrO mi col = Val.fin 0 := by
  have hscales := (mergeRow_of_sentinel cfg hwf (fun t => sLSE t mi) hstat).2
  refine ⟨hscales, ?_⟩
  have hkn : (num_splits params).toNat = k := by rw [hns]; exact Int.toNat_ofNat k
  rw [accumulate_tOrO, hkn, accumulateDirect_fin cfg params blockIdx _ k mi col
    (fun _ => 0) (fun _ => 0) hrow hcol (fun s hs => hscales s (Nat.lt_of_lt_of_le hs hk))
    (fun _ _ => le_refl _) (fun s _ hpos => absurd hpos (lt_irrefl _))]
  simp

/-! ## The end-to-end scenario -/

theorem exp_bounds_aux :
    Real.exp (312 / 1000) < 1 + 1 / Real.exp 1 ∧ 1 + 1 / Real.exp 1 < Real.exp (314 / 1000) := by
  have h1 := Real.exp_one_gt_d9
  have h2 := Real.exp_one_lt_d9
  have he : 0 < Real.exp 1 := Real.exp_pos 1
  constructor
  · have hb := Real.exp_bound (x := 312 / 1000) (by rw [abs_of_nonneg] <;> norm_num) (n := 4)
      (by norm_num)
    rw [abs_le] at hb
    have hb2 := hb.2
    simp only [Finset.sum_range_succ, Finset.sum_range_zero, Nat.factorial] at hb2
    rw [abs_of_nonneg (by norm_num)] at hb2
    norm_num at hb2
    have h3 : (1367 : ℝ) / 1000 < 1 + 1 / Real.exp 1 := by
      rw [div_lt_iff₀ (by norm_num), add_mul, div_mul_eq_mul_div, ← sub_lt_iff_lt_add',
        lt_div_iff₀ he]
      nlinarith
    linarith
  · have hb := Real.sum_le_exp_of_nonneg (x := 314 / 1000) (by norm_num) 5
    simp only [Finset.sum_range_succ, Finset.sum_range_zero, Nat.factorial] at hb
    norm_num at hb
    have h3 : 1 + 1 / Real.exp 1 < (1368 : ℝ) / 1000 := by
      rw [← lt_sub_iff_add_lt', div_lt_iff₀ he]
      nlinarith
    linarith

/-- The decimal values of the scenario. -/
theorem scenario_numbers :
    |1 / (1 + Real.exp 1) - 0.269| < 0.001 ∧
    |Real.exp 1 / (1 + Real.exp 1) - 0.731| < 0.001 ∧
    |(1 + 3 * Real.exp 1) / (1 + Real.exp 1) - 2.46| < 0.01 ∧
    |Real.log (Real.exp 1 + Real.exp 1 ^ 2) - 2.313| < 0.001 := by
  have h1 := Real.exp_one_gt_d9
  have h2 := Real.exp_one_lt_d9
  have he : 0 < Real.exp 1 := Real.exp_pos 1
  have he1 : 0 < 1 + Real.exp 1 := by linarith
  refine ⟨?_, ?_, ?_, ?_⟩
  · rw [abs_lt]
    constructor
    · rw [lt_sub_iff_add_lt, lt_div_iff₀ he1]
      nlinarith
    · rw [sub_lt_iff_lt_add, div_lt_iff₀ he1]
      nlinarith
  · rw [abs_lt]
    constructor
    · rw [lt_sub_iff_add_lt, lt_div_iff₀ he1]
      nlinarith
    · rw [sub_lt_iff_lt_add, div_lt_iff₀ he1]
      nlinarith
  · rw [abs_lt]
    constructor
    · rw [lt_sub_iff_add_lt, lt_div_iff₀ he1]
      nlinarith
    · rw [sub_lt_iff_lt_add, div_lt_iff₀ he1]
      nlinarith
  · have hfac : Real.exp 1 + Real.exp 1 ^ 2 = Real.exp 2 * (1 + 1 / Real.exp 1) := by
      have : Real.exp 2 = Real.exp 1 * Real.exp 1 := by
        rw [← Real.exp_add]
        norm_num
      rw [this, mul_add, mul_one, mul_one_div, mul_div_assoc, div_self he.ne', mul_one]
      ring
    have hpos : 0 < 1 + 1 / Real.exp 1 := by positivity
    rw [hfac, Real.log_mul (Real.exp_pos 2).ne' hpos.ne', Real.log_exp, abs_lt]
    obtain ⟨hlo, hhi⟩ := exp_bounds_aux
    have hlo2 := (Real.lt_log_iff_exp_lt hpos).2 hlo
    have hhi2 := (Real.log_lt_iff_lt_exp hpos).2 hhi
    constructor <;> linarith

theorem statMass_statsEx :
    statMass (statsEx 0) = Real.exp 1 ∧ statMass (statsEx 1) = Real.exp 1 ^ 2 ∧
      statMass (statsEx 2) = 0 := by
  have h2 : Real.exp 2 = Real.exp 1 ^ 2 := by
    rw [sq, ← Real.exp_add]
    norm_num
  refine ⟨rfl, ?_, ?_⟩
  · rw [← h2]
    simp only [statsEx, statMass]
    norm_num
  · simp only [statsEx, statMass]
    norm_num

theorem statsEx_sum :
    ∑ i in Finset.range 3, statMass (statsEx i) = Real.exp 1 + Real.exp 1 ^ 2 := by
  obtain ⟨h0, h1, h2⟩ := statMass_statsEx
  rw [Finset.sum_range_succ, Finset.sum_range_succ, Finset.sum_range_succ, Finset.sum_range_zero,
    h0, h1, h2]
  ring

/-- The scenario in exact arithmetic, for every configuration. -/
theorem scenario_exact (cfg : Config) (hwf : cfg.WellFormed) (params : Params)
    (blockIdx : BlockIdx) (hns : num_splits params = 3) (hk : 3 ≤ cfg.kMaxSplits)
    (sLSE : Nat → Nat → Val) (sO : Nat → Nat → Nat → Val)
    (mi col : Nat) (hrow : tObidb cfg params blockIdx mi ≥ 0)
    (hcol : colActive cfg params col = true)
    (hstat : ∀ s, s < cfg.kMaxSplits →
      sLSE s mi = if s < 3 then Val.ofStat (statsEx s) else Val.negInf)
    (hout0 : params.ptr_O_partial (oRow cfg params blockIdx (tOmidx cfg params blockIdx mi))
      col 0 (tObidh cfg params blockIdx mi) (tObidb cfg params blockIdx mi) = Val.fin 1)
    (hout1 : params.ptr_O_partial (oRow cfg params blockIdx (tOmidx cfg params blockIdx mi))
      col 1 (tObidh cfg params blockIdx mi) (tObidb cfg params blockIdx mi) = Val.fin 3) :
    storeScales cfg sLSE 0 mi = Val.fin (1 / (1 + Real.exp 1)) ∧
    storeScales cfg sLSE 1 mi = Val.fin (Real.exp 1 / (1 + Real.exp 1)) ∧
    storeScales cfg sLSE 2 mi = Val.fin 0 ∧
    (accumulate cfg params blockIdx (storeScales cfg sLSE)
        (prologue cfg params blockIdx sO)).tOrO mi col =
      Val.fin ((1 + 3 * Real.exp 1) / (1 + Real.exp 1)) ∧
    lse_sum cfg sLSE mi = Val.fin (Real.log (Real.exp 1 + Real.exp 1 ^ 2)) := by
  have he : 0 < Real.exp 1 := Real.exp_pos 1
  obtain ⟨hm0, hm1, hm2⟩ := statMass_statsEx
  have hex : ∃ i, i < 3 ∧ (statsEx i).isSome = true := ⟨0, by decide, rfl⟩
  obtain ⟨hw, hacc⟩ := reconstruction_finite cfg hwf params blockIdx 3 hns hk statsEx
    (fun i => if i = 0 then 1 else if i = 1 then 3 else 0) sLSE sO mi col hrow hcol hstat
    (by
      intro i hi hsome
      interval_cases i
      · simpa using hout0
      · simpa using hout1
      · simp [statsEx] at hsome) hex
  rw [statsEx_sum] at hw
  rw [statsEx_sum, Finset.sum_range_succ, Finset.sum_range_succ, Finset.sum_range_succ,
    Finset.sum_range_zero, hm0, hm1, hm2] at hacc
  refine ⟨?_, ?_, ?_, ?_, ?_⟩
  · rw [hw 0 (by omega), if_pos (by decide), hm0]
    congr 1
    generalize Real.exp 1 = e at he
    field_simp
    ring
  · rw [hw 1 (by omega), if_pos (by decide), hm1]
    congr 1
    generalize Real.exp 1 = e at he
    field_simp
    ring
  · rw [hw 2 (by omega), if_pos (by decide), hm2]
    simp
  · rw [hacc]
    congr 1
    generalize Real.exp 1 = e at he
    simp only [if_pos, if_neg, one_ne_zero]
    field_simp
    ring
  · have hrow2 : ∀ s, s < cfg.kMaxSplits →
        (fun t => sLSE t mi) s = Val.ofStat (if s < 3 then statsEx s else none) := by
      intro s hs
      rw [← ofStat_pad]
      exact hstat s hs
    have hex2 : ∃ s, s < cfg.kMaxSplits ∧ (if s < 3 then statsEx s else none).isSome = true :=
      ⟨0, by omega, rfl⟩
    have := (mergeRow_of_finite cfg hwf _ _ hrow2 hex2).1
    rw [sum_pad statsEx 3 _ hk, statsEx_sum] at this
    exact this

/-- C3 (output reconstruction).  First part: for every valid tile row `mi`, every active
output column and every `num_splits = k ≤ kMaxSplits`, when the row's scratch slots hold
statistics `st 0 .. st (k-1)` (reals or the sentinel, padded with the sentinel) and the partial
outputs of the splits with a finite statistic are the reals `o i`, the weights stored by
Step 4 are reals `w s` and the accumulator after the split loop of Step 6, started from the
scratch ring left by Step 2 (whatever it held before), is `∑ i < k, w i * o i`.  Second part:
for statistics `[1, 2, -inf]` and outputs `1`, `3` and anything for the third split, the
weights are `1/(1+e)`, `e/(1+e)` and `0`, the output is `(1+3e)/(1+e)` and the final
statistic is `log (e + e^2)`.  Third part: these are 0.269, 0.731, 2.46 and 2.313 to the
digits given. -/
theorem output_reconstruction :
    (∀ (cfg : Config) (params : Params) (blockIdx : BlockIdx) (k : Nat) (st : Nat → Option ℝ)
      (o : Nat → ℝ) (sLSE : Nat → Nat → Val) (sO : Nat → Nat → Nat → Val) (mi col : Nat),
      cfg.WellFormed → num_splits params = k → k ≤ cfg.kMaxSplits →
      tObidb cfg params blockIdx mi ≥ 0 → colActive cfg params col = true →
      (∀ s, s < cfg.kMaxSplits →
        sLSE s mi = if s < k then Val.ofStat (st s) else Val.negInf) →
      (∀ i, i < k → (st i).isSome = true →
        params.ptr_O_partial (oRow cfg params blockIdx (tOmidx cfg params blockIdx mi)) col i
          (tObidh cfg params blockIdx mi) (tObidb cfg params blockIdx mi) = Val.fin (o i)) →
      ∃ w : Nat → ℝ,
        (∀ s, s < cfg.kMaxSplits → storeScales cfg sLSE s mi = Val.fin (w s)) ∧
        (accumulate cfg params blockIdx (storeScales cfg sLSE)
            (prologue cfg params blockIdx sO)).tOrO mi col =
          Val.fin (∑ i in Finset.range k, w i * o i)) ∧
    (∀ (cfg : Config) (params : Params) (blockIdx : BlockIdx) (sLSE : Nat → Nat → Val)
      (sO : Nat → Nat → Nat → Val) (mi col : Nat),
      cfg.WellFormed → num_splits params = 3 → 3 ≤ cfg.kMaxSplits →
      tObidb cfg params blockIdx mi ≥ 0 → colActive cfg params col = true →
      (∀ s, s < cfg.kMaxSplits →
        sLSE s mi = if s < 3 then Val.ofStat (statsEx s) else Val.negInf) →
      params.ptr_O_partial (oRow cfg params blockIdx (tOmidx cfg params blockIdx mi))
        col 0 (tObidh cfg params blockIdx mi) (tObidb cfg params blockIdx mi) = Val.fin 1 →
      params.ptr_O_partial (oRow cfg params blockIdx (tOmidx cfg params blockIdx mi))
        col 1 (tObidh cfg params blockIdx mi) (tObidb cfg params blockIdx mi) = Val.fin 3 →
      storeScales cfg sLSE 0 mi = Val.fin (1 / (1 + Real.exp 1)) ∧
      storeScales cfg sLSE 1 mi = Val.fin (Real.exp 1 / (1 + Real.exp 1)) ∧
      storeScales cfg sLSE 2 mi = Val.fin 0 ∧
      (accumulate cfg params blockIdx (storeScales cfg sLSE)
          (prologue cfg params blockIdx sO)).tOrO mi col =
        Val.fin ((1 + 3 * Real.exp 1) / (1 + Real.exp 1)) ∧
      lse_sum cfg sLSE mi = Val.fin (Real.log (Real.exp 1 + Real.exp 1 ^ 2))) ∧
    (|1 / (1 + Real.exp 1) - 0.269| < 0.001 ∧
      |Real.exp 1 / (1 + Real.exp 1) - 0.731| < 0.001 ∧
      |(1 + 3 * Real.exp 1) / (1 + Real.exp 1) - 2.46| < 0.01 ∧
      |Real.log (Real.exp 1 + Real.exp 1 ^ 2) - 2.313| < 0.001) := by
  refine ⟨?_, ?_, scenario_numbers⟩
  · intro cfg params blockIdx k st o sLSE sO mi col hwf hns hk hrow hcol hstat hout
    by_cases hex : ∃ i, i < k ∧ (st i).isSome = true
    · obtain ⟨hw, hacc⟩ := reconstruction_finite cfg hwf params blockIdx k hns hk st o sLSE sO
        mi col hrow hcol hstat hout hex
      exact ⟨_, hw, by
        rw [hacc]
        refine congrArg Val.fin (Finset.sum_congr rfl (fun i hi => ?_))
        simp only [if_pos (Finset.mem_range.1 hi)]⟩
    · have hall : ∀ s, s < cfg.kMaxSplits → sLSE s mi = Val.negInf := by
        intro s hs
        rw [hstat s hs]
        split_ifs with h
        · cases hst : st s with
          | none => rfl
          | some r => exact absurd ⟨s, h, by rw [hst]; rfl⟩ hex
        · rfl
      obtain ⟨hw, hacc⟩ := reconstruction_sentinel cfg hwf params blockIdx k hns hk sLSE sO
        mi col hrow hcol hall
      exact ⟨fun _ => 0, hw, by rw [hacc]; simp⟩
  · intro cfg params blockIdx sLSE sO mi col hwf hns hk hrow hcol hstat hout0 hout1
    exact scenario_exact cfg hwf params blockIdx hns hk sLSE sO mi col hrow hcol hstat
      hout0 hout1

theorem output_reconstruction_witness :
    cfgEx.WellFormed ∧ num_splits paramsEx = 3 ∧ tObidb cfgEx paramsEx ⟨0, 0⟩ 0 ≥ 0 ∧
      (accumulate cfgEx paramsEx ⟨0, 0⟩ (storeScales cfgEx sLSEEx)
          (prologue cfgEx paramsEx ⟨0, 0⟩ (fun _ _ _ => Val.nan))).tOrO 0 1 =
        Val.fin ((1 + 3 * Real.exp 1) / (1 + Real.exp 1)) :=
  ⟨cfgEx_wellFormed, rfl, by decide,
    (output_reconstruction.2.1 cfgEx paramsEx ⟨0, 0⟩ sLSEEx (fun _ _ _ => Val.nan) 0 1
      cfgEx_wellFormed rfl (by decide) (by decide) rfl (fun _ _ => rfl) rfl rfl).2.2.2.1⟩

/-! ## A single split -/

theorem Val.zero_add_one_mul (v : Val) : Val.add Val.zero (Val.mul (Val.fin 1) v) = v := by
  cases v <;> simp [Val.add, Val.mul, Val.zero, Val.infMul]

/-- C4 (idempotence under split count 1), amended.  For every valid tile row and active
column, when `num_splits = 1` and the scratch slots of the row hold the statistic `s0` of the
single split followed by the sentinel: if `s0` is a finite real, the final statistic is `s0`,
the weight of split 0 is `1` and the accumulated output is the split's partial output, whatever
value that is; if `s0` is the `-inf` sentinel, the final statistic is `-inf`, the weight of
split 0 is `0` and the accumulated output is `0`. -/
theorem single_split (cfg : Config) (hwf : cfg.WellFormed) (params : Params)
    (blockIdx : BlockIdx) (hns : num_splits params = 1) (sLSE : Nat → Nat → Val)
    (sO : Nat → Nat → Nat → Val) (mi col : Nat) (hrow : tObidb cfg params blockIdx mi ≥ 0)
    (hcol : colActive cfg params col = true) (s0 : Option ℝ)
    (hstat : ∀ s, s < cfg.kMaxSplits →
      sLSE s mi = if s < 1 then Val.ofStat s0 else Val.negInf) :
    (∀ r, s0 = some r →
      lse_sum cfg sLSE mi = Val.fin r ∧ storeScales cfg sLSE 0 mi = Val.fin 1 ∧
      (accumulate cfg params blockIdx (storeScales cfg sLSE)
          (prologue cfg params blockIdx sO)).tOrO mi col =
        params.ptr_O_partial (oRow cfg params blockIdx (tOmidx cfg params blockIdx mi)) col 0
          (tObidh cfg params blockIdx mi) (tObidb cfg params blockIdx mi)) ∧
    (s0 = none →
      lse_sum cfg sLSE mi = Val.negInf ∧ storeScales cfg sLSE 0 mi = Val.fin 0 ∧
      (accumulate cfg params blockIdx (storeScales cfg sLSE)
          (prologue cfg params blockIdx sO)).tOrO mi col = Val.fin 0) := by
  have hN : 1 ≤ cfg.kMaxSplits := cfg.kMaxSplits_pos
  constructor
  · rintro r rfl
    have hrow2 : ∀ s, s < cfg.kMaxSplits →
        (fun t => sLSE t mi) s = Val.ofStat (if s < 1 then some r else none) := by
      intro s hs
      rw [← ofStat_pad (fun _ => some r)]
      exact hstat s hs
    have hex2 : ∃ s, s < cfg.kMaxSplits ∧ (if s < 1 then some r else none).isSome = true :=
      ⟨0, by omega, rfl⟩
    obtain ⟨hlse, hw⟩ := mergeRow_of_finite cfg hwf _ _ hrow2 hex2
    have hsum : ∑ s in Finset.range cfg.kMaxSplits,
        statMass (if s < 1 then some r else none) = Real.exp r := by
      rw [sum_pad (fun _ => some r) 1 _ hN]
      simp [statMass]
    rw [hsum] at hlse hw
    have hw0 : storeScales cfg sLSE 0 mi = Val.fin 1 := by
      have := hw 0 (by omega)
      rw [if_pos (by decide)] at this
      simp only [statMass] at this
      rw [div_self (Real.exp_pos r).ne'] at this
      exact this
    refine ⟨by rw [Real.log_exp] at hlse; exact hlse, hw0, ?_⟩
    have hkn : (num_splits params).toNat = 0 + 1 := by rw [hns]; rfl
    rw [accumulate_tOrO, hkn]
    unfold accumulateDirect
    rw [forLoop_succ _ _ _ _ (Nat.le_refl 0), forLoop_of_le _ _ _ _ (Nat.le_refl 0), hw0,
      if_pos ⟨hrow, by simp [Val.gt, Val.zero], hcol⟩, Val.zero_add_one_mul, fetched_eq]
    rfl
  · rintro rfl
    have hall : ∀ s, s < cfg.kMaxSplits → sLSE s mi = Val.negInf := by
      intro s hs
      rw [hstat s hs]
      split_ifs <;> rfl
    obtain ⟨hw, hacc⟩ := reconstruction_sentinel cfg hwf params blockIdx 1 hns hN sLSE sO
      mi col hrow hcol hall
    exact ⟨(mergeRow_of_sentinel cfg hwf (fun t => sLSE t mi) hall).1, hw 0 (by omega), hacc⟩

theorem single_split_witness :
    cfgEx.WellFormed ∧ num_splits paramsOne = 1 ∧ tObidb cfgEx paramsOne ⟨0, 0⟩ 0 ≥ 0 ∧
      lse_sum cfgEx (fun s _ => if s < 1 then Val.fin 5 else Val.negInf) 0 = Val.fin 5 ∧
      storeScales cfgEx (fun s _ => if s < 1 then Val.fin 5 else Val.negInf) 0 0 = Val.fin 1 ∧
      (accumulate cfgEx paramsOne ⟨0, 0⟩
          (storeScales cfgEx (fun s _ => if s < 1 then Val.fin 5 else Val.negInf))
          (prologue cfgEx paramsOne ⟨0, 0⟩ (fun _ _ _ => Val.nan))).tOrO 0 0 = Val.fin 1 :=
  ⟨cfgEx_wellFormed, rfl, by decide,
    (single_split cfgEx cfgEx_wellFormed paramsOne ⟨0, 0⟩ rfl
      (fun s _ => if s < 1 then Val.fin 5 else Val.negInf) (fun _ _ _ => Val.nan) 0 0
      (by decide) rfl (some 5) (fun _ _ => rfl)).1 5 rfl⟩

/-- C4 as stated fails for the statistic `-inf`: with one split whose statistic is the
sentinel and whose partial output is `1`, the weight of split 0 is `0`, not `1`, and the
accumulated output is `0`, not the split's output `1`. -/
theorem single_split_counterexample :
    storeScales cfgEx (fun _ _ => Val.negInf) 0 0 ≠ Val.fin 1 ∧
    (accumulate cfgEx paramsOne ⟨0, 0⟩ (storeScales cfgEx (fun _ _ => Val.negInf))
        (prologue cfgEx paramsOne ⟨0, 0⟩ (fun _ _ _ => Val.nan))).tOrO 0 0 ≠
      paramsOne.ptr_O_partial
        (oRow cfgEx paramsOne ⟨0, 0⟩ (tOmidx cfgEx paramsOne ⟨0, 0⟩ 0)) 0 0
        (tObidh cfgEx paramsOne ⟨0, 0⟩ 0) (tObidb cfgEx paramsOne ⟨0, 0⟩ 0) := by
  obtain ⟨hw, hacc⟩ := reconstruction_sentinel cfgEx cfgEx_wellFormed paramsOne ⟨0, 0⟩ 1 rfl
    (by decide) (fun _ _ => Val.negInf) (fun _ _ _ => Val.nan) 0 0 (by decide) rfl
    (fun _ _ => rfl)
  constructor
  · rw [hw 0 (by decide)]
    intro h
    injection h with h
    exact zero_ne_one h
  · rw [hacc]
    intro h
    have h2 : Val.fin 0 = Val.fin 1 := h
    injection h2 with h2
    exact zero_ne_one h2

/-! ## Index resolution -/

theorem resolve_fixed (cfg : Config) (params : Params) (blockIdx : BlockIdx) (idx : Int)
    (h : cfg.Varlen = false) :
    resolve cfg params blockIdx idx =
      { m_idx := idx % params.seqlen_divmod.divisor,
        bidh := idx / params.seqlen_divmod.divisor % params.head_divmod.divisor,
        bidb := idx / params.seqlen_divmod.divisor / params.head_divmod.divisor } := by
  simp [resolve, h, FastDivmod.divmod]

theorem resolve_varlen (cfg : Config) (params : Params) (blockIdx : BlockIdx) (idx : Int)
    (h : cfg.Varlen = true) :
    resolve cfg params blockIdx idx =
      { m_idx := idx % seqlen cfg params blockIdx, bidh := idx / seqlen cfg params blockIdx,
        bidb := 0 } := by
  simp [resolve, h, FastDivmod.divmod, seqlen_divmod_dynamic]

/-- Distinct linear indices resolve to distinct coordinates, in both modes. -/
theorem resolve_injective (cfg : Config) (params : Params) (blockIdx : BlockIdx)
    (idx idx' : Int)
    (h : resolve cfg params blockIdx idx = resolve cfg params blockIdx idx') : idx = idx' := by
  cases hv : cfg.Varlen with
  | false =>
    rw [resolve_fixed _ _ _ _ hv, resolve_fixed _ _ _ _ hv] at h
    injection h with h1 h2 h3
    have e1 := Int.ediv_add_emod (idx / params.seqlen_divmod.divisor) params.head_divmod.divisor
    have e2 := Int.ediv_add_emod (idx' / params.seqlen_divmod.divisor) params.head_divmod.divisor
    have hq : idx / params.seqlen_divmod.divisor = idx' / params.seqlen_divmod.divisor := by
      rw [← e1, ← e2, h2, h3]
    have e3 := Int.ediv_add_emod idx params.seqlen_divmod.divisor
    have e4 := Int.ediv_add_emod idx' params.seqlen_divmod.divisor
    rw [← e3, ← e4, h1, hq]
  | true =>
    rw [resolve_varlen _ _ _ _ hv, resolve_varlen _ _ _ _ hv] at h
    injection h with h1 h2 _
    have e3 := Int.ediv_add_emod idx (seqlen cfg params blockIdx)
    have e4 := Int.ediv_add_emod idx' (seqlen cfg params blockIdx)
    rw [← e3, ← e4, h1, h2]

theorem tileIdx_nonneg (cfg : Config) (blockIdx : BlockIdx) (mi : Nat) :
    0 ≤ tileIdx cfg blockIdx mi := by
  unfold tileIdx m_block
  positivity

/-- Two-level decomposition of a non-negative index below `L * H * B`. -/
theorem divmod_bounds (L H B idx : Int) (hL : 0 < L) (hH : 0 < H) (h0 : 0 ≤ idx)
    (hlt : idx < L * H * B) :
    0 ≤ idx % L ∧ idx % L < L ∧ 0 ≤ idx / L % H ∧ idx / L % H < H ∧
      0 ≤ idx / L / H ∧ idx / L / H < B ∧
      idx = (idx / L / H * H + idx / L % H) * L + idx % L := by
  have hq0 : 0 ≤ idx / L := Int.ediv_nonneg h0 hL.le
  have hq : idx / L < B * H := by
    apply Int.ediv_lt_of_lt_mul hL
    calc idx < L * H * B := hlt
      _ = B * H * L := by ring
  refine ⟨Int.emod_nonneg _ hL.ne', Int.emod_lt_of_pos _ hL, Int.emod_nonneg _ hH.ne',
    Int.emod_lt_of_pos _ hH, Int.ediv_nonneg hq0 hH.le, Int.ediv_lt_of_lt_mul hH hq, ?_⟩
  have e1 := Int.ediv_add_emod' (idx / L) H
  have e2 := Int.ediv_add_emod' idx L
  rw [e1, e2]

/-- C8 (fixed-length index resolution).  In fixed-length mode, with the parameters built by
`to_underlying_arguments` from a shape of sequence length `L > 0`, head count `H > 0` and
any batch count `B` (so for `B ≥ 0`): a linear index `idx ≥ 0` passes the validity test `idx < max_idx` iff
`idx < L * H * B`, and a tile row keeps a non-negative batch marker under the same condition;
every valid index resolves to `(idx mod L, (idx div L) mod H, (idx div L) div H)`, also in the
registers `tOmidx`, `tObidh`, `tObidb`, with position `< L`, head `< H`, batch `< B` and
`idx = (batch * H + head) * L + position`; and distinct indices resolve to distinct
coordinates. -/
theorem fixed_length_resolution (cfg : Config) (args : Arguments) (blockIdx : BlockIdx)
    (hfix : cfg.Varlen = false) (hL : 0 < args.shape_LSE_partial.seqlen)
    (hH : 0 < args.shape_LSE_partial.head) :
    (∀ idx : Int, 0 ≤ idx →
      (idx < max_idx cfg (to_underlying_arguments args) blockIdx ↔
        idx < args.shape_LSE_partial.seqlen * args.shape_LSE_partial.head *
          args.shape_LSE_partial.batch)) ∧
    (∀ mi : Nat, 0 ≤ tObidb cfg (to_underlying_arguments args) blockIdx mi ↔
      tileIdx cfg blockIdx mi < args.shape_LSE_partial.seqlen * args.shape_LSE_partial.head *
        args.shape_LSE_partial.batch) ∧
    (∀ idx : Int, 0 ≤ idx →
      idx < args.shape_LSE_partial.seqlen * args.shape_LSE_partial.head *
        args.shape_LSE_partial.batch →
      resolve cfg (to_underlying_arguments args) blockIdx idx =
        { m_idx := idx % args.shape_LSE_partial.seqlen,
          bidh := idx / args.shape_LSE_partial.seqlen % args.shape_LSE_partial.head,
          bidb := idx / args.shape_LSE_partial.seqlen / args.shape_LSE_partial.head } ∧
      0 ≤ idx % args.shape_LSE_partial.seqlen ∧
      idx % args.shape_LSE_partial.seqlen < args.shape_LSE_partial.seqlen ∧
      0 ≤ idx / args.shape_LSE_partial.seqlen % args.shape_LSE_partial.head ∧
      idx / args.shape_LSE_partial.seqlen % args.shape_LSE_partial.head <
        args.shape_LSE_partial.head ∧
      0 ≤ idx / args.shape_LSE_partial.seqlen / args.shape_LSE_partial.head ∧
      idx / args.shape_LSE_partial.seqlen / args.shape_LSE_partial.head <
        args.shape_LSE_partial.batch ∧
      idx = (idx / args.shape_LSE_partial.seqlen / args.shape_LSE_partial.head *
          args.shape_LSE_partial.head +
        idx / args.shape_LSE_partial.seqlen % args.shape_LSE_partial.head) *
          args.shape_LSE_partial.seqlen + idx % args.shape_LSE_partial.seqlen) ∧
    (∀ mi : Nat,
      tileIdx cfg blockIdx mi < args.shape_LSE_partial.seqlen * args.shape_LSE_partial.head *
        args.shape_LSE_partial.batch →
      tOmidx cfg (to_underlying_arguments args) blockIdx mi =
        tileIdx cfg blockIdx mi % args.shape_LSE_partial.seqlen ∧
      tObidh cfg (to_underlying_arguments args) blockIdx mi =
        tileIdx cfg blockIdx mi / args.shape_LSE_partial.seqlen % args.shape_LSE_partial.head ∧
      tObidb cfg (to_underlying_arguments args) blockIdx mi =
        tileIdx cfg blockIdx mi / args.shape_LSE_partial.seqlen / args.shape_LSE_partial.head) ∧
    (∀ idx idx' : Int,
      resolve cfg (to_underlying_arguments args) blockIdx idx =
        resolve cfg (to_underlying_arguments args) blockIdx idx' → idx = idx') := by
  have hmax : max_idx cfg (to_underlying_arguments args) blockIdx =
      args.shape_LSE_partial.seqlen * args.shape_LSE_partial.head *
        args.shape_LSE_partial.batch := by
    simp [max_idx, seqlen, hfix, to_underlying_arguments]
  have hres : ∀ idx : Int, resolve cfg (to_underlying_arguments args) blockIdx idx =
      { m_idx := idx % args.shape_LSE_partial.seqlen,
        bidh := idx / args.shape_LSE_partial.seqlen % args.shape_LSE_partial.head,
        bidb := idx / args.shape_LSE_partial.seqlen / args.shape_LSE_partial.head } := by
    intro idx
    rw [resolve_fixed _ _ _ _ hfix]
    rfl
  refine ⟨fun idx _ => by rw [hmax], ?_, ?_, ?_, ?_⟩
  · intro mi
    unfold tObidb
    rw [hmax, hres]
    constructor
    · intro h
      by_contra hlt
      rw [if_pos (not_lt.1 hlt)] at h
      omega
    · intro h
      rw [if_neg (not_le.2 h)]
      exact (divmod_bounds _ _ _ _ hL hH (tileIdx_nonneg cfg blockIdx mi) h).2.2.2.2.1
  · intro idx h0 hlt
    exact ⟨hres idx, divmod_bounds _ _ _ _ hL hH h0 hlt⟩
  · intro mi hlt
    refine ⟨?_, ?_, ?_⟩
    · unfold tOmidx
      rw [hres]
    · unfold tObidh
      rw [hres]
    · unfold tObidb
      rw [hmax, hres, if_neg (not_le.2 hlt)]
  · intro idx idx' h
    exact resolve_injective _ _ _ _ _ h

theorem fixed_length_resolution_witness :
    (0 : Int) < argsEx.shape_LSE_partial.seqlen ∧ (0 : Int) < argsEx.shape_LSE_partial.head ∧
      (7 : Int) < max_idx cfgEx (to_underlying_arguments argsEx) ⟨0, 0⟩ ∧
      resolve cfgEx (to_underlying_arguments argsEx) ⟨0, 0⟩ 7 =
        { m_idx := 1, bidh := 0, bidb := 1 } :=
  ⟨by decide, by decide,
    ((fixed_length_resolution cfgEx argsEx ⟨0, 0⟩ rfl (by decide) (by decide)).1 7
      (by decide)).2 (by decide),
    ((fixed_length_resolution cfgEx argsEx ⟨0, 0⟩ rfl (by decide) (by decide)).2.2.1 7
      (by decide) (by decide)).1⟩

/-! ## Rows beyond the valid element count -/

theorem tObidb_invalid (cfg : Config) (params : Params) (blockIdx : BlockIdx) (mi : Nat)
    (h : max_idx cfg params blockIdx ≤ tileIdx cfg blockIdx mi) :
    tObidb cfg params blockIdx mi = -1 := by
  unfold tObidb
  rw [if_pos h]

theorem load_O_partial_invalid (cfg : Config) (params : Params) (blockIdx : BlockIdx)
    (mi : Nat) (h : max_idx cfg params blockIdx ≤ tileIdx cfg blockIdx mi) (split : Int)
    (stage : Nat) (sO : Nat → Nat → Nat → Val) (st col : Nat) :
    load_O_partial cfg params blockIdx split stage sO st mi col = sO st mi col := by
  unfold load_O_partial
  rw [tObidb_invalid cfg params blockIdx mi h, if_neg]
  rintro ⟨_, h2, _⟩
  exact absurd h2 (by decide)

theorem accumulateStep_invalid (cfg : Config) (params : Params) (blockIdx : BlockIdx)
    (mi : Nat) (h : max_idx cfg params blockIdx ≤ tileIdx cfg blockIdx mi)
    (sLSE : Nat → Nat → Val) (s : Nat) (st : AccState) (stage col : Nat) :
    (accumulateStep cfg params blockIdx sLSE s st).sO stage mi col = st.sO stage mi col ∧
      (accumulateStep cfg params blockIdx sLSE s st).tOrO mi col = st.tOrO mi col := by
  have hb := tObidb_invalid cfg params blockIdx mi h
  constructor
  · simp only [accumulateStep, hb]
    split_ifs <;> simp_all
  · simp only [accumulateStep, hb]
    split_ifs <;> simp_all

theorem storeLSERow_invalid (cfg : Config) (params : Params) (blockIdx : BlockIdx) (mi : Nat)
    (h : max_idx cfg params blockIdx ≤ tileIdx cfg blockIdx mi) (lse : Nat → Val)
    (mLSE : Int → Int → Int → Val) :
    storeLSERow cfg params blockIdx lse mi mLSE = mLSE := by
  unfold storeLSERow
  simp only
  rw [if_neg (not_lt.2 h)]

theorem storeORow_invalid {Element : Type} (cfg : Config) (params : Params)
    (blockIdx : BlockIdx) (mi : Nat)
    (h : max_idx cfg params blockIdx ≤ tileIdx cfg blockIdx mi) (rO : Nat → Nat → Element)
    (mO : Int → Int → Int → Int → Element) :
    storeORow cfg params blockIdx rO mi mO = mO := by
  unfold storeORow
  rw [tObidb_invalid cfg params blockIdx mi h, if_neg (by decide)]

/-! ## Effective length and row offset -/

/-- C10 (effective length resolution).  In variable-length mode the unit's batch is
`blockIdx.y` and its effective length is `seqused[b]` when a used-length table is present,
otherwise `cu_seqlens[b+1] - cu_seqlens[b]` when an offset table is present, otherwise the
sequence length of the shape; its row offset is `cu_seqlens[b]` when an offset table is
present and 0 otherwise.  In fixed-length mode the length is the sequence length of the shape
and the offset is 0 whatever the tables are.  The offset is added to the row of every access
to the four buffers: the reads of the partial statistics and partial outputs and the writes
of the final statistic and final output. -/
theorem effective_length (cfg : Config) (params : Params) (blockIdx : BlockIdx) :
    (cfg.Varlen = true →
      batch cfg blockIdx = (blockIdx.y : Int) ∧
      (∀ seqused, params.seqused = some seqused →
        seqlen cfg params blockIdx = seqused blockIdx.y) ∧
      (∀ cu_seqlens, params.seqused = none → params.cu_seqlens = some cu_seqlens →
        seqlen cfg params blockIdx = cu_seqlens (blockIdx.y + 1) - cu_seqlens blockIdx.y) ∧
      (params.seqused = none → params.cu_seqlens = none →
        seqlen cfg params blockIdx = params.shape_LSE_partial.seqlen) ∧
      (∀ cu_seqlens, params.cu_seqlens = some cu_seqlens →
        offset cfg params blockIdx = cu_seqlens blockIdx.y) ∧
      (params.cu_seqlens = none → offset cfg params blockIdx = 0)) ∧
    (cfg.Varlen = false →
      seqlen cfg params blockIdx = params.shape_LSE_partial.seqlen ∧
      offset cfg params blockIdx = 0) ∧
    (∀ (j : Nat) (si t bidh bidb : Int),
      mLSEpartial_copy cfg params blockIdx j si t bidh bidb =
        params.ptr_LSE_partial
          (offset cfg params blockIdx + (t * cfg.kGmemElemsPerLoadLSE + j)) si bidh bidb) ∧
    (∀ (i : Nat) (m_idx : Int) (k_idx : Nat) (split bidh bidb : Int),
      mOpartial_copy cfg params blockIdx i m_idx k_idx split bidh bidb =
        params.ptr_O_partial (offset cfg params blockIdx + m_idx)
          ((k_idx * cfg.kGmemElemsPerLoad + i : Nat) : Int) split bidh bidb) ∧
    (∀ (lse : Nat → Val) (mi : Nat) (mLSE : Int → Int → Int → Val),
      tileIdx cfg blockIdx mi < max_idx cfg params blockIdx →
      storeLSERow cfg params blockIdx lse mi mLSE
        (offset cfg params blockIdx + (resolve cfg params blockIdx (tileIdx cfg blockIdx mi)).m_idx)
        (resolve cfg params blockIdx (tileIdx cfg blockIdx mi)).bidh
        (resolve cfg params blockIdx (tileIdx cfg blockIdx mi)).bidb = lse mi) ∧
    (∀ (Element : Type) (rO : Nat → Nat → Element) (mi col : Nat)
      (mO : Int → Int → Int → Int → Element), colActive cfg params col = true →
      storeOElem cfg params blockIdx rO mi col mO
        (offset cfg params blockIdx + tOmidx cfg params blockIdx mi) col
        (tObidh cfg params blockIdx mi) (tObidb cfg params blockIdx mi) = rO mi col) := by
  refine ⟨fun hv => ⟨?_, ?_, ?_, ?_, ?_, ?_⟩, fun hf => ⟨?_, ?_⟩, ?_, ?_, ?_, ?_⟩
  · simp [batch, hv]
  · intro seqused hs
    simp [seqlen, batch, hv, hs]
  · intro cu hs hc
    simp [seqlen, offset, batch, hv, hs, hc]
  · intro hs hc
    simp [seqlen, hv, hs, hc]
  · intro cu hc
    simp [offset, batch, hv, hc]
  · intro hc
    simp [offset, hv, hc]
  · simp [seqlen, hf]
  · simp [offset, hf]
  · intro j si t bidh bidb
    rfl
  · intro i m_idx k_idx split bidh bidb
    rfl
  · intro lse mi mLSE hvalid
    unfold storeLSERow lseRow
    simp only
    rw [if_pos hvalid, if_pos ⟨rfl, rfl, rfl⟩]
  · intro Element rO mi col mO hcol
    unfold storeOElem oRow
    rw [if_pos hcol, if_pos ⟨rfl, by rw [Nat.div_add_mod'], rfl, rfl⟩]

/-! ## Steps 5 and 7: what is written -/

theorem tileIdx_injective (cfg : Config) (blockIdx : BlockIdx) (mi mi' : Nat)
    (h : tileIdx cfg blockIdx mi = tileIdx cfg blockIdx mi') : mi = mi' := by
  unfold tileIdx at h
  omega

theorem tObidb_valid (cfg : Config) (params : Params) (blockIdx : BlockIdx) (mi : Nat)
    (h : tileIdx cfg blockIdx mi < max_idx cfg params blockIdx) :
    tObidb cfg params blockIdx mi =
      (resolve cfg params blockIdx (tileIdx cfg blockIdx mi)).bidb := by
  unfold tObidb
  rw [if_neg (not_le.2 h)]

theorem valid_of_tObidb (cfg : Config) (params : Params) (blockIdx : BlockIdx) (mi : Nat)
    (h : tObidb cfg params blockIdx mi ≥ 0) :
    tileIdx cfg blockIdx mi < max_idx cfg params blockIdx := by
  by_contra hge
  rw [tObidb_invalid cfg params blockIdx mi (not_lt.1 hge)] at h
  exact absurd h (by decide)

/-- Two tile rows with the same resolved coordinates are the same row. -/
theorem coord_injective (cfg : Config) (params : Params) (blockIdx : BlockIdx) (mi mi' : Nat)
    (h1 : (resolve cfg params blockIdx (tileIdx cfg blockIdx mi)).m_idx =
      (resolve cfg params blockIdx (tileIdx cfg blockIdx mi')).m_idx)
    (h2 : (resolve cfg params blockIdx (tileIdx cfg blockIdx mi)).bidh =
      (resolve cfg params blockIdx (tileIdx cfg blockIdx mi')).bidh)
    (h3 : (resolve cfg params blockIdx (tileIdx cfg blockIdx mi)).bidb =
      (resolve cfg params blockIdx (tileIdx cfg blockIdx mi')).bidb) : mi = mi' := by
  apply tileIdx_injective cfg blockIdx
  apply resolve_injective cfg params blockIdx
  cases hc : resolve cfg params blockIdx (tileIdx cfg blockIdx mi)
  cases hc' : resolve cfg params blockIdx (tileIdx cfg blockIdx mi')
  rw [hc, hc'] at h1 h2 h3
  simp only at h1 h2 h3
  rw [h1, h2, h3]

theorem isTarget_unique (cfg : Config) (params : Params) (blockIdx : BlockIdx) (mi mi' : Nat)
    (row h b : Int) (h1 : IsTarget cfg params blockIdx mi row h b)
    (h2 : IsTarget cfg params blockIdx mi' row h b) : mi = mi' := by
  obtain ⟨_, hr, hh, hb⟩ := h1
  obtain ⟨_, hr', hh', hb'⟩ := h2
  exact coord_injective cfg params blockIdx mi mi' (by omega) (by rw [← hh, ← hh'])
    (by rw [← hb, ← hb'])

theorem storeLSERow_eq (cfg : Config) (params : Params) (blockIdx : BlockIdx) (lse : Nat → Val)
    (mi : Nat) (mLSE : Int → Int → Int → Val) (row h b : Int) :
    storeLSERow cfg params blockIdx lse mi mLSE row h b =
      if IsTarget cfg params blockIdx mi row h b then lse mi else mLSE row h b := by
  unfold storeLSERow IsTarget lseRow
  simp only
  by_cases hv : tileIdx cfg blockIdx mi < max_idx cfg params blockIdx
  · rw [if_pos hv]
    simp only [hv, true_and]
  · rw [if_neg hv]
    simp only [hv, false_and, if_false]

/-- Step 5 leaves every coordinate that stands for no tile row as it found it, and writes
the statistic of the row at every coordinate that stands for one. -/
theorem storeLSE_spec (cfg : Config) (params : Params) (blockIdx : BlockIdx) (lse : Nat → Val)
    (ptr_LSE : Int → Int → Int → Val) (row h b : Int) :
    ((∀ mi, mi < cfg.kBlockM → ¬ IsTarget cfg params blockIdx mi row h b) →
      storeLSE cfg params blockIdx lse ptr_LSE row h b = ptr_LSE row h b) ∧
    (∀ mi, mi < cfg.kBlockM → IsTarget cfg params blockIdx mi row h b →
      storeLSE cfg params blockIdx lse ptr_LSE row h b = lse mi) := by
  unfold storeLSE
  refine forLoop_invariant
    (fun i (m : Int → Int → Int → Val) =>
      ((∀ mi, mi < i → ¬ IsTarget cfg params blockIdx mi row h b) →
        m row h b = ptr_LSE row h b) ∧
      (∀ mi, mi < i → IsTarget cfg params blockIdx mi row h b → m row h b = lse mi))
    0 cfg.kBlockM _ _ (Nat.zero_le _) ⟨fun _ => rfl, fun mi hmi => absurd hmi (by omega)⟩ ?_
  rintro i m _ _ ⟨ih1, ih2⟩
  rw [storeLSERow_eq]
  constructor
  · intro hno
    rw [if_neg (hno i (Nat.lt_succ_self i))]
    exact ih1 (fun mi hmi => hno mi (Nat.lt_succ_of_lt hmi))
  · intro mi hmi ht
    by_cases hi : IsTarget cfg params blockIdx i row h b
    · rw [if_pos hi, isTarget_unique cfg params blockIdx mi i row h b ht hi]
    · rw [if_neg hi]
      have hne : mi ≠ i := fun e => hi (e ▸ ht)
      exact ih2 mi (by omega) ht

theorem storeOElem_eq {Element : Type} (cfg : Config) (params : Params) (blockIdx : BlockIdx)
    (rO : Nat → Nat → Element) (mi col : Nat) (mO : Int → Int → Int → Int → Element)
    (row c h b : Int) :
    storeOElem cfg params blockIdx rO mi col mO row c h b =
      if colActive cfg params col = true ∧
          row = offset cfg params blockIdx + tOmidx cfg params blockIdx mi ∧ c = (col : Int) ∧
          h = tObidh cfg params blockIdx mi ∧ b = tObidb cfg params blockIdx mi then rO mi col
      else mO row c h b := by
  unfold storeOElem oRow
  rw [Nat.div_add_mod']
  by_cases hc : colActive cfg params col = true
  · rw [if_pos hc]
    simp only [hc, true_and]
  · rw [if_neg hc]
    simp [hc]

/-- The columns of one tile row in Step 7. -/
theorem storeOCols_spec {Element : Type} (cfg : Config) (params : Params)
    (blockIdx : BlockIdx) (rO : Nat → Nat → Element) (mi n : Nat)
    (mO : Int → Int → Int → Int → Element) (row c h b : Int) :
    ((¬ (row = offset cfg params blockIdx + tOmidx cfg params blockIdx mi ∧
          h = tObidh cfg params blockIdx mi ∧ b = tObidb cfg params blockIdx mi) ∨
        ∀ col, col < n → colActive cfg params col = true → c ≠ (col : Int)) →
      forLoop 0 n (storeOElem cfg params blockIdx rO mi) mO row c h b = mO row c h b) ∧
    (∀ col, col < n → colActive cfg params col = true →
      row = offset cfg params blockIdx + tOmidx cfg params blockIdx mi →
      h = tObidh cfg params blockIdx mi → b = tObidb cfg params blockIdx mi → c = (col : Int) →
      forLoop 0 n (storeOElem cfg params blockIdx rO mi) mO row c h b = rO mi col) := by
  refine forLoop_invariant
    (fun j (m : Int → Int → Int → Int → Element) =>
      ((¬ (row = offset cfg params blockIdx + tOmidx cfg params blockIdx mi ∧
            h = tObidh cfg params blockIdx mi ∧ b = tObidb cfg params blockIdx mi) ∨
          ∀ col, col < j → colActive cfg params col = true → c ≠ (col : Int)) →
        m row c h b = mO row c h b) ∧
      (∀ col, col < j → colActive cfg params col = true →
        row = offset cfg params blockIdx + tOmidx cfg params blockIdx mi →
        h = tObidh cfg params blockIdx mi → b = tObidb cfg params blockIdx mi → c = (col : Int) →
        m row c h b = rO mi col))
    0 n _ _ (Nat.zero_le _) ⟨fun _ => rfl, fun col hc => absurd hc (by omega)⟩ ?_
  rintro j m _ _ ⟨ih1, ih2⟩
  rw [storeOElem_eq]
  constructor
  · intro hno
    have hnot : ¬ (colActive cfg params j = true ∧
        row = offset cfg params blockIdx + tOmidx cfg params blockIdx mi ∧ c = (j : Int) ∧
        h = tObidh cfg params blockIdx mi ∧ b = tObidb cfg params blockIdx mi) := by
      rintro ⟨ha, hr, hc, hh, hb⟩
      rcases hno with hno | hno
      · exact hno ⟨hr, hh, hb⟩
      · exact hno j (Nat.lt_succ_self j) ha hc
    rw [if_neg hnot]
    refine ih1 ?_
    rcases hno with hno | hno
    · exact Or.inl hno
    · exact Or.inr (fun col hcol => hno col (Nat.lt_succ_of_lt hcol))
  · intro col hcol ha hr hh hb hc
    by_cases hj : col = j
    · subst hj
      rw [if_pos ⟨ha, hr, hc, hh, hb⟩]
    · have hnot : ¬ (colActive cfg params j = true ∧
          row = offset cfg params blockIdx + tOmidx cfg params blockIdx mi ∧ c = (j : Int) ∧
          h = tObidh cfg params blockIdx mi ∧ b = tObidb cfg params blockIdx mi) := by
        rintro ⟨_, _, hc2, _, _⟩
        rw [hc] at hc2
        exact hj (by exact_mod_cast hc2)
      rw [if_neg hnot]
      exact ih2 col (by omega) ha hr hh hb hc

theorem target_iff_of_tObidb (cfg : Config) (params : Params) (blockIdx : BlockIdx) (mi : Nat)
    (hb : tObidb cfg params blockIdx mi ≥ 0) (row h b : Int) :
    (row = offset cfg params blockIdx + tOmidx cfg params blockIdx mi ∧
      h = tObidh cfg params blockIdx mi ∧ b = tObidb cfg params blockIdx mi) ↔
    IsTarget cfg params blockIdx mi row h b := by
  have hv := valid_of_tObidb cfg params blockIdx mi hb
  unfold IsTarget
  rw [tObidb_valid cfg params blockIdx mi hv]
  unfold tOmidx tObidh
  simp only [hv, true_and]

/-- Step 7 leaves every coordinate that stands for no tile row, and every column that is not
an active column of the tile, as it found it, and writes the converted accumulator elsewhere. -/
theorem storeO_spec {Element : Type} (cfg : Config) (params : Params) (blockIdx : BlockIdx)
    (rO : Nat → Nat → Element) (ptr_O : Int → Int → Int → Int → Element) (row c h b : Int)
    (hbidb : ∀ mi, tileIdx cfg blockIdx mi < max_idx cfg params blockIdx →
      0 ≤ (resolve cfg params blockIdx (tileIdx cfg blockIdx mi)).bidb) :
    (((∀ mi, mi < cfg.kBlockM → ¬ IsTarget cfg params blockIdx mi row h b) ∨
        ∀ col, col < cfg.kHeadDim → colActive cfg params col = true → c ≠ (col : Int)) →
      storeO cfg params blockIdx rO ptr_O row c h b = ptr_O row c h b) ∧
    (∀ mi, mi < cfg.kBlockM → IsTarget cfg params blockIdx mi row h b →
      ∀ col, col < cfg.kHeadDim → colActive cfg params col = true → c = (col : Int) →
      storeO cfg params blockIdx rO ptr_O row c h b = rO mi col) := by
  unfold storeO
  refine forLoop_invariant
    (fun i (m : Int → Int → Int → Int → Element) =>
      (((∀ mi, mi < i → ¬ IsTarget cfg params blockIdx mi row h b) ∨
          ∀ col, col < cfg.kHeadDim → colActive cfg params col = true → c ≠ (col : Int)) →
        m row c h b = ptr_O row c h b) ∧
      (∀ mi, mi < i → IsTarget cfg params blockIdx mi row h b →
        ∀ col, col < cfg.kHeadDim → colActive cfg params col = true → c = (col : Int) →
        m row c h b = rO mi col))
    0 cfg.kBlockM _ _ (Nat.zero_le _)
    ⟨fun _ => rfl, fun mi hmi => absurd hmi (by omega)⟩ ?_
  rintro i m _ _ ⟨ih1, ih2⟩
  by_cases hb : tObidb cfg params blockIdx i ≥ 0
  · have hiff := target_iff_of_tObidb cfg params blockIdx i hb row h b
    have hcols := storeOCols_spec cfg params blockIdx rO i cfg.kHeadDim m row c h b
    have hrow : storeORow cfg params blockIdx rO i m =
        forLoop 0 cfg.kHeadDim (storeOElem cfg params blockIdx rO i) m := by
      unfold storeORow
      rw [if_pos hb]
    rw [hrow]
    constructor
    · intro hno
      rw [hcols.1 ?_]
      · refine ih1 ?_
        rcases hno with hno | hno
        · exact Or.inl (fun mi hmi => hno mi (Nat.lt_succ_of_lt hmi))
        · exact Or.inr hno
      · rcases hno with hno | hno
        · exact Or.inl (fun hc => hno i (Nat.lt_succ_self i) (hiff.1 hc))
        · exact Or.inr hno
    · intro mi hmi ht col hcol ha hc
      by_cases hi : mi = i
      · subst hi
        obtain ⟨hr, hh, hbb⟩ := hiff.2 ht
        exact hcols.2 col hcol ha hr hh hbb hc
      · rw [hcols.1 (Or.inl (fun hcnd =>
          hi (isTarget_unique cfg params blockIdx mi i row h b ht (hiff.1 hcnd))))]
        exact ih2 mi (by omega) ht col hcol ha hc
  · have hrow : storeORow cfg params blockIdx rO i m = m := by
      unfold storeORow
      rw [if_neg hb]
    rw [hrow]
    constructor
    · intro hno
      refine ih1 ?_
      rcases hno with hno | hno
      · exact Or.inl (fun mi hmi => hno mi (Nat.lt_succ_of_lt hmi))
      · exact Or.inr hno
    · intro mi hmi ht col hcol ha hc
      by_cases hi : mi = i
      · subst hi
        exfalso
        apply hb
        rw [tObidb_valid cfg params blockIdx mi ht.1]
        exact hbidb mi ht.1
      · exact ih2 mi (by omega) ht col hcol ha hc

/-- With non-negative shape extents every index resolves to a non-negative batch. -/
theorem bidb_nonneg (cfg : Config) (args : Arguments) (blockIdx : BlockIdx)
    (hL : 0 ≤ args.shape_LSE_partial.seqlen) (hH : 0 ≤ args.shape_LSE_partial.head)
    (idx : Int) (h0 : 0 ≤ idx) :
    0 ≤ (resolve cfg (to_underlying_arguments args) blockIdx idx).bidb := by
  cases hv : cfg.Varlen with
  | false =>
    rw [resolve_fixed _ _ _ _ hv]
    exact Int.ediv_nonneg (Int.ediv_nonneg h0 hL) hH
  | true =>
    rw [resolve_varlen _ _ _ _ hv]

/-- C5 (boundary behaviour: no write for invalid positions).  For a compute unit launched
with the parameters built from arguments with non-negative sequence length and head count:
for every tile row whose linear index `m_block * kBlockM + mi` is at or beyond `max_idx`,
neither the write of Step 5 nor the write of Step 7 is executed (the row's part of both loops
returns the buffer it was given); the kernel leaves the final statistic and the final output
as it found them at every coordinate that is not the resolved coordinate of a valid row of
the tile; and for every valid row of the tile the resolved coordinate holds the row's final
statistic and, in every active column of the tile, the row's converted accumulator. -/
theorem no_write_beyond {Element : Type} (convert_type : Val → Element) (cfg : Config)
    (args : Arguments) (blockIdx : BlockIdx) (smem : SharedStorage) (out : Output Element)
    (hL : 0 ≤ args.shape_LSE_partial.seqlen) (hH : 0 ≤ args.shape_LSE_partial.head) :
    (∀ mi : Nat,
      max_idx cfg (to_underlying_arguments args) blockIdx ≤ tileIdx cfg blockIdx mi →
      (∀ lse mLSE,
        storeLSERow cfg (to_underlying_arguments args) blockIdx lse mi mLSE = mLSE) ∧
      (∀ (rO : Nat → Nat → Element) mO,
        storeORow cfg (to_underlying_arguments args) blockIdx rO mi mO = mO)) ∧
    (∀ row h b : Int,
      (∀ mi, mi < cfg.kBlockM →
        ¬ IsTarget cfg (to_underlying_arguments args) blockIdx mi row h b) →
      (combine convert_type cfg (to_underlying_arguments args) blockIdx smem out).ptr_LSE
          row h b = out.ptr_LSE row h b ∧
      ∀ c : Int,
        (combine convert_type cfg (to_underlying_arguments args) blockIdx smem out).ptr_O
          row c h b = out.ptr_O row c h b) ∧
    (∀ mi : Nat, mi < cfg.kBlockM →
      tileIdx cfg blockIdx mi < max_idx cfg (to_underlying_arguments args) blockIdx →
      (combine convert_type cfg (to_underlying_arguments args) blockIdx smem out).ptr_LSE
          (offset cfg (to_underlying_arguments args) blockIdx +
            (resolve cfg (to_underlying_arguments args) blockIdx (tileIdx cfg blockIdx mi)).m_idx)
          (resolve cfg (to_underlying_arguments args) blockIdx (tileIdx cfg blockIdx mi)).bidh
          (resolve cfg (to_underlying_arguments args) blockIdx (tileIdx cfg blockIdx mi)).bidb =
        lse_sum cfg (loadLSE cfg (to_underlying_arguments args) blockIdx smem.smem_lse_partial)
          mi ∧
      ∀ col : Nat, col < cfg.kHeadDim →
        colActive cfg (to_underlying_arguments args) col = true →
        (combine convert_type cfg (to_underlying_arguments args) blockIdx smem out).ptr_O
          (offset cfg (to_underlying_arguments args) blockIdx +
            (resolve cfg (to_underlying_arguments args) blockIdx (tileIdx cfg blockIdx mi)).m_idx)
          col
          (resolve cfg (to_underlying_arguments args) blockIdx (tileIdx cfg blockIdx mi)).bidh
          (resolve cfg (to_underlying_arguments args) blockIdx (tileIdx cfg blockIdx mi)).bidb =
        convert_type ((accumulate cfg (to_underlying_arguments args) blockIdx
          (storeScales cfg
            (loadLSE cfg (to_underlying_arguments args) blockIdx smem.smem_lse_partial))
          (prologue cfg (to_underlying_arguments args) blockIdx smem.smem_o_partial)).tOrO
            mi col)) := by
  have hbidb : ∀ mi, tileIdx cfg blockIdx mi < max_idx cfg (to_underlying_arguments args) blockIdx →
      0 ≤ (resolve cfg (to_underlying_arguments args) blockIdx (tileIdx cfg blockIdx mi)).bidb :=
    fun mi _ => bidb_nonneg cfg args blockIdx hL hH _ (tileIdx_nonneg cfg blockIdx mi)
  refine ⟨fun mi h => ⟨storeLSERow_invalid cfg _ blockIdx mi h,
    storeORow_invalid cfg _ blockIdx mi h⟩, ?_, ?_⟩
  · intro row h b hno
    refine ⟨(storeLSE_spec cfg _ blockIdx _ _ row h b).1 hno, fun c => ?_⟩
    exact (storeO_spec cfg _ blockIdx _ _ row c h b hbidb).1 (Or.inl hno)
  · intro mi hmi hv
    have ht : IsTarget cfg (to_underlying_arguments args) blockIdx mi
        (offset cfg (to_underlying_arguments args) blockIdx +
          (resolve cfg (to_underlying_arguments args) blockIdx (tileIdx cfg blockIdx mi)).m_idx)
        (resolve cfg (to_underlying_arguments args) blockIdx (tileIdx cfg blockIdx mi)).bidh
        (resolve cfg (to_underlying_arguments args) blockIdx (tileIdx cfg blockIdx mi)).bidb :=
      ⟨hv, rfl, rfl, rfl⟩
    refine ⟨(storeLSE_spec cfg _ blockIdx _ _ _ _ _).2 mi hmi ht, fun col hcol ha => ?_⟩
    exact (storeO_spec cfg _ blockIdx _ _ _ _ _ _ hbidb).2 mi hmi ht col hcol ha rfl

theorem no_write_beyond_witness :
    (0 : Int) ≤ argsEx.shape_LSE_partial.seqlen ∧ (0 : Int) ≤ argsEx.shape_LSE_partial.head ∧
      max_idx cfgEx (to_underlying_arguments argsEx) ⟨1, 0⟩ ≤ tileIdx cfgEx ⟨1, 0⟩ 4 ∧
      (resolve cfgEx (to_underlying_arguments argsEx) ⟨1, 0⟩ (tileIdx cfgEx ⟨1, 0⟩ 4)).bidb = 2 ∧
      (combine id cfgEx (to_underlying_arguments argsEx) ⟨1, 0⟩ smemEx outEx).ptr_LSE 0 0 2 =
        Val.nan ∧
      ∀ c : Int,
        (combine id cfgEx (to_underlying_arguments argsEx) ⟨1, 0⟩ smemEx outEx).ptr_O 0 c 0 2 =
          Val.nan :=
  ⟨by decide, by decide, by decide, by decide,
    (no_write_beyond id cfgEx argsEx ⟨1, 0⟩ smemEx outEx (by decide) (by decide)).2.1 0 0 2
      (by decide)⟩

/-! ## Step 1: what is loaded -/

theorem vec_iff (E i r : Nat) (hE : 0 < E) : (i * E ≤ r ∧ r < i * E + E) ↔ r / E = i := by
  constructor
  · rintro ⟨h1, h2⟩
    exact Nat.div_eq_of_lt_le h1 (by rw [Nat.add_mul, Nat.one_mul]; exact h2)
  · rintro rfl
    have h1 := Nat.div_mul_le_self r E
    have h2 := Nat.div_add_mod' r E
    have h3 := Nat.mod_lt r hE
    exact ⟨h1, by omega⟩

theorem Config.kGmemElemsPerLoadLSE_pos (cfg : Config) (hwf : cfg.WellFormed) :
    0 < cfg.kGmemElemsPerLoadLSE := by
  have h := hwf.1
  unfold Config.kGmemElemsPerLoadLSE
  omega

theorem loadLSESlot_eq (cfg : Config) (params : Params) (blockIdx : BlockIdx) (mi : Nat)
    (c : Coord) (si : Nat) (m : Nat → Nat → Val) (s r : Nat) :
    loadLSESlot cfg params blockIdx mi c si m s r =
      if s = si ∧ mi ≤ r ∧ r < mi + cfg.kGmemElemsPerLoadLSE then
        (if (si : Int) < num_splits params then
          mLSEpartial_copy cfg params blockIdx (r - mi) si c.m_idx c.bidh c.bidb
        else Val.negInf)
      else m s r := by
  unfold loadLSESlot
  by_cases h : (si : Int) < num_splits params
  · simp only [if_pos h]
  · simp only [if_neg h]

/-- The loop over the split slots of one vector of tile rows. -/
theorem loadSlots_spec (cfg : Config) (params : Params) (blockIdx : BlockIdx) (mi : Nat)
    (c : Coord) (n : Nat) (sLSE : Nat → Nat → Val) (s r : Nat) :
    forLoop 0 n (loadLSESlot cfg params blockIdx mi c) sLSE s r =
      if s < n ∧ mi ≤ r ∧ r < mi + cfg.kGmemElemsPerLoadLSE then
        (if (s : Int) < num_splits params then
          mLSEpartial_copy cfg params blockIdx (r - mi) s c.m_idx c.bidh c.bidb
        else Val.negInf)
      else sLSE s r := by
  refine forLoop_invariant
    (fun j (m : Nat → Nat → Val) => m s r =
      if s < j ∧ mi ≤ r ∧ r < mi + cfg.kGmemElemsPerLoadLSE then
        (if (s : Int) < num_splits params then
          mLSEpartial_copy cfg params blockIdx (r - mi) s c.m_idx c.bidh c.bidb
        else Val.negInf)
      else sLSE s r)
    0 n _ _ (Nat.zero_le _) (by simp) ?_
  intro j m _ _ ih
  rw [loadLSESlot_eq]
  by_cases hnew : s = j ∧ mi ≤ r ∧ r < mi + cfg.kGmemElemsPerLoadLSE
  · have hcond : s < j + 1 ∧ mi ≤ r ∧ r < mi + cfg.kGmemElemsPerLoadLSE :=
      ⟨by omega, hnew.2⟩
    rw [if_pos hnew, if_pos hcond, hnew.1]
  · rw [if_neg hnew, ih]
    by_cases hold : s < j ∧ mi ≤ r ∧ r < mi + cfg.kGmemElemsPerLoadLSE
    · have hcond : s < j + 1 ∧ mi ≤ r ∧ r < mi + cfg.kGmemElemsPerLoadLSE :=
        ⟨by omega, hold.2⟩
      rw [if_pos hold, if_pos hcond]
    · have hcond : ¬ (s < j + 1 ∧ mi ≤ r ∧ r < mi + cfg.kGmemElemsPerLoadLSE) := by
        rintro ⟨h1, h2⟩
        rcases Nat.lt_or_ge s j with h3 | h3
        · exact hold ⟨h3, h2⟩
        · exact hnew ⟨by omega, h2⟩
      rw [if_neg hold, if_neg hcond]

/-- Step 1 on the whole tile: slot `(s, r)` is touched exactly when `s` is one of the
`kMaxSplits` slots, `r` lies in one of the vectors of the tile and the first row of that vector
has a valid linear index; it then receives `loadedValue`. -/
theorem loadLSE_spec (cfg : Config) (hwf : cfg.WellFormed) (params : Params)
    (blockIdx : BlockIdx) (sLSE : Nat → Nat → Val) (s r : Nat) :
    loadLSE cfg params blockIdx sLSE s r =
      if r / cfg.kGmemElemsPerLoadLSE < cfg.kBlockM / cfg.kGmemElemsPerLoadLSE ∧
          s < cfg.kMaxSplits ∧
          tileIdx cfg blockIdx
            (r / cfg.kGmemElemsPerLoadLSE * cfg.kGmemElemsPerLoadLSE) <
              max_idx cfg params blockIdx then
        loadedValue cfg params blockIdx s r
      else sLSE s r := by
  have hE := cfg.kGmemElemsPerLoadLSE_pos hwf
  unfold loadLSE
  refine forLoop_invariant
    (fun i (m : Nat → Nat → Val) => m s r =
      if r / cfg.kGmemElemsPerLoadLSE < i ∧ s < cfg.kMaxSplits ∧
          tileIdx cfg blockIdx
            (r / cfg.kGmemElemsPerLoadLSE * cfg.kGmemElemsPerLoadLSE) <
              max_idx cfg params blockIdx then
        loadedValue cfg params blockIdx s r
      else sLSE s r)
    0 _ _ _ (Nat.zero_le _) (by simp) ?_
  intro i m _ _ ih
  have hrow : loadLSERow cfg params blockIdx (i * cfg.kGmemElemsPerLoadLSE) m s r =
      if tileIdx cfg blockIdx (i * cfg.kGmemElemsPerLoadLSE) < max_idx cfg params blockIdx ∧
          s < cfg.kMaxSplits ∧ r / cfg.kGmemElemsPerLoadLSE = i then
        loadedValue cfg params blockIdx s r
      else m s r := by
    unfold loadLSERow
    by_cases hvalid : tileIdx cfg blockIdx (i * cfg.kGmemElemsPerLoadLSE) <
        max_idx cfg params blockIdx
    · rw [if_pos hvalid, loadSlots_spec]
      by_cases hin : s < cfg.kMaxSplits ∧ i * cfg.kGmemElemsPerLoadLSE ≤ r ∧
          r < i * cfg.kGmemElemsPerLoadLSE + cfg.kGmemElemsPerLoadLSE
      · have hvec := (vec_iff _ i r hE).1 hin.2
        have hcond : tileIdx cfg blockIdx (i * cfg.kGmemElemsPerLoadLSE) <
            max_idx cfg params blockIdx ∧ s < cfg.kMaxSplits ∧
            r / cfg.kGmemElemsPerLoadLSE = i := ⟨hvalid, hin.1, hvec⟩
        rw [if_pos hin, if_pos hcond]
        unfold loadedValue
        simp only [hvec]
      · have hcond : ¬ (tileIdx cfg blockIdx (i * cfg.kGmemElemsPerLoadLSE) <
            max_idx cfg params blockIdx ∧ s < cfg.kMaxSplits ∧
            r / cfg.kGmemElemsPerLoadLSE = i) :=
          fun h => hin ⟨h.2.1, (vec_iff _ i r hE).2 h.2.2⟩
        rw [if_neg hin, if_neg hcond]
    · rw [if_neg hvalid, if_neg (fun h => hvalid h.1)]
  rw [hrow, ih]
  by_cases hvec : r / cfg.kGmemElemsPerLoadLSE = i
  · subst hvec
    by_cases hrest : s < cfg.kMaxSplits ∧ tileIdx cfg blockIdx
        (r / cfg.kGmemElemsPerLoadLSE * cfg.kGmemElemsPerLoadLSE) < max_idx cfg params blockIdx
    · have h1 : tileIdx cfg blockIdx
          (r / cfg.kGmemElemsPerLoadLSE * cfg.kGmemElemsPerLoadLSE) <
            max_idx cfg params blockIdx ∧ s < cfg.kMaxSplits ∧
          r / cfg.kGmemElemsPerLoadLSE = r / cfg.kGmemElemsPerLoadLSE :=
        ⟨hrest.2, hrest.1, rfl⟩
      have h2 : r / cfg.kGmemElemsPerLoadLSE < r / cfg.kGmemElemsPerLoadLSE + 1 ∧
          s < cfg.kMaxSplits ∧ tileIdx cfg blockIdx
            (r / cfg.kGmemElemsPerLoadLSE * cfg.kGmemElemsPerLoadLSE) <
              max_idx cfg params blockIdx := ⟨Nat.lt_succ_self _, hrest⟩
      rw [if_pos h1, if_pos h2]
    · have h1 : ¬ (tileIdx cfg blockIdx
          (r / cfg.kGmemElemsPerLoadLSE * cfg.kGmemElemsPerLoadLSE) <
            max_idx cfg params blockIdx ∧ s < cfg.kMaxSplits ∧
          r / cfg.kGmemElemsPerLoadLSE = r / cfg.kGmemElemsPerLoadLSE) :=
        fun h => hrest ⟨h.2.1, h.1⟩
      have h2 : ¬ (r / cfg.kGmemElemsPerLoadLSE < r / cfg.kGmemElemsPerLoadLSE + 1 ∧
          s < cfg.kMaxSplits ∧ tileIdx cfg blockIdx
            (r / cfg.kGmemElemsPerLoadLSE * cfg.kGmemElemsPerLoadLSE) <
              max_idx cfg params blockIdx) := fun h => hrest h.2
      have h3 : ¬ (r / cfg.kGmemElemsPerLoadLSE < r / cfg.kGmemElemsPerLoadLSE ∧
          s < cfg.kMaxSplits ∧ tileIdx cfg blockIdx
            (r / cfg.kGmemElemsPerLoadLSE * cfg.kGmemElemsPerLoadLSE) <
              max_idx cfg params blockIdx) := fun h => hrest h.2
      rw [if_neg h1, if_neg h2, if_neg h3]
  · have h1 : ¬ (tileIdx cfg blockIdx (i * cfg.kGmemElemsPerLoadLSE) <
        max_idx cfg params blockIdx ∧ s < cfg.kMaxSplits ∧
        r / cfg.kGmemElemsPerLoadLSE = i) := fun h => hvec h.2.2
    rw [if_neg h1]
    by_cases hold : r / cfg.kGmemElemsPerLoadLSE < i ∧ s < cfg.kMaxSplits ∧
        tileIdx cfg blockIdx (r / cfg.kGmemElemsPerLoadLSE * cfg.kGmemElemsPerLoadLSE) <
          max_idx cfg params blockIdx
    · have h2 : r / cfg.kGmemElemsPerLoadLSE < i + 1 ∧ s < cfg.kMaxSplits ∧
          tileIdx cfg blockIdx (r / cfg.kGmemElemsPerLoadLSE * cfg.kGmemElemsPerLoadLSE) <
            max_idx cfg params blockIdx := ⟨Nat.lt_succ_of_lt hold.1, hold.2⟩
      rw [if_pos hold, if_pos h2]
    · have h2 : ¬ (r / cfg.kGmemElemsPerLoadLSE < i + 1 ∧ s < cfg.kMaxSplits ∧
          tileIdx cfg blockIdx (r / cfg.kGmemElemsPerLoadLSE * cfg.kGmemElemsPerLoadLSE) <
            max_idx cfg params blockIdx) :=
        fun h => hold ⟨by omega, h.2⟩
      rw [if_neg hold, if_neg h2]

/-- With one statistic per transfer, Step 1 gives every valid tile row, in every split slot,
the partial statistic at the row's resolved coordinates, or the sentinel from `num_splits` on. -/
theorem loadLSE_scalar (cfg : Config) (hwf : cfg.WellFormed) (params : Params)
    (blockIdx : BlockIdx) (sLSE : Nat → Nat → Val) (hE : cfg.kGmemElemsPerLoadLSE = 1)
    (mi : Nat) (hmi : mi < cfg.kBlockM)
    (hv : tileIdx cfg blockIdx mi < max_idx cfg params blockIdx) (s : Nat)
    (hs : s < cfg.kMaxSplits) :
    loadLSE cfg params blockIdx sLSE s mi =
      if (s : Int) < num_splits params then
        params.ptr_LSE_partial
          (offset cfg params blockIdx +
            (resolve cfg params blockIdx (tileIdx cfg blockIdx mi)).m_idx) s
          (resolve cfg params blockIdx (tileIdx cfg blockIdx mi)).bidh
          (resolve cfg params blockIdx (tileIdx cfg blockIdx mi)).bidb
      else Val.negInf := by
  have hcond : mi / cfg.kGmemElemsPerLoadLSE < cfg.kBlockM / cfg.kGmemElemsPerLoadLSE ∧
      s < cfg.kMaxSplits ∧
      tileIdx cfg blockIdx (mi / cfg.kGmemElemsPerLoadLSE * cfg.kGmemElemsPerLoadLSE) <
        max_idx cfg params blockIdx := by
    rw [hE, Nat.div_one, Nat.div_one, Nat.mul_one]
    exact ⟨hmi, hs, hv⟩
  rw [loadLSE_spec cfg hwf, if_pos hcond]
  unfold loadedValue mLSEpartial_copy lseRow
  simp only [hE, Nat.div_one, Nat.mul_one, Nat.sub_self]
  simp

theorem cfgVec_wellFormed : cfgVec.WellFormed := by decide

/-- C7 (statistic loader contract).  First part: when statistics are transferred one at a
time (`kGmemElemsPerLoadLSE = 1`), after Step 1 every valid tile row holds in every split slot
`s < kMaxSplits` the partial statistic of split `s` at the row's resolved coordinates when
`s < num_splits`, and the sentinel otherwise.  Second part: with two statistics per transfer
the contract fails: for 8 positions whose statistic is the position number, tile row 2
(linear index 2, position 2) receives in slot 0 the statistic of position 4, because the
position is used as the index of a two-element tile of the sequence. -/
theorem loader_contract :
    (∀ (cfg : Config) (params : Params) (blockIdx : BlockIdx) (sLSE : Nat → Nat → Val)
      (mi s : Nat), cfg.WellFormed → cfg.kGmemElemsPerLoadLSE = 1 → mi < cfg.kBlockM →
      tileIdx cfg blockIdx mi < max_idx cfg params blockIdx → s < cfg.kMaxSplits →
      loadLSE cfg params blockIdx sLSE s mi =
        if (s : Int) < num_splits params then
          params.ptr_LSE_partial
            (offset cfg params blockIdx +
              (resolve cfg params blockIdx (tileIdx cfg blockIdx mi)).m_idx) s
            (resolve cfg params blockIdx (tileIdx cfg blockIdx mi)).bidh
            (resolve cfg params blockIdx (tileIdx cfg blockIdx mi)).bidb
        else Val.negInf) ∧
    (cfgVec.WellFormed ∧ cfgVec.kGmemElemsPerLoadLSE = 2 ∧
      tileIdx cfgVec ⟨0, 0⟩ 2 < max_idx cfgVec paramsVec ⟨0, 0⟩ ∧
      (0 : Int) < num_splits paramsVec ∧
      resolve cfgVec paramsVec ⟨0, 0⟩ (tileIdx cfgVec ⟨0, 0⟩ 2) =
        { m_idx := 2, bidh := 0, bidb := 0 } ∧
      offset cfgVec paramsVec ⟨0, 0⟩ = 0 ∧
      paramsVec.ptr_LSE_partial 2 0 0 0 = Val.fin 2 ∧
      loadLSE cfgVec paramsVec ⟨0, 0⟩ smemEx.smem_lse_partial 0 2 = Val.fin 4 ∧
      loadLSE cfgVec paramsVec ⟨0, 0⟩ smemEx.smem_lse_partial 0 2 ≠
        paramsVec.ptr_LSE_partial 2 0 0 0) := by
  have hload : loadLSE cfgVec paramsVec ⟨0, 0⟩ smemEx.smem_lse_partial 0 2 = Val.fin 4 := by
    rw [loadLSE_spec cfgVec cfgVec_wellFormed, if_pos (by decide)]
    have hc : resolve cfgVec paramsVec ⟨0, 0⟩ (tileIdx cfgVec ⟨0, 0⟩ 2) =
        { m_idx := 2, bidh := 0, bidb := 0 } := by decide
    have hE : cfgVec.kGmemElemsPerLoadLSE = 2 := by decide
    have hoff : offset cfgVec paramsVec ⟨0, 0⟩ = 0 := by decide
    unfold loadedValue mLSEpartial_copy lseRow
    simp only [hE, hoff]
    rw [if_pos (by decide)]
    norm_num
    rw [hc]
    simp only [paramsVec]
    norm_num
  have hexp : paramsVec.ptr_LSE_partial 2 0 0 0 = Val.fin 2 := by
    simp [paramsVec]
  refine ⟨?_, cfgVec_wellFormed, by decide, by decide, by decide, by decide, by decide, hexp,
    hload, ?_⟩
  · intro cfg params blockIdx sLSE mi s hwf hE hmi hv hs
    exact loadLSE_scalar cfg hwf params blockIdx sLSE hE mi hmi hv s hs
  · rw [hload, hexp]
    intro h
    injection h with h
    norm_num at h

/-! ## Variable-length index resolution -/

/-- Step 1 leaves a tile row as it found it when the first row of the row's transfer vector
is at or beyond the valid element count. -/
theorem loadLSE_invalid (cfg : Config) (hwf : cfg.WellFormed) (params : Params)
    (blockIdx : BlockIdx) (mi : Nat)
    (h : max_idx cfg params blockIdx ≤
      tileIdx cfg blockIdx (mi / cfg.kGmemElemsPerLoadLSE * cfg.kGmemElemsPerLoadLSE))
    (sLSE : Nat → Nat → Val) (s : Nat) :
    loadLSE cfg params blockIdx sLSE s mi = sLSE s mi := by
  rw [loadLSE_spec cfg hwf, if_neg]
  rintro ⟨_, _, h3⟩
  exact absurd h3 (not_lt.2 h)

/-- The first transfers of Step 2 leave an invalid tile row of every stage as they found it. -/
theorem prologue_invalid (cfg : Config) (params : Params) (blockIdx : BlockIdx) (mi : Nat)
    (h : max_idx cfg params blockIdx ≤ tileIdx cfg blockIdx mi)
    (sO : Nat → Nat → Nat → Val) (st col : Nat) :
    prologue cfg params blockIdx sO st mi col = sO st mi col := by
  unfold prologue
  refine forLoop_invariant
    (fun _ (m : Nat → Nat → Nat → Val) => m st mi col = sO st mi col)
    0 _ _ _ (Nat.zero_le _) rfl ?_
  intro i m _ _ ih
  beta_reduce
  by_cases hc : (i : Int) < num_splits params
  · rw [if_pos hc, load_O_partial_invalid cfg params blockIdx mi h, ih]
  · rw [if_neg hc, ih]

/-- The whole loop of Step 6 leaves an invalid tile row of the scratch ring as it found it
and the row's accumulator at zero. -/
theorem accumulate_invalid (cfg : Config) (params : Params) (blockIdx : BlockIdx) (mi : Nat)
    (h : max_idx cfg params blockIdx ≤ tileIdx cfg blockIdx mi)
    (sLSE : Nat → Nat → Val) (sO : Nat → Nat → Nat → Val) (st col : Nat) :
    (accumulate cfg params blockIdx sLSE sO).sO st mi col = sO st mi col ∧
      (accumulate cfg params blockIdx sLSE sO).tOrO mi col = Val.zero := by
  unfold accumulate
  refine forLoop_invariant
    (fun _ (a : AccState) => a.sO st mi col = sO st mi col ∧ a.tOrO mi col = Val.zero)
    0 _ _ _ (Nat.zero_le _) ⟨rfl, rfl⟩ ?_
  intro i a _ _ ih
  have hstep := accumulateStep_invalid cfg params blockIdx mi h sLSE i a st col
  exact ⟨hstep.1.trans ih.1, hstep.2.trans ih.2⟩

/-- C9 (variable-length index resolution), amended.  In variable-length mode over a
flattened buffer (batch extent 1 in the problem shape), for the unit of a batch with
effective length `L_b > 0` and head count `H`: an index passes the validity test, and a tile
row keeps a non-negative batch marker, exactly when it is below `L_b * H`; every valid
`idx ≥ 0` resolves to `(idx mod L_b, idx div L_b)` and batch 0, with position `< L_b` and head
`< H`; and for every tile row at or beyond `L_b * H` the batch marker is `-1`, no output
transfer (a single one, the first transfers of Step 2, an iteration of Step 6 or its whole
loop) changes the row's scratch, the row's accumulator stays at zero, the row's part of both
write-backs writes nothing, and the statistic load of Step 1 leaves the row's scratch as it
was when the first row of the row's transfer vector of `kGmemElemsPerLoadLSE` rows is at or
beyond `L_b * H`, which with one statistic per transfer is always the case. -/
theorem varlen_resolution (cfg : Config) (hwf : cfg.WellFormed) (params : Params)
    (blockIdx : BlockIdx) (hv : cfg.Varlen = true) (hL : 0 < seqlen cfg params blockIdx)
    (hB : params.shape_LSE_partial.batch = 1) :
    (∀ idx : Int, idx < max_idx cfg params blockIdx ↔
      idx < seqlen cfg params blockIdx * params.shape_LSE_partial.head) ∧
    (∀ mi : Nat, 0 ≤ tObidb cfg params blockIdx mi ↔
      tileIdx cfg blockIdx mi < seqlen cfg params blockIdx * params.shape_LSE_partial.head) ∧
    (∀ idx : Int, 0 ≤ idx →
      idx < seqlen cfg params blockIdx * params.shape_LSE_partial.head →
      resolve cfg params blockIdx idx =
        { m_idx := idx % seqlen cfg params blockIdx, bidh := idx / seqlen cfg params blockIdx,
          bidb := 0 } ∧
      0 ≤ idx % seqlen cfg params blockIdx ∧
      idx % seqlen cfg params blockIdx < seqlen cfg params blockIdx ∧
      0 ≤ idx / seqlen cfg params blockIdx ∧
      idx / seqlen cfg params blockIdx < params.shape_LSE_partial.head) ∧
    (∀ mi : Nat,
      seqlen cfg params blockIdx * params.shape_LSE_partial.head ≤ tileIdx cfg blockIdx mi →
      tObidb cfg params blockIdx mi = -1 ∧
      (∀ split stage sO st col,
        load_O_partial cfg params blockIdx split stage sO st mi col = sO st mi col) ∧
      (∀ sO st col, prologue cfg params blockIdx sO st mi col = sO st mi col) ∧
      (∀ sLSE s st stage col,
        (accumulateStep cfg params blockIdx sLSE s st).sO stage mi col = st.sO stage mi col ∧
        (accumulateStep cfg params blockIdx sLSE s st).tOrO mi col = st.tOrO mi col) ∧
      (∀ sLSE sO st col,
        (accumulate cfg params blockIdx sLSE sO).sO st mi col = sO st mi col ∧
        (accumulate cfg params blockIdx sLSE sO).tOrO mi col = Val.zero) ∧
      (∀ lse mLSE, storeLSERow cfg params blockIdx lse mi mLSE = mLSE) ∧
      (∀ (Element : Type) (rO : Nat → Nat → Element) mO,
        storeORow cfg params blockIdx rO mi mO = mO) ∧
      (seqlen cfg params blockIdx * params.shape_LSE_partial.head ≤
          tileIdx cfg blockIdx
            (mi / cfg.kGmemElemsPerLoadLSE * cfg.kGmemElemsPerLoadLSE) →
        ∀ sLSE s, loadLSE cfg params blockIdx sLSE s mi = sLSE s mi) ∧
      (cfg.kGmemElemsPerLoadLSE = 1 →
        ∀ sLSE s, loadLSE cfg params blockIdx sLSE s mi = sLSE s mi)) := by
  have hm : max_idx cfg params blockIdx =
      seqlen cfg params blockIdx * params.shape_LSE_partial.head := by
    unfold max_idx
    rw [hB, Int.mul_one]
  rw [← hm]
  refine ⟨fun idx => Iff.rfl, ?_, ?_, ?_⟩
  · intro mi
    unfold tObidb
    rw [resolve_varlen _ _ _ _ hv]
    constructor
    · intro h
      by_contra hge
      have hge2 : tileIdx cfg blockIdx mi ≥ max_idx cfg params blockIdx := not_lt.1 hge
      rw [if_pos hge2] at h
      omega
    · intro h
      have hlt2 : ¬ tileIdx cfg blockIdx mi ≥ max_idx cfg params blockIdx := not_le.2 h
      rw [if_neg hlt2]
  · intro idx h0 h
    refine ⟨resolve_varlen _ _ _ _ hv, Int.emod_nonneg _ hL.ne', Int.emod_lt_of_pos _ hL,
      Int.ediv_nonneg h0 hL.le, ?_⟩
    apply Int.ediv_lt_of_lt_mul hL
    calc idx < max_idx cfg params blockIdx := h
      _ = params.shape_LSE_partial.head * seqlen cfg params blockIdx := by rw [hm]; ring
  · intro mi h
    refine ⟨tObidb_invalid cfg params blockIdx mi h,
      load_O_partial_invalid cfg params blockIdx mi h,
      prologue_invalid cfg params blockIdx mi h,
      accumulateStep_invalid cfg params blockIdx mi h,
      accumulate_invalid cfg params blockIdx mi h,
      storeLSERow_invalid cfg params blockIdx mi h,
      fun _ => storeORow_invalid cfg params blockIdx mi h,
      fun hvec => loadLSE_invalid cfg hwf params blockIdx mi hvec, ?_⟩
    intro hE
    refine loadLSE_invalid cfg hwf params blockIdx mi ?_
    rw [hE, Nat.div_one, Nat.mul_one]
    exact h

theorem varlen_resolution_witness :
    cfgVarlen.WellFormed ∧ cfgVarlen.Varlen = true ∧ seqlen cfgVarlen paramsPacked ⟨0, 1⟩ = 2 ∧
      paramsPacked.shape_LSE_partial.head = 1 ∧ paramsPacked.shape_LSE_partial.batch = 1 ∧
      0 ≤ tObidb cfgVarlen paramsPacked ⟨0, 1⟩ 1 ∧
      resolve cfgVarlen paramsPacked ⟨0, 1⟩ 1 = { m_idx := 1, bidh := 0, bidb := 0 } ∧
      tObidb cfgVarlen paramsPacked ⟨0, 1⟩ 2 = -1 ∧
      loadLSE cfgVarlen paramsPacked ⟨0, 1⟩ sLSEEx 0 2 = sLSEEx 0 2 :=
  ⟨by decide, rfl, by decide, rfl, rfl,
    ((varlen_resolution cfgVarlen (by decide) paramsPacked ⟨0, 1⟩ rfl (by decide) rfl).2.1
      1).2 (by decide),
    ((varlen_resolution cfgVarlen (by decide) paramsPacked ⟨0, 1⟩ rfl (by decide) rfl).2.2.1
      1 (by decide) (by decide)).1,
    ((varlen_resolution cfgVarlen (by decide) paramsPacked ⟨0, 1⟩ rfl (by decide) rfl).2.2.2
      2 (by decide)).1,
    ((varlen_resolution cfgVarlen (by decide) paramsPacked ⟨0, 1⟩ rfl (by decide) rfl).2.2.2
      2 (by decide)).2.2.2.2.2.2.2.2 (by decide) sLSEEx 0⟩

/-- C9 as stated fails in two ways.  When the batch extent of the shape is not 1: with a
used length of 2, one head and batch extent 2, the index 2 is not below `L_b * H = 2`, but
the kernel accepts it (`2 < max_idx = 4`, batch marker 0) and resolves it to head 1, which is
not below `H = 1`.  When statistics are transferred two at a time: with a used length of 3,
one head and batch extent 1, tile row 3 is at the valid element count 3 and carries the batch
marker `-1`, but Step 1 loads it together with row 2, the first row of its vector, and its
scratch slot 0 goes from the sentinel to the number 5. -/
theorem varlen_resolution_counterexample :
    (cfgVarlen.Varlen = true ∧ seqlen cfgVarlen paramsUsed ⟨0, 0⟩ = 2 ∧
      paramsUsed.shape_LSE_partial.head = 1 ∧
      ¬ ((2 : Int) < seqlen cfgVarlen paramsUsed ⟨0, 0⟩ * paramsUsed.shape_LSE_partial.head) ∧
      (2 : Int) < max_idx cfgVarlen paramsUsed ⟨0, 0⟩ ∧
      tileIdx cfgVarlen ⟨0, 0⟩ 2 = 2 ∧ tObidb cfgVarlen paramsUsed ⟨0, 0⟩ 2 = 0 ∧
      (resolve cfgVarlen paramsUsed ⟨0, 0⟩ 2).bidh = 1 ∧
      ¬ ((resolve cfgVarlen paramsUsed ⟨0, 0⟩ 2).bidh < paramsUsed.shape_LSE_partial.head)) ∧
    (cfgVecVarlen.Varlen = true ∧ cfgVecVarlen.WellFormed ∧
      cfgVecVarlen.kGmemElemsPerLoadLSE = 2 ∧
      seqlen cfgVecVarlen paramsVecUsed ⟨0, 0⟩ = 3 ∧
      paramsVecUsed.shape_LSE_partial.head = 1 ∧ paramsVecUsed.shape_LSE_partial.batch = 1 ∧
      max_idx cfgVecVarlen paramsVecUsed ⟨0, 0⟩ = 3 ∧
      tileIdx cfgVecVarlen ⟨0, 0⟩ 3 = 3 ∧
      tObidb cfgVecVarlen paramsVecUsed ⟨0, 0⟩ 3 = -1 ∧
      smemEx.smem_lse_partial 0 3 = Val.negInf ∧
      loadLSE cfgVecVarlen paramsVecUsed ⟨0, 0⟩ smemEx.smem_lse_partial 0 3 = Val.fin 5 ∧
      loadLSE cfgVecVarlen paramsVecUsed ⟨0, 0⟩ smemEx.smem_lse_partial 0 3 ≠
        smemEx.smem_lse_partial 0 3) := by
  have hload : loadLSE cfgVecVarlen paramsVecUsed ⟨0, 0⟩ smemEx.smem_lse_partial 0 3 =
      Val.fin 5 := by
    rw [loadLSE_spec cfgVecVarlen (by decide), if_pos (by decide)]
    have hc : resolve cfgVecVarlen paramsVecUsed ⟨0, 0⟩ (tileIdx cfgVecVarlen ⟨0, 0⟩ 2) =
        { m_idx := 2, bidh := 0, bidb := 0 } := by decide
    have hE : cfgVecVarlen.kGmemElemsPerLoadLSE = 2 := by decide
    have hoff : offset cfgVecVarlen paramsVecUsed ⟨0, 0⟩ = 0 := by decide
    unfold loadedValue mLSEpartial_copy lseRow
    simp only [hE, hoff]
    rw [if_pos (by decide)]
    norm_num
    rw [hc]
    simp only [paramsVecUsed]
    norm_num
  refine ⟨by decide, rfl, by decide, by decide, by decide, rfl, rfl, by decide, by decide,
    by decide, rfl, hload, ?_⟩
  rw [hload]
  intro h
  cases h

/-! ## Variable-length batches -/

/-- The counters of the accumulation loop when iteration `s` begins. -/
theorem accumulateUpTo_counters (cfg : Config) (params : Params) (blockIdx : BlockIdx)
    (sLSE : Nat → Nat → Val) (sO : Nat → Nat → Nat → Val) (s : Nat) :
    (accumulateUpTo cfg params blockIdx sLSE sO s).stage_compute = s % kStages ∧
      (accumulateUpTo cfg params blockIdx sLSE sO s).stage_load =
        (s + (kStages - 1)) % kStages := by
  unfold accumulateUpTo
  refine forLoop_invariant
    (fun i (st : AccState) =>
      st.stage_compute = i % kStages ∧ st.stage_load = (i + (kStages - 1)) % kStages)
    0 s _ _ (Nat.zero_le _) ⟨rfl, rfl⟩ ?_
  rintro i st _ _ ⟨hc, hl⟩
  have h4 : kStages = 4 := rfl
  rw [h4] at hc hl
  constructor
  · simp only [accumulateStep, h4, hc]
    split_ifs <;> omega
  · simp only [accumulateStep, h4, hl]
    split_ifs <;> omega

/-- Every split's transfer is issued into the stage `j mod kStages`. -/
theorem stageIssued_eq (cfg : Config) (params : Params) (blockIdx : BlockIdx)
    (sLSE : Nat → Nat → Val) (sO : Nat → Nat → Nat → Val) (j : Nat) :
    stageIssued cfg params blockIdx sLSE sO j = j % kStages := by
  have h4 : kStages = 4 := rfl
  unfold stageIssued stageFilled
  rw [(accumulateUpTo_counters cfg params blockIdx sLSE sO _).2, h4]
  split_ifs with h <;> omega

/-- The loop invariant holds whenever an iteration within `num_splits` begins. -/
theorem accInv_upTo (cfg : Config) (params : Params) (blockIdx : BlockIdx)
    (sLSE : Nat → Nat → Val) (sO : Nat → Nat → Nat → Val) (s : Nat)
    (hs : (s : Int) ≤ num_splits params) :
    AccInv cfg params blockIdx sLSE s
      (accumulateUpTo cfg params blockIdx sLSE (prologue cfg params blockIdx sO) s) := by
  unfold accumulateUpTo
  refine forLoop_invariant (AccInv cfg params blockIdx sLSE) 0 s _ _ (Nat.zero_le _) ?_ ?_
  · refine ⟨rfl, rfl, fun mi col => ?_, ?_⟩
    · simp [accumulateDirect, forLoop_of_le]
    · intro j mi col _ h2 h3 hrow _ hcol
      have h4 : kStages = 4 := rfl
      have hj : j % kStages = j := by
        rw [h4] at h2 ⊢
        omega
      rw [hj]
      exact prologue_stage cfg params blockIdx sO j mi col (by omega) h3 hrow hcol
  · intro i st _ h2 hst
    exact accInv_step cfg params blockIdx sLSE i st (by omega) hst

/-- C11 (stage FIFO invariant).  For every `num_splits` and every split `s < num_splits`, in
the accumulation loop started from the scratch ring that the first transfers of Step 2 leave:
the stage that iteration `s` drains is `s mod kStages`, and so is the stage into which the
transfer of split `s` was issued (stage `s` in Step 2 for `s < kStages - 1`, the stage filled
by iteration `s - (kStages - 1)` otherwise), so the two are the same stage, and when
iteration `s` begins that stage holds the tile of split `s` wherever the split is used; the
stage that iteration `s` fills with split `s + kStages - 1` is `(s + kStages - 1) mod kStages`
and differs from the stage it drains; every split whose transfer was issued earlier into
that stage is a split `j < s`, already drained, and for `s > 0` the last of them is split
`s - 1`, drained from that stage by iteration `s - 1`. -/
theorem stage_fifo (cfg : Config) (params : Params) (blockIdx : BlockIdx)
    (sLSE : Nat → Nat → Val) (sO : Nat → Nat → Nat → Val) (s : Nat)
    (hs : (s : Int) < num_splits params) :
    stageDrained cfg params blockIdx sLSE (prologue cfg params blockIdx sO) s = s % kStages ∧
    stageIssued cfg params blockIdx sLSE (prologue cfg params blockIdx sO) s = s % kStages ∧
    stageIssued cfg params blockIdx sLSE (prologue cfg params blockIdx sO) s =
      stageDrained cfg params blockIdx sLSE (prologue cfg params blockIdx sO) s ∧
    (∀ mi col, tObidb cfg params blockIdx mi ≥ 0 → Val.gt (sLSE s mi) Val.zero = true →
      colActive cfg params col = true →
      (accumulateUpTo cfg params blockIdx sLSE (prologue cfg params blockIdx sO) s).sO
          (stageDrained cfg params blockIdx sLSE (prologue cfg params blockIdx sO) s) mi col =
        fetched cfg params blockIdx s mi col) ∧
    stageFilled cfg params blockIdx sLSE (prologue cfg params blockIdx sO) s =
      (s + (kStages - 1)) % kStages ∧
    stageFilled cfg params blockIdx sLSE (prologue cfg params blockIdx sO) s ≠
      stageDrained cfg params blockIdx sLSE (prologue cfg params blockIdx sO) s ∧
    (∀ j, j < s + (kStages - 1) →
      stageIssued cfg params blockIdx sLSE (prologue cfg params blockIdx sO) j =
        stageFilled cfg params blockIdx sLSE (prologue cfg params blockIdx sO) s → j < s) ∧
    (0 < s →
      stageIssued cfg params blockIdx sLSE (prologue cfg params blockIdx sO) (s - 1) =
        stageFilled cfg params blockIdx sLSE (prologue cfg params blockIdx sO) s ∧
      stageDrained cfg params blockIdx sLSE (prologue cfg params blockIdx sO) (s - 1) =
        stageFilled cfg params blockIdx sLSE (prologue cfg params blockIdx sO) s) := by
  have h4 : kStages = 4 := rfl
  have hcnt := accumulateUpTo_counters cfg params blockIdx sLSE (prologue cfg params blockIdx sO)
  have hiss := stageIssued_eq cfg params blockIdx sLSE (prologue cfg params blockIdx sO)
  have hd : ∀ i, stageDrained cfg params blockIdx sLSE (prologue cfg params blockIdx sO) i =
      i % kStages := fun i => (hcnt i).1
  have hf : ∀ i, stageFilled cfg params blockIdx sLSE (prologue cfg params blockIdx sO) i =
      (i + (kStages - 1)) % kStages := fun i => (hcnt i).2
  refine ⟨hd s, hiss s, by rw [hiss, hd], ?_, hf s, ?_, ?_, ?_⟩
  · intro mi col hrow hgt hcol
    rw [hd]
    exact (accInv_upTo cfg params blockIdx sLSE sO s hs.le).2.2.2 s mi col (Nat.le_refl s)
      (by rw [h4]; omega) hs hrow hgt hcol
  · rw [hf, hd, h4]
    omega
  · intro j hj
    rw [hiss, hf, h4]
    rw [h4] at hj
    omega
  · intro hpos
    rw [hiss, hd, hf, h4]
    omega

theorem stage_fifo_witness :
    ((5 : Nat) : Int) < num_splits paramsEight ∧
      stageDrained cfgEx paramsEight ⟨0, 0⟩ sLSEEx
        (prologue cfgEx paramsEight ⟨0, 0⟩ smemEx.smem_o_partial) 5 = 1 ∧
      stageIssued cfgEx paramsEight ⟨0, 0⟩ sLSEEx
        (prologue cfgEx paramsEight ⟨0, 0⟩ smemEx.smem_o_partial) 5 = 1 ∧
      stageFilled cfgEx paramsEight ⟨0, 0⟩ sLSEEx
        (prologue cfgEx paramsEight ⟨0, 0⟩ smemEx.smem_o_partial) 5 = 0 :=
  ⟨by decide,
    (stage_fifo cfgEx paramsEight ⟨0, 0⟩ sLSEEx smemEx.smem_o_partial 5 (by decide)).1,
    (stage_fifo cfgEx paramsEight ⟨0, 0⟩ sLSEEx smemEx.smem_o_partial 5 (by decide)).2.1,
    (stage_fifo cfgEx paramsEight ⟨0, 0⟩ sLSEEx smemEx.smem_o_partial 5
      (by decide)).2.2.2.2.1⟩

/-! ## The weight test of the prefetch -/

theorem accRel_step (cfg : Config) (params : Params) (blockIdx : BlockIdx)
    (sLSE : Nat → Nat → Val) (s : Nat) (st st2 : AccState)
    (hs : (s : Int) < num_splits params) (h : AccRel cfg params blockIdx sLSE s st st2) :
    AccRel cfg params blockIdx sLSE (s + 1) (accumulateStep cfg params blockIdx sLSE s st)
      (accumulateStepNoSkip cfg params blockIdx sLSE s st2) := by
  obtain ⟨hc, hl, hc2, hl2, hacc, hring⟩ := h
  have h4 : kStages = 4 := rfl
  rw [h4] at hc hl hc2 hl2
  simp only [h4] at hring
  have hne : s % 4 ≠ (s + 3) % 4 := by omega
  refine ⟨?_, ?_, ?_, ?_, ?_, ?_⟩
  · simp only [accumulateStep, h4, hc]
    split_ifs <;> omega
  · simp only [accumulateStep, h4, hl]
    split_ifs <;> omega
  · simp only [accumulateStepNoSkip, h4, hc2]
    split_ifs <;> omega
  · simp only [accumulateStepNoSkip, h4, hl2]
    split_ifs <;> omega
  · intro mi col
    have hA : (accumulateStep cfg params blockIdx sLSE s st).tOrO mi col =
        if tObidb cfg params blockIdx mi ≥ 0 ∧ Val.gt (sLSE s mi) Val.zero = true ∧
            colActive cfg params col = true then
          Val.add (st.tOrO mi col) (Val.mul (sLSE s mi) (st.sO (s % 4) mi col))
        else st.tOrO mi col := by
      simp only [accumulateStep, h4, hc, hl]
      split_ifs <;> simp_all
    have hB : (accumulateStepNoSkip cfg params blockIdx sLSE s st2).tOrO mi col =
        if tObidb cfg params blockIdx mi ≥ 0 ∧ Val.gt (sLSE s mi) Val.zero = true ∧
            colActive cfg params col = true then
          Val.add (st2.tOrO mi col) (Val.mul (sLSE s mi) (st2.sO (s % 4) mi col))
        else st2.tOrO mi col := by
      simp only [accumulateStepNoSkip, h4, hc2, hl2]
      split_ifs <;> simp_all
    rw [hA, hB]
    by_cases hcond : tObidb cfg params blockIdx mi ≥ 0 ∧ Val.gt (sLSE s mi) Val.zero = true ∧
        colActive cfg params col = true
    · rw [if_pos hcond, if_pos hcond, hacc mi col,
        hring s mi col (Nat.le_refl s) (by omega) hs hcond.1 hcond.2.1 hcond.2.2]
    · rw [if_neg hcond, if_neg hcond, hacc mi col]
  · intro j mi col h1 h2 h3 hrow hgt hcol
    simp only [h4] at h2 ⊢
    rcases Nat.lt_or_ge j (s + 3) with hlt | hge
    · have hj : j % 4 ≠ (s + 3) % 4 := by omega
      have hA : (accumulateStep cfg params blockIdx sLSE s st).sO (j % 4) mi col =
          st.sO (j % 4) mi col := by
        simp only [accumulateStep, h4, hl]
        split_ifs <;> simp_all
      have hB : (accumulateStepNoSkip cfg params blockIdx sLSE s st2).sO (j % 4) mi col =
          st2.sO (j % 4) mi col := by
        simp only [accumulateStepNoSkip, h4, hl2]
        split_ifs <;> simp_all
      rw [hA, hB]
      exact hring j mi col (by omega) (by omega) h3 hrow hgt hcol
    · have hj : j = s + 3 := by omega
      subst hj
      have e1 : s + 4 - 1 = s + 3 := by omega
      have hA : (accumulateStep cfg params blockIdx sLSE s st).sO ((s + 3) % 4) mi col =
          fetched cfg params blockIdx ((s + 3 : Nat) : Int) mi col := by
        simp only [accumulateStep, h4, hl, e1]
        rw [if_pos h3, if_pos ⟨rfl, hrow, hgt, hcol⟩]
      have hB : (accumulateStepNoSkip cfg params blockIdx sLSE s st2).sO ((s + 3) % 4) mi col =
          fetched cfg params blockIdx ((s + 3 : Nat) : Int) mi col := by
        simp only [accumulateStepNoSkip, h4, hl2, e1]
        rw [if_pos h3, if_pos ⟨rfl, hrow, hcol⟩]
      rw [hA, hB]

/-- The two loops stay related through every iteration within `num_splits`. -/
theorem accRel_loop (cfg : Config) (params : Params) (blockIdx : BlockIdx)
    (sLSE : Nat → Nat → Val) (init : AccState)
    (hinit : AccRel cfg params blockIdx sLSE 0 init init) (n : Nat)
    (hn : ∀ k, k < n → (k : Int) < num_splits params) :
    AccRel cfg params blockIdx sLSE n
      (forLoop 0 n (accumulateStep cfg params blockIdx sLSE) init)
      (forLoop 0 n (accumulateStepNoSkip cfg params blockIdx sLSE) init) := by
  induction n with
  | zero =>
    rw [forLoop_of_le _ _ _ _ (Nat.le_refl 0), forLoop_of_le _ _ _ _ (Nat.le_refl 0)]
    exact hinit
  | succ k ih =>
    rw [forLoop_succ _ _ _ _ (Nat.zero_le k), forLoop_succ _ _ _ _ (Nat.zero_le k)]
    exact accRel_step cfg params blockIdx sLSE k _ _ (hn k (Nat.lt_succ_self k))
      (ih (fun i hi => hn i (Nat.lt_succ_of_lt hi)))

/-- C12 (skip-on-zero-weight has no effect on the result).  For every `num_splits`, every
validity marking, every content of the weight scratch buffer (zero, negative and
not-a-number weights included) and every content of the scratch ring when the loop starts,
the accumulator that the loop of Step 6 leaves, with the transfer for split
`s + kStages - 1` issued for a row only when its weight is `> 0`, equals in every row and
column the accumulator left by the same loop with the transfer issued for every valid row. -/
theorem skip_has_no_effect (cfg : Config) (params : Params) (blockIdx : BlockIdx)
    (sLSE : Nat → Nat → Val) (sO : Nat → Nat → Nat → Val) (mi col : Nat) :
    (accumulate cfg params blockIdx sLSE sO).tOrO mi col =
      (accumulateNoSkip cfg params blockIdx sLSE sO).tOrO mi col := by
  have hinit : AccRel cfg params blockIdx sLSE 0
      { sO := sO, tOrO := fun _ _ => Val.zero, stage_load := kStages - 1, stage_compute := 0 }
      { sO := sO, tOrO := fun _ _ => Val.zero, stage_load := kStages - 1, stage_compute := 0 } :=
    ⟨rfl, rfl, rfl, rfl, fun _ _ => rfl, fun _ _ _ _ _ _ _ _ _ => rfl⟩
  exact (accRel_loop cfg params blockIdx sLSE _ hinit _
    (fun k hk => Int.lt_toNat.1 hk)).2.2.2.2.1 mi col

/-! ## The guard on the sum -/

theorem Val.add_eq_fin (a b : Val) (c : ℝ) (h : Val.add a b = Val.fin c) :
    (∃ x, a = Val.fin x) ∧ ∃ y, b = Val.fin y := by
  cases a <;> cases b <;> simp [Val.add] at h ⊢

theorem Val.add_nan_left (b : Val) : Val.add Val.nan b = Val.nan := by
  cases b <;> rfl

theorem Val.add_nan_right (a : Val) : Val.add a Val.nan = Val.nan := by
  cases a <;> rfl

theorem Val.exp_nonneg (v : Val) (r : ℝ) (h : Val.exp v = Val.fin r) : 0 ≤ r := by
  cases v with
  | fin a =>
    simp only [Val.exp, Val.fin.injEq] at h
    rw [← h]
    exact (Real.exp_pos a).le
  | posInf => simp [Val.exp] at h
  | negInf =>
    simp only [Val.exp, Val.fin.injEq] at h
    rw [← h]
  | nan => simp [Val.exp] at h

/-- A running sum that ends finite started finite and met only finite values. -/
theorem forLoop_add_fin_inv (g : Nat → Val) (lo hi : Nat) (h : lo ≤ hi) (init : Val) (c : ℝ)
    (hsum : forLoop lo hi (fun i acc => Val.add acc (g i)) init = Val.fin c) :
    (∃ a, init = Val.fin a) ∧ ∀ i, lo ≤ i → i < hi → ∃ r, g i = Val.fin r := by
  induction hi generalizing c with
  | zero =>
    have hlo : lo = 0 := by omega
    subst hlo
    rw [forLoop_of_le _ _ _ _ (Nat.le_refl 0)] at hsum
    exact ⟨⟨c, hsum⟩, fun i _ hi => absurd hi (by omega)⟩
  | succ n ih =>
    rcases Nat.lt_or_ge n lo with hlt | hge
    · have hlo : lo = n + 1 := by omega
      subst hlo
      rw [forLoop_of_le _ _ _ _ (Nat.le_refl _)] at hsum
      exact ⟨⟨c, hsum⟩, fun i h1 h2 => absurd h2 (by omega)⟩
    · rw [forLoop_succ _ _ _ _ hge] at hsum
      obtain ⟨⟨x, hx⟩, hy⟩ := Val.add_eq_fin _ _ c hsum
      obtain ⟨hinit, hrest⟩ := ih hge x hx
      refine ⟨hinit, fun i h1 h2 => ?_⟩
      rcases Nat.lt_or_ge i n with hi | hi
      · exact hrest i h1 hi
      · have : i = n := by omega
        subst this
        exact hy

/-- A running sum that starts at not-a-number or meets one ends at not-a-number. -/
theorem forLoop_add_nan (g : Nat → Val) (lo hi : Nat) (h : lo ≤ hi) (init : Val)
    (hnan : init = Val.nan ∨ ∃ i, lo ≤ i ∧ i < hi ∧ g i = Val.nan) :
    forLoop lo hi (fun i acc => Val.add acc (g i)) init = Val.nan := by
  refine forLoop_invariant
    (fun i acc => (init = Val.nan ∨ ∃ j, lo ≤ j ∧ j < i ∧ g j = Val.nan) → acc = Val.nan)
    lo hi _ _ h ?_ ?_ hnan
  · rintro (h0 | ⟨j, h1, h2, _⟩)
    · exact h0
    · omega
  · rintro i acc h1 _ ih (h0 | ⟨j, hj1, hj2, hj3⟩)
    · rw [ih (Or.inl h0), Val.add_nan_left]
    · rcases Nat.lt_or_ge j i with hlt | hge
      · rw [ih (Or.inr ⟨j, hj1, hlt, hj3⟩), Val.add_nan_left]
      · have : j = i := by omega
        subst this
        rw [hj3, Val.add_nan_right]

/-- When the row sum is finite, the `scale` of every slot is finite. -/
theorem rowSum_fin_inv (cfg : Config) (hwf : cfg.WellFormed) (row : Nat → Val) (c : ℝ)
    (hsum : rowSum cfg row = Val.fin c) (s : Nat) (hs : s < cfg.kMaxSplits) :
    ∃ r, rawScale cfg row s = Val.fin r := by
  have hT : 0 < cfg.kSmemThreadsPerColLSEt := hwf.2.2.2.2.2.1
  obtain ⟨l, j, hl, hj, rfl⟩ := exists_laneSlot cfg hwf s hs
  unfold rowSum Allreduce at hsum
  obtain ⟨⟨a0, h0⟩, hrest⟩ := forLoop_add_fin_inv (laneSum cfg row) 1 _ hT _ c hsum
  have hlane : ∃ a, laneSum cfg row l = Val.fin a := by
    rcases Nat.eq_zero_or_pos l with hz | hp
    · subst hz
      exact ⟨a0, h0⟩
    · exact hrest l hp hl
  obtain ⟨a, ha⟩ := hlane
  unfold laneSum at ha
  exact (forLoop_add_fin_inv (fun t => rawScale cfg row (laneSlot cfg l t)) 0 _
    (Nat.zero_le _) _ a ha).2 j (Nat.zero_le _) hj

/-- When the row sum is zero, the `scale` of every slot is zero. -/
theorem rowSum_zero_scales (cfg : Config) (hwf : cfg.WellFormed) (row : Nat → Val)
    (hsum : rowSum cfg row = Val.fin 0) (s : Nat) (hs : s < cfg.kMaxSplits) :
    rawScale cfg row s = Val.fin 0 := by
  have hfin := rowSum_fin_inv cfg hwf row 0 hsum
  choose f hf using hfin
  have hf2 : ∀ t, t < cfg.kMaxSplits →
      rawScale cfg row t = Val.fin ((fun u => if h : u < cfg.kMaxSplits then f u h else 0) t) := by
    intro t ht
    simp only [dif_pos ht]
    exact hf t ht
  have hnn : ∀ t ∈ Finset.range cfg.kMaxSplits,
      0 ≤ (fun u => if h : u < cfg.kMaxSplits then f u h else 0) t := by
    intro t ht
    have ht2 := Finset.mem_range.1 ht
    simp only [dif_pos ht2]
    exact Val.exp_nonneg _ _ (hf t ht2)
  have hall := rowSum_fin cfg hwf row _ hf2
  rw [hsum] at hall
  injection hall with hall
  have hz := (Finset.sum_eq_zero_iff_of_nonneg hnn).1 hall.symm s (Finset.mem_range.2 hs)
  rw [hf2 s hs]
  exact congrArg Val.fin hz

/-- When the `scale` of some slot is not-a-number, so is the row sum. -/
theorem rowSum_nan (cfg : Config) (hwf : cfg.WellFormed) (row : Nat → Val) (s : Nat)
    (hs : s < cfg.kMaxSplits) (hnan : rawScale cfg row s = Val.nan) :
    rowSum cfg row = Val.nan := by
  have hT : 0 < cfg.kSmemThreadsPerColLSEt := hwf.2.2.2.2.2.1
  obtain ⟨l, j, hl, hj, rfl⟩ := exists_laneSlot cfg hwf s hs
  have hlane : laneSum cfg row l = Val.nan := by
    unfold laneSum
    exact forLoop_add_nan (fun t => rawScale cfg row (laneSlot cfg l t)) 0 _ (Nat.zero_le _) _
      (Or.inr ⟨j, Nat.zero_le _, hj, hnan⟩)
  unfold rowSum Allreduce
  refine forLoop_add_nan (laneSum cfg row) 1 _ hT _ ?_
  rcases Nat.eq_zero_or_pos l with hz | hp
  · subst hz
    exact Or.inl hlane
  · exact Or.inr ⟨l, hp, hl, hlane⟩

theorem rawScale_of_nan (cfg : Config) (row : Nat → Val) (s : Nat) (h : row s = Val.nan) :
    rawScale cfg row s = Val.nan := by
  unfold rawScale Val.sub
  rw [h, Val.add_nan_left]
  rfl

theorem invSum_of_degenerate (cfg : Config) (row : Nat → Val)
    (hsum : rowSum cfg row = Val.fin 0 ∨ rowSum cfg row = Val.nan) :
    invSum cfg row = Val.fin 0 := by
  unfold invSum
  rcases hsum with h | h
  · simp [h, Val.beq, Val.zero]
  · simp [h, Val.beq, Val.bne, Val.zero]

theorem rowSum_of_sentinel (cfg : Config) (hwf : cfg.WellFormed) (row : Nat → Val)
    (hrow : ∀ s, s < cfg.kMaxSplits → row s = Val.negInf) : rowSum cfg row = Val.fin 0 := by
  obtain ⟨c, hc, hc2⟩ := rowMax_stat cfg hwf row (fun _ => none) hrow
  have hcn : c = none := hc2.2 (fun _ _ => rfl)
  subst hcn
  have hmax : rowMax cfg row = Val.negInf := hc
  have hcur : lseMaxCur cfg row = Val.fin 0 := by
    simp [lseMaxCur, hmax, Val.beq, Val.zero]
  have hscale : ∀ s, s < cfg.kMaxSplits → rawScale cfg row s = Val.fin ((fun _ => (0 : ℝ)) s) := by
    intro s hs
    unfold rawScale
    rw [hrow s hs, hcur]
    simp [Val.sub, Val.neg, Val.add, Val.exp]
  rw [rowSum_fin cfg hwf row _ hscale]
  simp

/-- C13 (degenerate-sum guard), amended.  For every tile row and every content of its
statistic slots, not-a-number and `+inf` included: if the sum of the slot values
`exp(statistic - max)` is zero or not-a-number, the factor `inv_sum` is zero and the weight
stored back is exactly zero in every slot whose value `exp(statistic - max)` is finite; if
the sum is zero, that is every one of the `kMaxSplits` slots. -/
theorem degenerate_sum_guard (cfg : Config) (hwf : cfg.WellFormed) (sLSE : Nat → Nat → Val)
    (mi : Nat)
    (hsum : rowSum cfg (fun t => sLSE t mi) = Val.fin 0 ∨
      rowSum cfg (fun t => sLSE t mi) = Val.nan) :
    invSum cfg (fun t => sLSE t mi) = Val.fin 0 ∧
    (∀ s r, rawScale cfg (fun t => sLSE t mi) s = Val.fin r →
      storeScales cfg sLSE s mi = Val.fin 0) ∧
    (rowSum cfg (fun t => sLSE t mi) = Val.fin 0 →
      ∀ s, s < cfg.kMaxSplits → storeScales cfg sLSE s mi = Val.fin 0) := by
  have hinv := invSum_of_degenerate cfg (fun t => sLSE t mi) hsum
  have hfin : ∀ s r, rawScale cfg (fun t => sLSE t mi) s = Val.fin r →
      storeScales cfg sLSE s mi = Val.fin 0 := by
    intro s r hr
    simp only [storeScales, mergeRow, hr, hinv, Val.mul]
    simp
  refine ⟨hinv, hfin, fun hz s hs => ?_⟩
  exact hfin s 0 (rowSum_zero_scales cfg hwf _ hz s hs)

theorem degenerate_sum_guard_witness :
    cfgEx.WellFormed ∧ rowSum cfgEx (fun _ => Val.negInf) = Val.fin 0 ∧
      invSum cfgEx (fun _ => Val.negInf) = Val.fin 0 ∧
      storeScales cfgEx (fun _ _ => Val.negInf) 5 0 = Val.fin 0 :=
  ⟨cfgEx_wellFormed, rowSum_of_sentinel cfgEx cfgEx_wellFormed _ (fun _ _ => rfl),
    (degenerate_sum_guard cfgEx cfgEx_wellFormed (fun _ _ => Val.negInf) 0
      (Or.inl (rowSum_of_sentinel cfgEx cfgEx_wellFormed _ (fun _ _ => rfl)))).1,
    (degenerate_sum_guard cfgEx cfgEx_wellFormed (fun _ _ => Val.negInf) 0
      (Or.inl (rowSum_of_sentinel cfgEx cfgEx_wellFormed _ (fun _ _ => rfl)))).2.2
      (rowSum_of_sentinel cfgEx cfgEx_wellFormed _ (fun _ _ => rfl)) 5 (by decide)⟩

/-- C13 as stated fails for a not-a-number statistic: with not-a-number in slot 0 and the
sentinel in the other slots, the sum of the slot values is not-a-number and `inv_sum` is
zero, but the weight stored back in slot 0 is the product of not-a-number and zero, which is
not-a-number and not zero. -/
theorem degenerate_sum_guard_counterexample :
    sLSENaN 0 0 = Val.nan ∧
      rawScale cfgEx (fun t => sLSENaN t 0) 0 = Val.nan ∧
      rowSum cfgEx (fun t => sLSENaN t 0) = Val.nan ∧
      invSum cfgEx (fun t => sLSENaN t 0) = Val.fin 0 ∧
      storeScales cfgEx sLSENaN 0 0 = Val.nan ∧
      storeScales cfgEx sLSENaN 0 0 ≠ Val.fin 0 := by
  have hscale : rawScale cfgEx (fun t => sLSENaN t 0) 0 = Val.nan :=
    rawScale_of_nan cfgEx _ 0 rfl
  have hsum : rowSum cfgEx (fun t => sLSENaN t 0) = Val.nan :=
    rowSum_nan cfgEx cfgEx_wellFormed _ 0 (by decide) hscale
  have hinv := invSum_of_degenerate cfgEx (fun t => sLSENaN t 0) (Or.inr hsum)
  have hw : storeScales cfgEx sLSENaN 0 0 = Val.nan := by
    simp only [storeScales, mergeRow, hscale, hinv, Val.mul]
  refine ⟨rfl, hscale, hsum, hinv, hw, ?_⟩
  rw [hw]
  intro h
  cases h

end flash
